import Mathlib

/-!
# Verification of the asset-staging script (`compile_shader.py`)

The script compiles a fixed table of shader sources with an external
compiler, creates a set of output trees (`target/debug`, `target/release`,
and on Darwin additionally `target/x86_64-apple-darwin/release`), copies
the compiled shaders and the `.env` file into each tree, and mirrors the
static directories `models`, `resource` and `textures` into each tree by
removing the destination and copying the source anew.

The embedding below models the filesystem as a pure value (a list of
directory paths plus an association list of file paths to byte contents),
every `shutil`/`os` call of the script as a command, and the script itself
as the list of commands it executes, interpreted sequentially.  The
process's working-directory changes (`os.chdir`) are modelled by writing
every path relative to the repository root *as the script actually
resolves it*: `os.chdir('./shaders')` at line 28 aborts the run when the
`shaders` directory is missing, the compile loop and — crucially — the
whole guarded directory-creation block of lines 33-67 run with the working
directory still inside `shaders/` (the `os.chdir('../')` back to the root
only happens at line 70), so the block's `./target/...` paths denote
`shaders/target/...`.  The external compiler is an oracle mapping a source
name and its contents to the compiled artifact contents, or `none` when it
fails; `os.system` discards its exit status, which the interpreter mirrors
by never failing on a compile command.  `shutil.copyfile` fails when its
source is missing and also when its destination's parent is not an
existing directory (opening the destination for writing raises).

An uncaught Python exception terminates the process with a non-zero exit
status; the interpreter mirrors this by returning, together with the state
at the moment of the error, the first `StagingError` raised (carrying the
failed operation kind and the offending path).  A `none` error component
therefore corresponds to a zero exit status.
-/

set_option maxRecDepth 200000

namespace Stager

/-- A filesystem path, split into its components
(`"./target/debug/models"` becomes `["target", "debug", "models"]`). -/
abbrev Path := List String

/-- The filesystem: the set of directories present, and the files present
with their byte contents.  File lookup takes the first matching entry. -/
structure FS where
  dirs : List Path
  files : List (Path × String)
deriving DecidableEq

/-- Is `p` a directory of `fs`? -/
def FS.isDir (fs : FS) (p : Path) : Bool :=
  fs.dirs.contains p

/-- The contents of the file at `p`, if present. -/
def FS.file (fs : FS) (p : Path) : Option String :=
  (fs.files.find? (fun e => e.1 == p)).map (fun e => e.2)

/-- `os.path.exists`: a directory or a file is present at `p`. -/
def FS.pathExists (fs : FS) (p : Path) : Bool :=
  fs.isDir p || (fs.file p).isSome

/-- Write contents `c` to the file at `p`, replacing any previous file. -/
def FS.setFile (fs : FS) (p : Path) (c : String) : FS :=
  { fs with files := fs.files.filter (fun e => !(e.1 == p)) ++ [(p, c)] }

/-- The nonempty prefixes of a path: `pathChain ["a","b"] = [["a"], ["a","b"]]`. -/
def pathChain : Path → List Path
  | [] => []
  | a :: rest => [a] :: (pathChain rest).map (fun q => a :: q)

/-- `os.makedirs`: create the directory `p` together with every missing
intermediate directory. -/
def FS.makedirs (fs : FS) (p : Path) : FS :=
  { fs with dirs := fs.dirs ++ (pathChain p).filter (fun q => !fs.dirs.contains q) }

/-- The script's guarded creation `if not os.path.exists(p): os.makedirs(p)`. -/
def FS.mkdirp (fs : FS) (p : Path) : FS :=
  if fs.pathExists p then fs else fs.makedirs p

/-- `shutil.rmtree` once its argument is known to be a directory: remove the
directory and everything below it (directories and files). -/
def FS.rmtreeApply (fs : FS) (p : Path) : FS :=
  { dirs := fs.dirs.filter (fun q => !p.isPrefixOf q),
    files := fs.files.filter (fun e => !p.isPrefixOf e.1) }

/-- Re-root the path `q`, lying below `src`, to lie below `dst`. -/
def rebase (src dst q : Path) : Path :=
  dst ++ q.drop src.length

/-- `shutil.copytree` once its preconditions hold: every directory and file
below `src` is replicated below `dst`. -/
def FS.copytreeApply (fs : FS) (src dst : Path) : FS :=
  { dirs := fs.dirs ++ (fs.dirs.filter (fun q => src.isPrefixOf q)).map (rebase src dst),
    files := fs.files ++ (fs.files.filter (fun e => src.isPrefixOf e.1)).map
      (fun e => (rebase src dst e.1, e.2)) }

/-- The operation kind carried by a `StagingError` (the Python call whose
exception aborts the script). -/
inductive ErrKind where
  /-- `shutil.copyfile`: source file missing (`FileNotFoundError`). -/
  | copyMissingSrc
  /-- `shutil.copyfile`: the destination cannot be opened for writing
  because its parent is not an existing directory (`FileNotFoundError`, or
  `NotADirectoryError` when a file sits where the directory should be). -/
  | copyNoDstDir
  /-- `shutil.rmtree`: argument exists but is not a directory. -/
  | rmtreeNotDir
  /-- `shutil.rmtree`: argument does not exist (`FileNotFoundError`). -/
  | rmtreeMissingPath
  /-- `shutil.copytree`: source directory missing. -/
  | copytreeMissingSrc
  /-- `shutil.copytree`: destination already exists (`FileExistsError`). -/
  | copytreeDstExists
  /-- `os.chdir`: the directory to enter does not exist. -/
  | chdirMissing
deriving DecidableEq

/-- An error surfaced by the script: the failing operation and its path. -/
structure StagingError where
  kind : ErrKind
  path : Path
deriving DecidableEq

/-- The external shader compiler, as an oracle from the source name and its
contents to the compiled artifact contents (`none` = compilation failed,
no output produced). -/
def Compiler := Path → String → Option String

/-- One filesystem-affecting statement of the script. -/
inductive Cmd where
  /-- `os.system('glslangValidator -V x -o y')`, run inside `shaders/`. -/
  | compile (x y : Path)
  /-- `if not os.path.exists(p): os.makedirs(p)`. -/
  | mkdirp (p : Path)
  /-- `shutil.copyfile(src, dst)`. -/
  | copyfile (src dst : Path)
  /-- `shutil.rmtree(p)`. -/
  | rmtree (p : Path)
  /-- `shutil.copytree(src, dst)`. -/
  | copytree (src dst : Path)
deriving DecidableEq

/-- The shader source directory. -/
def shadersD : Path := ["shaders"]

/-- Interpret one command: the state after it, and the error it raises, if
any (in which case the state is unchanged).  A failed compile raises
nothing: the script ignores `os.system`'s return value. -/
def runCmd (comp : Compiler) (fs : FS) : Cmd → FS × Option StagingError
  | .compile x y =>
    (match fs.file (shadersD ++ x) with
     | none => fs
     | some s =>
       match comp x s with
       | none => fs
       | some out => fs.setFile (shadersD ++ y) out, none)
  | .mkdirp p => (fs.mkdirp p, none)
  | .copyfile src dst =>
    (match fs.file src with
     | none => (fs, some ⟨.copyMissingSrc, src⟩)
     | some c =>
       if fs.isDir dst.dropLast then (fs.setFile dst c, none)
       else (fs, some ⟨.copyNoDstDir, dst⟩))
  | .rmtree p =>
    if fs.isDir p then (fs.rmtreeApply p, none)
    else if (fs.file p).isSome then (fs, some ⟨.rmtreeNotDir, p⟩)
    else (fs, some ⟨.rmtreeMissingPath, p⟩)
  | .copytree src dst =>
    if fs.isDir src then
      if fs.pathExists dst then (fs, some ⟨.copytreeDstExists, dst⟩)
      else (fs.copytreeApply src dst, none)
    else (fs, some ⟨.copytreeMissingSrc, src⟩)

/-- Run a command list in sequence, stopping at the first error (an uncaught
exception skips the rest of the script). -/
def runScript (comp : Compiler) (cmds : List Cmd) (fs : FS) : FS × Option StagingError :=
  match cmds with
  | [] => (fs, none)
  | c :: rest =>
    match runCmd comp fs c with
    | (fs2, none) => runScript comp rest fs2
    | (fs2, some e) => (fs2, some e)

/-- The base shader table (`file_names` before the platform branch). -/
def baseNames : List (Path × Path) :=
  [(["basicShader.vert"], ["vert.spv"]),
   (["basicShader_animated.vert"], ["basicShader_animated.spv"]),
   (["basicShader_noTexture.frag"], ["basicShader_noTexture.spv"]),
   (["terrain.vert"], ["terrain_vert.spv"]),
   (["instance.vert"], ["instance_vert.spv"]),
   (["ui.vert"], ["ui_vert.spv"]),
   (["ui.frag"], ["ui_frag.spv"])]

/-- The Windows-specific fragment-shader entries added to `file_names`. -/
def windowsNames : List (Path × Path) :=
  [(["instance.frag"], ["instance_frag.spv"]),
   (["water.frag"], ["water_frag.spv"]),
   (["terrain.frag"], ["terrain_frag.spv"]),
   (["basicShader.frag"], ["frag.spv"])]

/-- The Darwin-specific fragment-shader entries (under `macos/`) added to
`file_names`. -/
def darwinNames : List (Path × Path) :=
  [(["macos", "instance.frag"], ["instance_frag.spv"]),
   (["macos", "water.frag"], ["water_frag.spv"]),
   (["macos", "terrain.frag"], ["terrain_frag.spv"]),
   (["macos", "basicShader.frag"], ["frag.spv"])]

/-- `file_names` after the `platform.system()` branch: the resolved
source-to-output mapping (a Python dict keeps insertion order, and all
added keys are fresh, so the platform entries follow the base entries). -/
def file_names (plt : String) : List (Path × Path) :=
  if plt == "Windows" then baseNames ++ windowsNames
  else if plt == "Darwin" then baseNames ++ darwinNames
  else baseNames

/-- `./target/debug`. -/
def debugRoot : Path := ["target", "debug"]

/-- `./target/release`. -/
def releaseRoot : Path := ["target", "release"]

/-- `./target/x86_64-apple-darwin/release`. -/
def darwinRoot : Path := ["target", "x86_64-apple-darwin", "release"]

/-- The environment file `./.env`. -/
def envFile : Path := [".env"]

/-- The `models` source directory. -/
def modelsD : Path := ["models"]

/-- The `resource` source directory. -/
def resourceD : Path := ["resource"]

/-- The `textures` source directory. -/
def texturesD : Path := ["textures"]

/-- The compile loop (lines 29-30): one compiler invocation per mapping
entry, inside `shaders/`. -/
def compileCmds (names : List (Path × Path)) : List Cmd :=
  names.map (fun e => .compile e.1 e.2)

/-- The five guarded `os.makedirs` calls for one output tree. -/
def treeDirCmds (root : Path) : List Cmd :=
  [.mkdirp root, .mkdirp (root ++ ["shaders"]), .mkdirp (root ++ ["models"]),
   .mkdirp (root ++ ["resource"]), .mkdirp (root ++ ["textures"])]

/-- The directory-creation block (lines 33-67).  It runs *before* the
`os.chdir('../')` of line 70, so the process's working directory is still
`shaders/`: every relative `./target/...` path in the block resolves to
`shaders/target/...`, and that is where the guarded `os.makedirs` calls
create their directories — never at the repository-root `target/...`
trees that the copy phases later write into. -/
def mkdirCmds (dw : Bool) : List Cmd :=
  .mkdirp (shadersD ++ ["target"])
    :: (treeDirCmds (shadersD ++ debugRoot) ++ treeDirCmds (shadersD ++ releaseRoot)
    ++ (if dw then treeDirCmds (shadersD ++ darwinRoot) else []))

/-- The per-tree shader copy loop: `shutil.copyfile('./shaders/'+y,
'<root>/shaders/'+y)` for every mapping entry. -/
def shaderCopyCmds (names : List (Path × Path)) (root : Path) : List Cmd :=
  names.map (fun e => .copyfile (shadersD ++ e.2) (root ++ ["shaders"] ++ e.2))

/-- Staging of one of the debug/release trees (lines 71-75 resp. 78-82):
copy every shader, copy `.env`, then remove and re-copy `models`. -/
def stageTreeCmds (names : List (Path × Path)) (root : Path) : List Cmd :=
  shaderCopyCmds names root
    ++ [.copyfile envFile (root ++ [".env"]),
        .rmtree (root ++ ["models"]),
        .copytree modelsD (root ++ ["models"])]

/-- The Darwin cross-target loop (lines 85-90).  In the source the `.env`
copy, the `rmtree` and the `copytree` are indented inside the `for` loop,
so they run once per mapping entry. -/
def darwinLoopCmds (names : List (Path × Path)) : List Cmd :=
  names.flatMap (fun e =>
    [.copyfile (shadersD ++ e.2) (darwinRoot ++ ["shaders"] ++ e.2),
     .copyfile envFile (darwinRoot ++ [".env"]),
     .rmtree (darwinRoot ++ ["models"]),
     .copytree modelsD (darwinRoot ++ ["models"])])

/-- Remove-then-copy mirroring of one static directory into one tree. -/
def mirrorCmds (src : Path) (root : Path) : List Cmd :=
  [.rmtree (root ++ src), .copytree src (root ++ src)]

/-- The whole script as a command list, parameterised by the resolved
mapping and by whether the platform is Darwin. -/
def scriptOf (names : List (Path × Path)) (dw : Bool) : List Cmd :=
  compileCmds names
    ++ mkdirCmds dw
    ++ stageTreeCmds names debugRoot
    ++ stageTreeCmds names releaseRoot
    ++ (if dw then darwinLoopCmds names else [])
    ++ mirrorCmds resourceD debugRoot
    ++ mirrorCmds resourceD releaseRoot
    ++ (if dw then mirrorCmds resourceD darwinRoot else [])
    ++ mirrorCmds texturesD debugRoot
    ++ mirrorCmds texturesD releaseRoot
    ++ (if dw then mirrorCmds texturesD darwinRoot else [])

/-- The script for a given `platform.system()` value. -/
def script (plt : String) : List Cmd :=
  scriptOf (file_names plt) (plt == "Darwin")

/-- Run the whole script: the final filesystem state, and the error that
aborted the run, if any (`none` = the process exits with status zero).
The very first statement, `os.chdir('./shaders')` at line 28, raises
`FileNotFoundError` when there is no `shaders` directory, so in that case
the process aborts before any command runs. -/
def stage (comp : Compiler) (plt : String) (fs : FS) : FS × Option StagingError :=
  if fs.isDir shadersD then runScript comp (script plt) fs
  else (fs, some ⟨.chdirMissing, shadersD⟩)

/-- The output trees staged for a given platform value. -/
def outputRoots (plt : String) : List Path :=
  [debugRoot, releaseRoot] ++ (if plt == "Darwin" then [darwinRoot] else [])

/-! ### Path lemmas -/

theorem contains_iff_mem (l : List Path) (p : Path) : l.contains p = true ↔ p ∈ l := by
  simp [List.contains, List.elem_eq_mem]

theorem isPrefixOf_eq_true_iff {p q : Path} : p.isPrefixOf q = true ↔ p <+: q :=
  List.isPrefixOf_iff_prefix

theorem isPrefixOf_false_iff {p q : Path} : p.isPrefixOf q = false ↔ ¬ p <+: q := by
  rw [← isPrefixOf_eq_true_iff]
  cases p.isPrefixOf q <;> simp

theorem pathChain_cons (a : String) (rest : Path) :
    pathChain (a :: rest) = [a] :: (pathChain rest).map (fun q => a :: q) := rfl

@[simp] theorem contains_eq_decide (l : List Path) (p : Path) :
    l.contains p = decide (p ∈ l) := by
  simp [List.contains, List.elem_eq_mem]

theorem mem_pathChain {r q : Path} (h : r ∈ pathChain q) : r <+: q := by
  induction q generalizing r with
  | nil => simp [pathChain] at h
  | cons a rest ih =>
    rw [pathChain_cons] at h
    rcases List.mem_cons.mp h with h | h
    · subst h
      exact ⟨rest, rfl⟩
    · rcases List.mem_map.mp h with ⟨r0, hr0, rfl⟩
      exact List.cons_prefix_cons.mpr ⟨rfl, ih hr0⟩

theorem self_mem_pathChain {q : Path} (h : q ≠ []) : q ∈ pathChain q := by
  induction q with
  | nil => exact absurd rfl h
  | cons a rest ih =>
    rw [pathChain_cons]
    cases rest with
    | nil => exact List.mem_cons.mpr (Or.inl rfl)
    | cons b r2 =>
      refine List.mem_cons.mpr (Or.inr (List.mem_map.mpr ⟨b :: r2, ih (by simp), rfl⟩))

/-- Two paths neither of which lies below the other. -/
def pathDisj (a b : Path) : Bool :=
  !a.isPrefixOf b && !b.isPrefixOf a

theorem pathDisj_not_pref {a b p : Path} (hd : pathDisj a b = true)
    (ha : a <+: p) : b.isPrefixOf p = false := by
  simp only [pathDisj, Bool.and_eq_true, Bool.not_eq_true'] at hd
  rw [isPrefixOf_false_iff]
  intro hb
  rcases List.prefix_or_prefix_of_prefix ha hb with h | h
  · exact absurd h (isPrefixOf_false_iff.mp hd.1)
  · exact absurd h (isPrefixOf_false_iff.mp hd.2)

theorem drop_append_of_pref {a p : Path} (h : a <+: p) :
    a ++ p.drop a.length = p :=
  List.prefix_iff_eq_append.mp h

/-! ### Effect of the primitive filesystem operations -/

theorem find?_cons_eq (pred : Path × String → Bool) (a : Path × String)
    (l : List (Path × String)) :
    (a :: l).find? pred = if pred a then some a else l.find? pred := by
  rw [List.find?_cons]
  cases pred a <;> simp

theorem find?_filter_keep (l : List (Path × String)) (keep : Path × String → Bool)
    (p : Path) (h : ∀ e : Path × String, e.1 = p → keep e = true) :
    (l.filter keep).find? (fun e => e.1 == p) = l.find? (fun e => e.1 == p) := by
  induction l with
  | nil => rfl
  | cons a l ih =>
    by_cases hk : keep a = true
    · rw [List.filter_cons_of_pos hk, find?_cons_eq, find?_cons_eq, ih]
    · rw [List.filter_cons_of_neg hk, ih, find?_cons_eq]
      have hbe : (a.1 == p) = false := by
        cases hb : (a.1 == p)
        · rfl
        · exact absurd (h a (beq_iff_eq.mp hb)) hk
      rw [hbe]
      simp

@[simp] theorem FS.isDir_setFile (fs : FS) (q : Path) (c : String) (p : Path) :
    (fs.setFile q c).isDir p = fs.isDir p := rfl

theorem FS.file_setFile (fs : FS) (q : Path) (c : String) (p : Path) :
    (fs.setFile q c).file p = if p = q then some c else fs.file p := by
  unfold FS.setFile FS.file
  simp only [List.find?_append]
  by_cases h : p = q
  · subst h
    have hnone : (fs.files.filter (fun e => !(e.1 == p))).find? (fun e => e.1 == p) = none := by
      rw [List.find?_eq_none]
      intro e he
      rcases List.mem_filter.mp he with ⟨-, hkeep⟩
      simp only [Bool.not_eq_true'] at hkeep
      simp [hkeep]
    simp [hnone]
  · have hr : (fs.files.filter (fun e => !(e.1 == q))).find? (fun e => e.1 == p)
        = fs.files.find? (fun e => e.1 == p) := by
      apply find?_filter_keep
      intro e he
      subst he
      simp [h]
    have hone : (([(q, c)] : List (Path × String)).find? (fun e => e.1 == p)) = none := by
      rw [find?_cons_eq]
      simp [Ne.symm h]
    rw [hr, hone]
    simp [h]

@[simp] theorem FS.file_makedirs (fs : FS) (q p : Path) :
    (fs.makedirs q).file p = fs.file p := rfl

theorem FS.isDir_makedirs (fs : FS) (q p : Path) :
    (fs.makedirs q).isDir p = (fs.isDir p || (pathChain q).contains p) := by
  rw [Bool.eq_iff_iff]
  simp only [FS.makedirs, FS.isDir, contains_eq_decide, decide_eq_true_eq,
    Bool.or_eq_true, List.mem_append, List.mem_filter, Bool.not_eq_true',
    decide_eq_false_iff_not]
  constructor
  · rintro (h | ⟨h, -⟩)
    · exact Or.inl h
    · exact Or.inr h
  · rintro (h | h)
    · exact Or.inl h
    · by_cases hd : p ∈ fs.dirs
      · exact Or.inl hd
      · exact Or.inr ⟨h, hd⟩

@[simp] theorem FS.file_mkdirp (fs : FS) (q p : Path) :
    (fs.mkdirp q).file p = fs.file p := by
  unfold FS.mkdirp
  split <;> rfl

theorem FS.isDir_mkdirp (fs : FS) (q p : Path) :
    (fs.mkdirp q).isDir p
      = (fs.isDir p || (!fs.pathExists q && (pathChain q).contains p)) := by
  unfold FS.mkdirp
  cases h : fs.pathExists q
  · rw [if_neg (by simp [h]), FS.isDir_makedirs]
    simp
  · rw [if_pos rfl]
    simp

theorem FS.pathExists_mkdirp (fs : FS) (q p : Path) :
    (fs.mkdirp q).pathExists p
      = (fs.pathExists p || (!fs.pathExists q && (pathChain q).contains p)) := by
  unfold FS.pathExists
  rw [FS.isDir_mkdirp, FS.file_mkdirp]
  unfold FS.pathExists
  cases h1 : fs.isDir p <;> cases h2 : (fs.file p).isSome <;>
    cases h3 : (pathChain q).contains p <;> simp

theorem FS.mkdirp_pathExists_self (fs : FS) (q : Path) (h : q ≠ []) :
    (fs.mkdirp q).pathExists q = true := by
  rw [FS.pathExists_mkdirp]
  have hm : q ∈ pathChain q := self_mem_pathChain h
  cases he : fs.pathExists q <;> simp [hm]

theorem FS.file_rmtreeApply (fs : FS) (q p : Path) :
    (fs.rmtreeApply q).file p = if q.isPrefixOf p then none else fs.file p := by
  unfold FS.rmtreeApply FS.file
  by_cases h : q.isPrefixOf p = true
  · have hnone : (fs.files.filter (fun e => !q.isPrefixOf e.1)).find? (fun e => e.1 == p)
        = none := by
      rw [List.find?_eq_none]
      intro e he hbeq
      rcases List.mem_filter.mp he with ⟨-, hkeep⟩
      simp only [Bool.not_eq_true'] at hkeep
      rw [beq_iff_eq.mp hbeq, h] at hkeep
      cases hkeep
    simp [h, hnone]
  · have h2 : q.isPrefixOf p = false := by
      cases hq : q.isPrefixOf p
      · rfl
      · exact absurd hq h
    have hr : (fs.files.filter (fun e => !q.isPrefixOf e.1)).find? (fun e => e.1 == p)
        = fs.files.find? (fun e => e.1 == p) := by
      apply find?_filter_keep
      intro e he
      subst he
      simp [h2]
    simp [h2, hr]

theorem FS.isDir_rmtreeApply (fs : FS) (q p : Path) :
    (fs.rmtreeApply q).isDir p = (!q.isPrefixOf p && fs.isDir p) := by
  rw [Bool.eq_iff_iff]
  simp only [FS.rmtreeApply, FS.isDir, contains_eq_decide, decide_eq_true_eq,
    Bool.and_eq_true, Bool.not_eq_true', List.mem_filter]
  tauto

theorem FS.pathExists_rmtreeApply (fs : FS) (q p : Path) :
    (fs.rmtreeApply q).pathExists p = (!q.isPrefixOf p && fs.pathExists p) := by
  unfold FS.pathExists
  rw [FS.isDir_rmtreeApply, FS.file_rmtreeApply]
  cases h : q.isPrefixOf p
  · simp
  · simp

theorem FS.rmtreeApply_clean_files (fs : FS) (q : Path) :
    ∀ e ∈ (fs.rmtreeApply q).files, q.isPrefixOf e.1 = false := by
  intro e he
  rcases List.mem_filter.mp he with ⟨-, hkeep⟩
  simpa using hkeep

theorem FS.rmtreeApply_clean_dirs (fs : FS) (q : Path) :
    ∀ r ∈ (fs.rmtreeApply q).dirs, q.isPrefixOf r = false := by
  intro r hr
  rcases List.mem_filter.mp hr with ⟨-, hkeep⟩
  simpa using hkeep

theorem find?_congr_mem (l : List (Path × String)) (pr q : Path × String → Bool)
    (h : ∀ e ∈ l, pr e = q e) : l.find? pr = l.find? q := by
  induction l with
  | nil => rfl
  | cons a l ih =>
    rw [find?_cons_eq, find?_cons_eq, h a (List.mem_cons_self a l),
      ih (fun e he => h e (List.mem_cons_of_mem a he))]

theorem FS.file_copytreeApply_outside (fs : FS) (src dst p : Path)
    (h : dst.isPrefixOf p = false) :
    (fs.copytreeApply src dst).file p = fs.file p := by
  unfold FS.copytreeApply FS.file
  rw [List.find?_append]
  have hnone : ((fs.files.filter (fun e => src.isPrefixOf e.1)).map
      (fun e => (rebase src dst e.1, e.2))).find? (fun e => e.1 == p) = none := by
    rw [List.find?_eq_none]
    intro e he hbeq
    rcases List.mem_map.mp he with ⟨e0, -, rfl⟩
    have hpre : dst <+: rebase src dst e0.1 := List.prefix_append _ _
    rw [show (((rebase src dst e0.1, e0.2) : Path × String).1 = rebase src dst e0.1) from rfl]
      at hbeq
    rw [beq_iff_eq.mp hbeq] at hpre
    exact absurd hpre (isPrefixOf_false_iff.mp h)
  rw [hnone]
  cases fs.files.find? (fun e => e.1 == p) <;> rfl

theorem FS.isDir_copytreeApply_outside (fs : FS) (src dst p : Path)
    (h : dst.isPrefixOf p = false) :
    (fs.copytreeApply src dst).isDir p = fs.isDir p := by
  rw [Bool.eq_iff_iff]
  simp only [FS.copytreeApply, FS.isDir, contains_eq_decide, decide_eq_true_eq,
    List.mem_append, List.mem_map, List.mem_filter]
  constructor
  · rintro (hm | ⟨q, -, hq⟩)
    · exact hm
    · exfalso
      have hpre : dst <+: rebase src dst q := List.prefix_append _ _
      rw [hq] at hpre
      exact absurd hpre (isPrefixOf_false_iff.mp h)
  · exact fun hm => Or.inl hm

theorem FS.file_copytreeApply_below (fs : FS) (src dst rest : Path)
    (hclean : ∀ e ∈ fs.files, dst.isPrefixOf e.1 = false) :
    (fs.copytreeApply src dst).file (dst ++ rest) = fs.file (src ++ rest) := by
  unfold FS.copytreeApply FS.file
  rw [List.find?_append]
  have h1 : fs.files.find? (fun e => e.1 == dst ++ rest) = none := by
    rw [List.find?_eq_none]
    intro e he hbeq
    have hc := hclean e he
    rw [beq_iff_eq.mp hbeq] at hc
    rw [isPrefixOf_false_iff] at hc
    exact hc (List.prefix_append _ _)
  rw [h1, List.find?_map]
  have hcongr : (fs.files.filter (fun e => src.isPrefixOf e.1)).find?
        ((fun e => e.1 == dst ++ rest) ∘ (fun e => (rebase src dst e.1, e.2)))
      = (fs.files.filter (fun e => src.isPrefixOf e.1)).find? (fun e => e.1 == src ++ rest) := by
    apply find?_congr_mem
    intro e he
    rcases List.mem_filter.mp he with ⟨-, hsrc⟩
    rw [Bool.eq_iff_iff]
    simp only [Function.comp_apply, beq_iff_eq]
    unfold rebase
    constructor
    · intro hq
      have hdrop := List.append_cancel_left hq
      rw [← hdrop]
      exact (drop_append_of_pref (isPrefixOf_eq_true_iff.mp hsrc)).symm
    · intro hq
      rw [hq]
      rw [List.drop_left]
  rw [hcongr]
  have h2 : (fs.files.filter (fun e => src.isPrefixOf e.1)).find? (fun e => e.1 == src ++ rest)
      = fs.files.find? (fun e => e.1 == src ++ rest) := by
    apply find?_filter_keep
    intro e he
    rw [he]
    exact isPrefixOf_eq_true_iff.mpr (List.prefix_append _ _)
  rw [h2]
  cases h3 : fs.files.find? (fun e => e.1 == src ++ rest) with
  | none => rfl
  | some e => rfl

theorem FS.isDir_copytreeApply_below (fs : FS) (src dst rest : Path)
    (hclean : ∀ r ∈ fs.dirs, dst.isPrefixOf r = false) :
    (fs.copytreeApply src dst).isDir (dst ++ rest) = fs.isDir (src ++ rest) := by
  rw [Bool.eq_iff_iff]
  simp only [FS.copytreeApply, FS.isDir, contains_eq_decide, decide_eq_true_eq,
    List.mem_append, List.mem_map, List.mem_filter]
  constructor
  · rintro (hm | ⟨q, ⟨hq, hsrc⟩, hr⟩)
    · have hc := hclean _ hm
      rw [isPrefixOf_false_iff] at hc
      exact absurd (List.prefix_append _ _) hc
    · unfold rebase at hr
      have hdrop := List.append_cancel_left hr
      have hq2 : q = src ++ rest := by
        rw [← hdrop]
        exact (drop_append_of_pref (isPrefixOf_eq_true_iff.mp hsrc)).symm
      rw [← hq2]
      exact hq
  · intro hm
    right
    refine ⟨src ++ rest, ⟨hm, isPrefixOf_eq_true_iff.mpr (List.prefix_append _ _)⟩, ?_⟩
    unfold rebase
    rw [List.drop_left]

theorem FS.file_copytreeApply_isSome_mono (fs : FS) (src dst p : Path)
    (h : (fs.file p).isSome = true) :
    ((fs.copytreeApply src dst).file p).isSome = true := by
  unfold FS.file at h
  unfold FS.copytreeApply FS.file
  rw [List.find?_append]
  cases hf : fs.files.find? (fun e => e.1 == p) with
  | none => rw [hf] at h; simp at h
  | some e => rfl

theorem FS.isDir_copytreeApply_mono (fs : FS) (src dst p : Path)
    (h : fs.isDir p = true) :
    (fs.copytreeApply src dst).isDir p = true := by
  simp only [FS.copytreeApply, FS.isDir, contains_eq_decide, decide_eq_true_eq,
    List.mem_append] at h ⊢
  exact Or.inl h

theorem FS.pathExists_setFile_mono (fs : FS) (q : Path) (c : String) (p : Path)
    (h : fs.pathExists p = true) :
    (fs.setFile q c).pathExists p = true := by
  unfold FS.pathExists at h ⊢
  rw [FS.isDir_setFile, FS.file_setFile]
  by_cases hq : p = q
  · simp [hq]
  · rw [if_neg hq]
    exact h

/-! ### Running command sequences -/

theorem runScript_cons (comp : Compiler) (c : Cmd) (rest : List Cmd) (fs : FS) :
    runScript comp (c :: rest) fs =
      (match runCmd comp fs c with
       | (fs2, none) => runScript comp rest fs2
       | (fs2, some e) => (fs2, some e)) := rfl

theorem runScript_append (comp : Compiler) (a b : List Cmd) (fs : FS) :
    runScript comp (a ++ b) fs =
      (match runScript comp a fs with
       | (g, none) => runScript comp b g
       | (g, some e) => (g, some e)) := by
  induction a generalizing fs with
  | nil => rfl
  | cons c a ih =>
    rw [List.cons_append, runScript_cons, runScript_cons]
    rcases h : runCmd comp fs c with ⟨g, e⟩
    cases e
    · exact ih g
    · rfl

theorem runScript_append_ok {comp : Compiler} {a : List Cmd} (b : List Cmd) {fs g : FS}
    (h : runScript comp a fs = (g, none)) :
    runScript comp (a ++ b) fs = runScript comp b g := by
  rw [runScript_append, h]

theorem runScript_append_err {comp : Compiler} {a : List Cmd} (b : List Cmd) {fs g : FS}
    {e : StagingError} (h : runScript comp a fs = (g, some e)) :
    runScript comp (a ++ b) fs = (g, some e) := by
  rw [runScript_append, h]

theorem runScript_append_fst_ok {comp : Compiler} {a b : List Cmd} {fs : FS}
    (h : (runScript comp (a ++ b) fs).2 = none) :
    (runScript comp a fs).2 = none := by
  rw [runScript_append] at h
  rcases ha : runScript comp a fs with ⟨g, e⟩
  cases e
  · rfl
  · rw [ha] at h
    simp at h

/-! ### Successful-command characterisations -/

theorem runCmd_mkdirp_eq (comp : Compiler) (fs : FS) (q : Path) :
    runCmd comp fs (.mkdirp q) = (fs.mkdirp q, none) := rfl

theorem runCmd_copyfile_ok {comp : Compiler} {fs g : FS} {s d : Path}
    (h : runCmd comp fs (.copyfile s d) = (g, none)) :
    ∃ c, fs.file s = some c ∧ fs.isDir d.dropLast = true ∧ g = fs.setFile d c := by
  simp only [runCmd] at h
  cases hf : fs.file s with
  | none => rw [hf] at h; cases h
  | some c =>
    rw [hf] at h
    have h' : (if fs.isDir d.dropLast = true then (fs.setFile d c, none)
        else ((fs, some ⟨.copyNoDstDir, d⟩) : FS × Option StagingError)) = (g, none) := h
    by_cases hdd : fs.isDir d.dropLast = true
    · rw [if_pos hdd] at h'
      exact ⟨c, rfl, hdd, (congrArg Prod.fst h').symm⟩
    · rw [if_neg hdd] at h'
      exact absurd (congrArg Prod.snd h') (by simp)

theorem runCmd_copyfile_some {comp : Compiler} {fs : FS} {s d : Path} {c0 : String}
    (h : fs.file s = some c0) (hd : fs.isDir d.dropLast = true) :
    runCmd comp fs (.copyfile s d) = (fs.setFile d c0, none) := by
  simp only [runCmd, h]
  rw [if_pos hd]

theorem runCmd_copyfile_nosrc {comp : Compiler} {fs : FS} {s d : Path}
    (h : fs.file s = none) :
    runCmd comp fs (.copyfile s d) = (fs, some ⟨.copyMissingSrc, s⟩) := by
  simp only [runCmd, h]

theorem runCmd_copyfile_nodst {comp : Compiler} {fs : FS} {s d : Path} {c0 : String}
    (h : fs.file s = some c0) (hd : ¬ fs.isDir d.dropLast = true) :
    runCmd comp fs (.copyfile s d) = (fs, some ⟨.copyNoDstDir, d⟩) := by
  simp only [runCmd, h]
  rw [if_neg hd]

theorem runCmd_rmtree_ok {comp : Compiler} {fs g : FS} {q : Path}
    (h : runCmd comp fs (.rmtree q) = (g, none)) :
    fs.isDir q = true ∧ g = fs.rmtreeApply q := by
  simp only [runCmd] at h
  by_cases hd : fs.isDir q = true
  · rw [if_pos hd] at h
    exact ⟨hd, (congrArg Prod.fst h).symm⟩
  · rw [if_neg hd] at h
    cases hs : (fs.file q).isSome
    · rw [if_neg (by simp [hs])] at h
      cases h
    · rw [if_pos hs] at h
      cases h

theorem runCmd_copytree_ok {comp : Compiler} {fs g : FS} {s d : Path}
    (h : runCmd comp fs (.copytree s d) = (g, none)) :
    fs.isDir s = true ∧ fs.pathExists d = false ∧ g = fs.copytreeApply s d := by
  simp only [runCmd] at h
  by_cases hd : fs.isDir s = true
  · rw [if_pos hd] at h
    by_cases he : fs.pathExists d = true
    · rw [if_pos he] at h
      exact absurd (congrArg Prod.snd h) (by simp)
    · rw [if_neg he] at h
      exact ⟨hd, by simpa using he, (congrArg Prod.fst h).symm⟩
  · rw [if_neg hd] at h
    exact absurd (congrArg Prod.snd h) (by simp)

theorem runCmd_compile_snd (comp : Compiler) (fs : FS) (x y : Path) :
    (runCmd comp fs (.compile x y)).2 = none := rfl

/-! ### Commands that avoid a subtree leave it untouched -/

/-- `cmdAvoids pre c`: command `c` writes nothing at or below `pre`. -/
def cmdAvoids (pre : Path) : Cmd → Bool
  | .compile _ y => !pre.isPrefixOf (shadersD ++ y)
  | .mkdirp q => !pre.isPrefixOf q
  | .copyfile _ dst => !pre.isPrefixOf dst
  | .rmtree q => pathDisj pre q
  | .copytree _ dst => pathDisj pre dst

theorem runCmd_avoids (comp : Compiler) (fs : FS) {c : Cmd} {pre p : Path}
    (hc : cmdAvoids pre c = true) (hp : pre <+: p) :
    (runCmd comp fs c).1.file p = fs.file p
      ∧ (runCmd comp fs c).1.isDir p = fs.isDir p := by
  cases c with
  | compile x y =>
    simp only [cmdAvoids, Bool.not_eq_true'] at hc
    have hne : p ≠ shadersD ++ y := by
      intro hyp
      rw [hyp] at hp
      exact absurd hp (isPrefixOf_false_iff.mp hc)
    simp only [runCmd]
    cases hf : fs.file (shadersD ++ x) with
    | none => exact ⟨rfl, rfl⟩
    | some sv =>
      show ((match comp x sv with
          | none => fs
          | some out => fs.setFile (shadersD ++ y) out).file p = fs.file p
        ∧ (match comp x sv with
          | none => fs
          | some out => fs.setFile (shadersD ++ y) out).isDir p = fs.isDir p)
      cases hcmp : comp x sv with
      | none => exact ⟨rfl, rfl⟩
      | some out =>
        constructor
        · show (fs.setFile (shadersD ++ y) out).file p = fs.file p
          rw [FS.file_setFile, if_neg hne]
        · rfl
  | mkdirp q =>
    simp only [cmdAvoids, Bool.not_eq_true'] at hc
    have hcont : (pathChain q).contains p = false := by
      cases hcc : (pathChain q).contains p
      · rfl
      · have hmem := (contains_iff_mem _ _).mp hcc
        exact absurd (isPrefixOf_eq_true_iff.mpr (hp.trans (mem_pathChain hmem)))
          (by simp [hc])
    simp only [runCmd]
    constructor
    · rw [FS.file_mkdirp]
    · rw [FS.isDir_mkdirp, hcont]
      simp
  | copyfile s d =>
    simp only [cmdAvoids, Bool.not_eq_true'] at hc
    have hne : p ≠ d := by
      intro hyp
      rw [hyp] at hp
      exact absurd hp (isPrefixOf_false_iff.mp hc)
    cases hf : fs.file s with
    | none =>
      rw [runCmd_copyfile_nosrc hf]
      exact ⟨rfl, rfl⟩
    | some c =>
      by_cases hdd : fs.isDir d.dropLast = true
      · rw [runCmd_copyfile_some hf hdd]
        constructor
        · show (fs.setFile d c).file p = fs.file p
          rw [FS.file_setFile, if_neg hne]
        · rfl
      · rw [runCmd_copyfile_nodst hf hdd]
        exact ⟨rfl, rfl⟩
  | rmtree q =>
    simp only [cmdAvoids] at hc
    have hq : q.isPrefixOf p = false := pathDisj_not_pref hc hp
    simp only [runCmd]
    by_cases hd : fs.isDir q = true
    · rw [if_pos hd]
      constructor
      · show (fs.rmtreeApply q).file p = fs.file p
        rw [FS.file_rmtreeApply, if_neg (by simp [hq])]
      · show (fs.rmtreeApply q).isDir p = fs.isDir p
        rw [FS.isDir_rmtreeApply, hq]
        simp
    · rw [if_neg hd]
      split
      · exact ⟨rfl, rfl⟩
      · exact ⟨rfl, rfl⟩
  | copytree s d =>
    simp only [cmdAvoids] at hc
    have hd : d.isPrefixOf p = false := pathDisj_not_pref hc hp
    simp only [runCmd]
    by_cases hsd : fs.isDir s = true
    · rw [if_pos hsd]
      by_cases he : fs.pathExists d = true
      · rw [if_pos he]
        exact ⟨rfl, rfl⟩
      · rw [if_neg he]
        exact ⟨FS.file_copytreeApply_outside fs s d p hd,
          FS.isDir_copytreeApply_outside fs s d p hd⟩
    · rw [if_neg hsd]
      exact ⟨rfl, rfl⟩

theorem runScript_avoids (comp : Compiler) (cmds : List Cmd) (fs : FS) {pre p : Path}
    (hall : cmds.all (cmdAvoids pre) = true) (hp : pre <+: p) :
    (runScript comp cmds fs).1.file p = fs.file p
      ∧ (runScript comp cmds fs).1.isDir p = fs.isDir p := by
  induction cmds generalizing fs with
  | nil => exact ⟨rfl, rfl⟩
  | cons c rest ih =>
    rw [List.all_cons, Bool.and_eq_true] at hall
    rw [runScript_cons]
    rcases h : runCmd comp fs c with ⟨g, e⟩
    have hg : g = (runCmd comp fs c).1 := by rw [h]
    rcases runCmd_avoids comp fs hall.1 hp with ⟨h3, h4⟩
    rw [← hg] at h3 h4
    cases e
    · simp only
      rcases ih g hall.2 with ⟨h1, h2⟩
      exact ⟨h1.trans h3, h2.trans h4⟩
    · simp only
      exact ⟨h3, h4⟩

/-! ### Commands that keep an existing path in existence -/

/-- `cmdKeeps p c`: command `c` cannot make the path `p` disappear. -/
def cmdKeeps (p : Path) : Cmd → Bool
  | .rmtree q => !q.isPrefixOf p
  | _ => true

theorem runCmd_keeps (comp : Compiler) (fs : FS) {c : Cmd} {p : Path}
    (hc : cmdKeeps p c = true) (h : fs.pathExists p = true) :
    (runCmd comp fs c).1.pathExists p = true := by
  cases c with
  | compile x y =>
    simp only [runCmd]
    cases hf : fs.file (shadersD ++ x) with
    | none => exact h
    | some sv =>
      show (match comp x sv with
          | none => fs
          | some out => fs.setFile (shadersD ++ y) out).pathExists p = true
      cases hcmp : comp x sv with
      | none => exact h
      | some out => exact FS.pathExists_setFile_mono _ _ _ _ h
  | mkdirp q =>
    simp only [runCmd]
    rw [FS.pathExists_mkdirp, h]
    rfl
  | copyfile s d =>
    cases hf : fs.file s with
    | none =>
      rw [runCmd_copyfile_nosrc hf]
      exact h
    | some c =>
      by_cases hdd : fs.isDir d.dropLast = true
      · rw [runCmd_copyfile_some hf hdd]
        exact FS.pathExists_setFile_mono _ _ _ _ h
      · rw [runCmd_copyfile_nodst hf hdd]
        exact h
  | rmtree q =>
    simp only [cmdKeeps, Bool.not_eq_true'] at hc
    simp only [runCmd]
    by_cases hd : fs.isDir q = true
    · rw [if_pos hd]
      show (fs.rmtreeApply q).pathExists p = true
      rw [FS.pathExists_rmtreeApply, hc, h]
      rfl
    · rw [if_neg hd]
      split
      · exact h
      · exact h
  | copytree s d =>
    simp only [runCmd]
    by_cases hsd : fs.isDir s = true
    · rw [if_pos hsd]
      by_cases he : fs.pathExists d = true
      · rw [if_pos he]
        exact h
      · rw [if_neg he]
        show (fs.copytreeApply s d).pathExists p = true
        unfold FS.pathExists at h ⊢
        cases hb : fs.isDir p
        · have h1 : (fs.file p).isSome = true := by
            rw [hb] at h
            simpa using h
          rw [FS.file_copytreeApply_isSome_mono _ _ _ _ h1]
          simp
        · rw [FS.isDir_copytreeApply_mono _ _ _ _ hb]
          rfl
    · rw [if_neg hsd]
      exact h

theorem runScript_keeps (comp : Compiler) (cmds : List Cmd) (fs : FS) {p : Path}
    (hall : cmds.all (cmdKeeps p) = true) (h : fs.pathExists p = true) :
    (runScript comp cmds fs).1.pathExists p = true := by
  induction cmds generalizing fs with
  | nil => exact h
  | cons c rest ih =>
    rw [List.all_cons, Bool.and_eq_true] at hall
    rw [runScript_cons]
    rcases hr : runCmd comp fs c with ⟨g, e⟩
    have hg : g = (runCmd comp fs c).1 := by rw [hr]
    have hkept : g.pathExists p = true := by
      rw [hg]
      exact runCmd_keeps comp fs hall.1 h
    cases e
    · simp only
      exact ih g hall.2 hkept
    · simp only
      exact hkept

/-! ### More helpers on commands and segments -/

theorem isPrefixOf_cons_false {a b : String} (as bs : Path) (h : a ≠ b) :
    (a :: as).isPrefixOf (b :: bs) = false := by
  rw [isPrefixOf_false_iff]
  intro hp
  exact h (List.cons_prefix_cons.mp hp).1

/-- Commands whose interpretation can never raise. -/
def neverFails : Cmd → Bool
  | .compile _ _ => true
  | .mkdirp _ => true
  | .copyfile _ _ => false
  | .rmtree _ => false
  | .copytree _ _ => false

theorem runCmd_neverFails (comp : Compiler) (fs : FS) {c : Cmd}
    (h : neverFails c = true) : (runCmd comp fs c).2 = none := by
  cases c with
  | compile x y => rfl
  | mkdirp q => rfl
  | copyfile s d => cases h
  | rmtree q => cases h
  | copytree s d => cases h

theorem runScript_neverFails (comp : Compiler) (cmds : List Cmd) (fs : FS)
    (h : cmds.all neverFails = true) : (runScript comp cmds fs).2 = none := by
  induction cmds generalizing fs with
  | nil => rfl
  | cons c rest ih =>
    rw [List.all_cons, Bool.and_eq_true] at h
    rw [runScript_cons]
    rcases hr : runCmd comp fs c with ⟨g, e⟩
    cases e
    · exact ih g h.2
    · have := runCmd_neverFails comp fs h.1
      rw [hr] at this
      cases this

theorem runScript_creates (comp : Compiler) (cmds : List Cmd) (fs : FS) {q : Path}
    (hq : q ≠ []) (h1 : cmds.all neverFails = true) (h2 : cmds.all (cmdKeeps q) = true)
    (hmem : Cmd.mkdirp q ∈ cmds) :
    (runScript comp cmds fs).1.pathExists q = true := by
  induction cmds generalizing fs with
  | nil => cases hmem
  | cons c rest ih =>
    rw [List.all_cons, Bool.and_eq_true] at h1 h2
    rw [runScript_cons]
    rcases hr : runCmd comp fs c with ⟨g, e⟩
    cases e
    · simp only
      rcases List.mem_cons.mp hmem with hm | hm
      · subst hm
        apply runScript_keeps comp rest g h2.2
        have : g = fs.mkdirp q := by
          have := congrArg Prod.fst hr
          exact this.symm
        rw [this]
        exact FS.mkdirp_pathExists_self fs q hq
      · exact ih g h1.2 h2.2 hm
    · have := runCmd_neverFails comp fs h1.1
      rw [hr] at this
      cases this

/-- Commands of the guarded-creation kind. -/
def isMkdirpCmd : Cmd → Bool
  | .mkdirp _ => true
  | _ => false

theorem runScript_mkdirps_file (comp : Compiler) (cmds : List Cmd) (fs : FS) (p : Path)
    (h : cmds.all isMkdirpCmd = true) :
    (runScript comp cmds fs).1.file p = fs.file p := by
  induction cmds generalizing fs with
  | nil => rfl
  | cons c rest ih =>
    rw [List.all_cons, Bool.and_eq_true] at h
    cases c with
    | mkdirp q =>
      rw [runScript_cons]
      simp only [runCmd]
      rw [ih (fs.mkdirp q) h.2, FS.file_mkdirp]
    | compile x y => cases h.1
    | copyfile s d => cases h.1
    | rmtree q => cases h.1
    | copytree s d => cases h.1

theorem runScript_mkdirps_isDir_mono (comp : Compiler) (cmds : List Cmd) (fs : FS)
    (p : Path) (h : cmds.all isMkdirpCmd = true) (hd : fs.isDir p = true) :
    (runScript comp cmds fs).1.isDir p = true := by
  induction cmds generalizing fs with
  | nil => exact hd
  | cons c rest ih =>
    rw [List.all_cons, Bool.and_eq_true] at h
    cases c with
    | mkdirp q =>
      rw [runScript_cons]
      simp only [runCmd]
      apply ih (fs.mkdirp q) h.2
      rw [FS.isDir_mkdirp, hd]
      rfl
    | compile x y => cases h.1
    | copyfile s d => cases h.1
    | rmtree q => cases h.1
    | copytree s d => cases h.1

theorem runCmd_err_fst {comp : Compiler} {fs : FS} {c : Cmd} {g : FS} {e : StagingError}
    (h : runCmd comp fs c = (g, some e)) : g = fs := by
  cases c with
  | compile x y =>
    have : (runCmd comp fs (.compile x y)).2 = none := rfl
    rw [h] at this
    cases this
  | mkdirp q =>
    have : (runCmd comp fs (.mkdirp q)).2 = none := rfl
    rw [h] at this
    cases this
  | copyfile s d =>
    cases hf : fs.file s with
    | none =>
      rw [runCmd_copyfile_nosrc hf] at h
      exact (congrArg Prod.fst h).symm
    | some c =>
      by_cases hdd : fs.isDir d.dropLast = true
      · rw [runCmd_copyfile_some hf hdd] at h
        exact absurd (congrArg Prod.snd h) (by simp)
      · rw [runCmd_copyfile_nodst hf hdd] at h
        exact (congrArg Prod.fst h).symm
  | rmtree q =>
    simp only [runCmd] at h
    by_cases hd : fs.isDir q = true
    · rw [if_pos hd] at h
      exact absurd (congrArg Prod.snd h) (by simp)
    · rw [if_neg hd] at h
      split at h
      · exact (congrArg Prod.fst h).symm
      · exact (congrArg Prod.fst h).symm
  | copytree s d =>
    simp only [runCmd] at h
    by_cases hd : fs.isDir s = true
    · rw [if_pos hd] at h
      by_cases he : fs.pathExists d = true
      · rw [if_pos he] at h
        exact (congrArg Prod.fst h).symm
      · rw [if_neg he] at h
        exact absurd (congrArg Prod.snd h) (by simp)
    · rw [if_neg hd] at h
      exact (congrArg Prod.fst h).symm

theorem runCmd_copyfile_err {comp : Compiler} {fs g : FS} {s d : Path} {e : StagingError}
    (h : runCmd comp fs (.copyfile s d) = (g, some e)) :
    e = ⟨.copyMissingSrc, s⟩ ∨ e = ⟨.copyNoDstDir, d⟩ := by
  cases hf : fs.file s with
  | none =>
    rw [runCmd_copyfile_nosrc hf] at h
    have := congrArg Prod.snd h
    simp only at this
    exact Or.inl (Option.some_inj.mp this).symm
  | some c =>
    by_cases hdd : fs.isDir d.dropLast = true
    · rw [runCmd_copyfile_some hf hdd] at h
      exact absurd (congrArg Prod.snd h) (by simp)
    · rw [runCmd_copyfile_nodst hf hdd] at h
      have := congrArg Prod.snd h
      simp only at this
      exact Or.inr (Option.some_inj.mp this).symm

theorem runCmd_rmtree_err_exists {comp : Compiler} {fs g : FS} {q : Path} {e : StagingError}
    (hex : fs.pathExists q = true)
    (h : runCmd comp fs (.rmtree q) = (g, some e)) : e = ⟨.rmtreeNotDir, q⟩ := by
  simp only [runCmd] at h
  by_cases hd : fs.isDir q = true
  · rw [if_pos hd] at h
    exact absurd (congrArg Prod.snd h) (by simp)
  · rw [if_neg hd] at h
    have hs : (fs.file q).isSome = true := by
      unfold FS.pathExists at hex
      cases hd2 : fs.isDir q
      · rw [hd2] at hex
        simpa using hex
      · exact absurd hd2 hd
    rw [if_pos hs] at h
    have := congrArg Prod.snd h
    simp only at this
    exact (Option.some_inj.mp this).symm

theorem runCmd_copytree_err_kind {comp : Compiler} {fs g : FS} {s d : Path}
    {e : StagingError} (h : runCmd comp fs (.copytree s d) = (g, some e)) :
    e.kind = .copytreeMissingSrc ∨ e.kind = .copytreeDstExists := by
  simp only [runCmd] at h
  by_cases hd : fs.isDir s = true
  · rw [if_pos hd] at h
    by_cases he : fs.pathExists d = true
    · rw [if_pos he] at h
      have := congrArg Prod.snd h
      simp only at this
      rw [← Option.some_inj.mp this]
      exact Or.inr rfl
    · rw [if_neg he] at h
      exact absurd (congrArg Prod.snd h) (by simp)
  · rw [if_neg hd] at h
    have := congrArg Prod.snd h
    simp only at this
    rw [← Option.some_inj.mp this]
    exact Or.inl rfl

/-! ### Segment lemmas -/

/-- The filesystem after the compile loop (which never raises). -/
def compileFS (comp : Compiler) (names : List (Path × Path)) (fs : FS) : FS :=
  (runScript comp (compileCmds names) fs).1

theorem compileCmds_neverFails (names : List (Path × Path)) :
    (compileCmds names).all neverFails = true := by
  induction names with
  | nil => rfl
  | cons e rest ih =>
    rw [compileCmds, List.map_cons, List.all_cons, Bool.and_eq_true]
    exact ⟨rfl, ih⟩

theorem compileCmds_ok (comp : Compiler) (names : List (Path × Path)) (fs : FS) :
    runScript comp (compileCmds names) fs = (compileFS comp names fs, none) := by
  have h2 := runScript_neverFails comp (compileCmds names) fs (compileCmds_neverFails names)
  rcases hr : runScript comp (compileCmds names) fs with ⟨g, e⟩
  rw [hr] at h2
  simp only at h2
  subst h2
  unfold compileFS
  rw [hr]

theorem runCmd_compile_dirs (comp : Compiler) (fs : FS) (x y : Path) :
    (runCmd comp fs (.compile x y)).1.dirs = fs.dirs := by
  simp only [runCmd]
  cases hf : fs.file (shadersD ++ x) with
  | none => rfl
  | some sv =>
    show (match comp x sv with
        | none => fs
        | some out => fs.setFile (shadersD ++ y) out).dirs = fs.dirs
    cases hcmp : comp x sv with
    | none => rfl
    | some out => rfl

theorem runCmd_compile_pathExists_mono (comp : Compiler) (fs : FS) (x y p : Path)
    (h : fs.pathExists p = true) :
    (runCmd comp fs (.compile x y)).1.pathExists p = true := by
  simp only [runCmd]
  cases hf : fs.file (shadersD ++ x) with
  | none => exact h
  | some sv =>
    show (match comp x sv with
        | none => fs
        | some out => fs.setFile (shadersD ++ y) out).pathExists p = true
    cases hcmp : comp x sv with
    | none => exact h
    | some out => exact FS.pathExists_setFile_mono fs _ out p h

theorem compileFS_dirs (comp : Compiler) (names : List (Path × Path)) (fs : FS) :
    (compileFS comp names fs).dirs = fs.dirs := by
  unfold compileFS
  induction names generalizing fs with
  | nil => rfl
  | cons e rest ih =>
    show (runScript comp (.compile e.1 e.2 :: compileCmds rest) fs).1.dirs = fs.dirs
    rw [runScript_cons]
    rcases hr : runCmd comp fs (.compile e.1 e.2) with ⟨g, e2⟩
    have he2 : e2 = none := by
      have := runCmd_compile_snd comp fs e.1 e.2
      rw [hr] at this
      exact this
    subst he2
    simp only
    rw [ih g]
    have := runCmd_compile_dirs comp fs e.1 e.2
    rw [hr] at this
    exact this

theorem compileFS_pathExists_mono (comp : Compiler) (names : List (Path × Path))
    (fs : FS) (p : Path) :
    fs.pathExists p = true → (compileFS comp names fs).pathExists p = true := by
  unfold compileFS
  induction names generalizing fs with
  | nil => exact fun h => h
  | cons e rest ih =>
    intro h
    show (runScript comp (.compile e.1 e.2 :: compileCmds rest) fs).1.pathExists p = true
    rw [runScript_cons]
    rcases hr : runCmd comp fs (.compile e.1 e.2) with ⟨g, e2⟩
    have he2 : e2 = none := by
      have := runCmd_compile_snd comp fs e.1 e.2
      rw [hr] at this
      exact this
    subst he2
    simp only
    apply ih g
    have := runCmd_compile_pathExists_mono comp fs e.1 e.2 p h
    rw [hr] at this
    exact this

/-- Commands of the plain file-copy kind. -/
def isCopyfileCmd : Cmd → Bool
  | .copyfile _ _ => true
  | _ => false

theorem runScript_copyfiles_dirs (comp : Compiler) (cmds : List Cmd) (fs : FS)
    (hall : cmds.all isCopyfileCmd = true) :
    (runScript comp cmds fs).1.dirs = fs.dirs := by
  induction cmds generalizing fs with
  | nil => rfl
  | cons c rest ih =>
    rw [List.all_cons, Bool.and_eq_true] at hall
    cases c with
    | copyfile s d =>
      rw [runScript_cons]
      cases hf : fs.file s with
      | none => rw [runCmd_copyfile_nosrc hf]
      | some c0 =>
        by_cases hdd : fs.isDir d.dropLast = true
        · rw [runCmd_copyfile_some hf hdd]
          show (runScript comp rest (fs.setFile d c0)).1.dirs = fs.dirs
          rw [ih (fs.setFile d c0) hall.2]
          rfl
        · rw [runCmd_copyfile_nodst hf hdd]
    | compile x y => cases hall.1
    | mkdirp q => cases hall.1
    | rmtree q => cases hall.1
    | copytree s d => cases hall.1

theorem shaderCopyCmds_copyfiles (names : List (Path × Path)) (root : Path) :
    (shaderCopyCmds names root).all isCopyfileCmd = true := by
  induction names with
  | nil => rfl
  | cons e rest ih =>
    rw [shaderCopyCmds, List.map_cons, List.all_cons, Bool.and_eq_true]
    exact ⟨rfl, ih⟩

theorem compileCmds_avoids (names : List (Path × Path)) (pre : Path)
    (h : ∀ y : Path, pre.isPrefixOf (shadersD ++ y) = false) :
    (compileCmds names).all (cmdAvoids pre) = true := by
  induction names with
  | nil => rfl
  | cons e rest ih =>
    rw [compileCmds, List.map_cons, List.all_cons, Bool.and_eq_true]
    refine ⟨?_, ih⟩
    show (!pre.isPrefixOf (shadersD ++ e.2)) = true
    rw [h e.2]
    rfl

theorem shaderCopyCmds_avoids (names : List (Path × Path)) (root pre : Path)
    (h : ∀ y : Path, pre.isPrefixOf (root ++ ["shaders"] ++ y) = false) :
    (shaderCopyCmds names root).all (cmdAvoids pre) = true := by
  induction names with
  | nil => rfl
  | cons e rest ih =>
    rw [shaderCopyCmds, List.map_cons, List.all_cons, Bool.and_eq_true]
    refine ⟨?_, ih⟩
    show (!pre.isPrefixOf (root ++ ["shaders"] ++ e.2)) = true
    rw [h e.2]
    rfl

theorem runScript_mkdirps_creates (comp : Compiler) (cmds : List Cmd) (fs : FS) {p : Path}
    (hq : p ≠ []) (hall : cmds.all isMkdirpCmd = true) (hmem : Cmd.mkdirp p ∈ cmds)
    (hsane : fs.isDir p = true ∨ fs.pathExists p = false) :
    (runScript comp cmds fs).1.isDir p = true := by
  induction cmds generalizing fs with
  | nil => cases hmem
  | cons c rest ih =>
    rw [List.all_cons, Bool.and_eq_true] at hall
    cases c with
    | mkdirp q =>
      rw [runScript_cons]
      simp only [runCmd]
      rcases List.mem_cons.mp hmem with hm | hm
      · have hqp : p = q := by injection hm
        subst hqp
        apply runScript_mkdirps_isDir_mono comp rest _ p hall.2
        rcases hsane with hd | he
        · rw [FS.isDir_mkdirp, hd]
          rfl
        · unfold FS.mkdirp
          rw [if_neg (by simp [he]), FS.isDir_makedirs]
          simp [self_mem_pathChain hq]
      · apply ih (fs.mkdirp q) hall.2 hm
        rcases hsane with hd | he
        · left
          rw [FS.isDir_mkdirp, hd]
          rfl
        · have hfile : (fs.file p).isSome = false := by
            unfold FS.pathExists at he
            cases hff : (fs.file p).isSome
            · rfl
            · rw [hff] at he
              simp at he
          cases hd2 : (fs.mkdirp q).isDir p
          · right
            unfold FS.pathExists
            rw [hd2, FS.file_mkdirp, hfile]
            rfl
          · left
            exact rfl
    | compile x y => cases hall.1
    | copyfile s d => cases hall.1
    | rmtree q => cases hall.1
    | copytree s d => cases hall.1

theorem shaderCopy_ok (comp : Compiler) (names : List (Path × Path)) (root : Path) (fs : FS)
    (hroot : ∀ y : Path, shadersD.isPrefixOf (root ++ ["shaders"] ++ y) = false)
    (hs : ∀ e ∈ names, (fs.file (shadersD ++ e.2)).isSome = true)
    (hdd : ∀ e ∈ names, fs.isDir ((root ++ ["shaders"] ++ e.2).dropLast) = true) :
    (runScript comp (shaderCopyCmds names root) fs).2 = none := by
  induction names generalizing fs with
  | nil => rfl
  | cons e rest ih =>
    rw [shaderCopyCmds, List.map_cons, runScript_cons]
    cases hf : fs.file (shadersD ++ e.2) with
    | none =>
      have := hs e (List.mem_cons_self e rest)
      rw [hf] at this
      cases this
    | some c0 =>
      rw [runCmd_copyfile_some hf (hdd e (List.mem_cons_self e rest))]
      show (runScript comp (shaderCopyCmds rest root)
        (fs.setFile (root ++ ["shaders"] ++ e.2) c0)).2 = none
      apply ih
      · intro e2 he2
        rw [FS.file_setFile]
        by_cases heq : shadersD ++ e2.2 = root ++ ["shaders"] ++ e.2
        · exfalso
          have := hroot e.2
          rw [← heq] at this
          rw [isPrefixOf_false_iff] at this
          exact this (List.prefix_append _ _)
        · rw [if_neg heq]
          exact hs e2 (List.mem_cons_of_mem e he2)
      · intro e2 he2
        show fs.isDir ((root ++ ["shaders"] ++ e2.2).dropLast) = true
        exact hdd e2 (List.mem_cons_of_mem e he2)

theorem runScript_eta_ok {comp : Compiler} {cmds : List Cmd} {fs : FS}
    (h : (runScript comp cmds fs).2 = none) :
    runScript comp cmds fs = ((runScript comp cmds fs).1, none) := by
  rw [← h]

theorem runScript_cons_ok {comp : Compiler} {fs g : FS} {c : Cmd} (rest : List Cmd)
    (h : runCmd comp fs c = (g, none)) :
    runScript comp (c :: rest) fs = runScript comp rest g := by
  rw [runScript_cons, h]

theorem runScript_cons_err {comp : Compiler} {fs g : FS} {c : Cmd} {e : StagingError}
    (rest : List Cmd) (h : runCmd comp fs c = (g, some e)) :
    runScript comp (c :: rest) fs = (g, some e) := by
  rw [runScript_cons, h]

theorem runCmd_rmtree_isDir {comp : Compiler} {fs : FS} {q : Path}
    (h : fs.isDir q = true) :
    runCmd comp fs (.rmtree q) = (fs.rmtreeApply q, none) := by
  simp only [runCmd]
  rw [if_pos h]

theorem runCmd_copytree_noSrc {comp : Compiler} {fs : FS} {s d : Path}
    (h : fs.isDir s = false) :
    runCmd comp fs (.copytree s d) = (fs, some ⟨.copytreeMissingSrc, s⟩) := by
  simp only [runCmd]
  rw [if_neg (by simp [h])]

theorem runCmd_copytree_clean {comp : Compiler} {fs : FS} {s d : Path}
    (h1 : fs.isDir s = true) (h2 : fs.pathExists d = false) :
    runCmd comp fs (.copytree s d) = (fs.copytreeApply s d, none) := by
  simp only [runCmd]
  rw [if_pos h1, if_neg (by simp [h2])]

theorem append_cons_prefix_false (r : Path) (u v : String) (q y : Path) (h : u ≠ v) :
    (r ++ u :: q).isPrefixOf (r ++ v :: y) = false := by
  rw [isPrefixOf_false_iff]
  intro hp
  induction r with
  | nil => exact h (List.cons_prefix_cons.mp hp).1
  | cons a r ih => exact ih (List.cons_prefix_cons.mp hp).2

theorem mkdirCmds_neverFails (dw : Bool) : (mkdirCmds dw).all neverFails = true := by
  cases dw <;> decide

theorem mkdirCmds_mkdirps (dw : Bool) : (mkdirCmds dw).all isMkdirpCmd = true := by
  cases dw <;> decide

theorem mkdirCmds_avoids_models (dw : Bool) :
    (mkdirCmds dw).all (cmdAvoids modelsD) = true := by
  cases dw <;> decide

theorem mkdirCmds_avoids_target (dw : Bool) :
    (mkdirCmds dw).all (cmdAvoids ["target"]) = true := by
  cases dw <;> decide

/-- Everything the run does up to (and including) the failing
`copytree('./models', './target/debug/models')` when the `models` source
directory is absent: the debug `models` destination has already been
removed when the error is raised, and the run stops there. -/
theorem scriptOf_halts_missing_models (comp : Compiler) (names : List (Path × Path))
    (dw : Bool) (fs : FS)
    (h1 : fs.isDir modelsD = false)
    (h2 : ∀ e ∈ names, ((compileFS comp names fs).file (shadersD ++ e.2)).isSome = true)
    (h3 : (fs.file envFile).isSome = true)
    (h4 : fs.isDir (debugRoot ++ ["models"]) = true)
    (h5 : fs.isDir debugRoot = true)
    (h6 : ∀ e ∈ names, fs.isDir ((debugRoot ++ ["shaders"] ++ e.2).dropLast) = true) :
    ∃ g : FS, runScript comp (scriptOf names dw) fs
      = (g.rmtreeApply (debugRoot ++ ["models"]),
          some ⟨.copytreeMissingSrc, modelsD⟩) := by
  have hsplit : scriptOf names dw
      = compileCmds names ++ (mkdirCmds dw ++ (shaderCopyCmds names debugRoot
        ++ (Cmd.copyfile envFile (debugRoot ++ [".env"])
          :: Cmd.rmtree (debugRoot ++ ["models"])
          :: Cmd.copytree modelsD (debugRoot ++ ["models"])
          :: (stageTreeCmds names releaseRoot
            ++ ((if dw then darwinLoopCmds names else [])
            ++ (mirrorCmds resourceD debugRoot
            ++ (mirrorCmds resourceD releaseRoot
            ++ ((if dw then mirrorCmds resourceD darwinRoot else [])
            ++ (mirrorCmds texturesD debugRoot
            ++ (mirrorCmds texturesD releaseRoot
            ++ (if dw then mirrorCmds texturesD darwinRoot else []))))))))))) := by
    simp only [scriptOf, stageTreeCmds, List.append_assoc, List.cons_append,
      List.nil_append]
  rw [hsplit]
  rw [runScript_append_ok _ (compileCmds_ok comp names fs)]
  obtain ⟨fsM, hM⟩ : ∃ g, runScript comp (mkdirCmds dw) (compileFS comp names fs)
      = (g, none) :=
    ⟨_, runScript_eta_ok (runScript_neverFails comp _ _ (mkdirCmds_neverFails dw))⟩
  rw [runScript_append_ok _ hM]
  have hMfile : ∀ p : Path, fsM.file p = (compileFS comp names fs).file p := by
    intro p
    have := runScript_mkdirps_file comp (mkdirCmds dw) (compileFS comp names fs) p
      (mkdirCmds_mkdirps dw)
    rw [hM] at this
    exact this
  have hMdir : ∀ p : Path, fs.isDir p = true → fsM.isDir p = true := by
    intro p hp
    have hcp : (compileFS comp names fs).isDir p = true := by
      unfold FS.isDir
      rw [compileFS_dirs]
      exact hp
    have := runScript_mkdirps_isDir_mono comp (mkdirCmds dw) (compileFS comp names fs)
      p (mkdirCmds_mkdirps dw) hcp
    rw [hM] at this
    exact this
  obtain ⟨fs3, hC⟩ : ∃ g, runScript comp (shaderCopyCmds names debugRoot) fsM
      = (g, none) := by
    refine ⟨_, runScript_eta_ok ?_⟩
    apply shaderCopy_ok
    · intro y
      exact append_cons_prefix_false [] "shaders" "target" [] _ (by decide)
    · intro e he
      rw [hMfile]
      exact h2 e he
    · intro e he
      exact hMdir _ (h6 e he)
  rw [runScript_append_ok _ hC]
  have hd3 : fs3.dirs = fsM.dirs := by
    have := runScript_copyfiles_dirs comp (shaderCopyCmds names debugRoot) fsM
      (shaderCopyCmds_copyfiles names debugRoot)
    rw [hC] at this
    exact this
  have henv : (fs3.file envFile).isSome = true := by
    have t1 : (compileFS comp names fs).file envFile = fs.file envFile :=
      (runScript_avoids comp (compileCmds names) fs
        (compileCmds_avoids names envFile
          (fun y => append_cons_prefix_false [] ".env" "shaders" [] y (by decide)))
        (List.prefix_refl _)).1
    have t3 : fs3.file envFile = fsM.file envFile := by
      have := (runScript_avoids comp (shaderCopyCmds names debugRoot) fsM
        (shaderCopyCmds_avoids names debugRoot envFile
          (fun y => append_cons_prefix_false [] ".env" "target" [] _ (by decide)))
        (List.prefix_refl _)).1
      rw [hC] at this
      exact this
    rw [t3, hMfile, t1]
    exact h3
  obtain ⟨c0, hc0⟩ : ∃ c0, fs3.file envFile = some c0 :=
    Option.isSome_iff_exists.mp henv
  have henvdir : fs3.isDir ((debugRoot ++ [".env"]).dropLast) = true := by
    show fs3.isDir debugRoot = true
    unfold FS.isDir
    rw [hd3]
    exact hMdir debugRoot h5
  rw [runScript_cons_ok _ (runCmd_copyfile_some hc0 henvdir)]
  have hdmM : fsM.isDir (debugRoot ++ ["models"]) = true :=
    hMdir _ h4
  have hdm : (fs3.setFile (debugRoot ++ [".env"]) c0).isDir (debugRoot ++ ["models"])
      = true := by
    rw [FS.isDir_setFile]
    unfold FS.isDir
    rw [hd3]
    exact hdmM
  rw [runScript_cons_ok _ (runCmd_rmtree_isDir hdm)]
  have hnm : ((fs3.setFile (debugRoot ++ [".env"]) c0).rmtreeApply
      (debugRoot ++ ["models"])).isDir modelsD = false := by
    rw [FS.isDir_rmtreeApply]
    have hpre : (debugRoot ++ ["models"]).isPrefixOf modelsD = false := by decide
    rw [hpre]
    have hm1 : (fs3.setFile (debugRoot ++ [".env"]) c0).isDir modelsD
        = fsM.isDir modelsD := by
      rw [FS.isDir_setFile]
      unfold FS.isDir
      rw [hd3]
    have hm2 : fsM.isDir modelsD = (compileFS comp names fs).isDir modelsD := by
      have := (runScript_avoids comp (mkdirCmds dw) (compileFS comp names fs)
        (mkdirCmds_avoids_models dw) (List.prefix_refl modelsD)).2
      rw [hM] at this
      exact this
    have hm3 : (compileFS comp names fs).isDir modelsD = fs.isDir modelsD := by
      unfold FS.isDir
      rw [compileFS_dirs]
    rw [hm1, hm2, hm3, h1]
    rfl
  rw [runScript_cons_err _ (runCmd_copytree_noSrc hnm)]
  exact ⟨fs3.setFile (debugRoot ++ [".env"]) c0, rfl⟩

/-! ### Concrete fixtures used by witnesses and counterexamples -/

/-- A compiler invocation that fails on every source (non-zero exit, no
output file written). -/
def failingCompiler : Compiler := fun _ _ => none

/-- A compiler that succeeds on every source, producing a deterministic
artifact from the source contents. -/
def okCompiler : Compiler := fun _ s => some ("spv:" ++ s)

/-- The empty filesystem. -/
def emptyFS : FS := ⟨[], []⟩

/-- A repository checkout where every static source and every shader source
exists, together with stale compiled artifacts from an earlier run. -/
def staleFS : FS :=
  { dirs := [["shaders"], ["models"], ["resource"], ["textures"],
      ["target"], ["target", "debug"], ["target", "debug", "shaders"],
      ["target", "debug", "models"], ["target", "debug", "resource"],
      ["target", "debug", "textures"],
      ["target", "release"], ["target", "release", "shaders"],
      ["target", "release", "models"], ["target", "release", "resource"],
      ["target", "release", "textures"]],
    files := [([".env"], "ENV"),
      (["models", "m.obj"], "M"),
      (["resource", "r.txt"], "R"),
      (["textures", "t.png"], "T"),
      (["shaders", "basicShader.vert"], "vertex-source"),
      (["shaders", "vert.spv"], "stale artifact"),
      (["shaders", "basicShader_animated.spv"], "stale2"),
      (["shaders", "basicShader_noTexture.spv"], "stale3"),
      (["shaders", "terrain_vert.spv"], "stale4"),
      (["shaders", "instance_vert.spv"], "stale5"),
      (["shaders", "ui_vert.spv"], "stale6"),
      (["shaders", "ui_frag.spv"], "stale7")] }

/-! ### Error-kind analysis of the run (for the rmtree-safety claim) -/

theorem all_imp {f g : Cmd → Bool} (cmds : List Cmd)
    (himp : ∀ c, f c = true → g c = true) (h : cmds.all f = true) :
    cmds.all g = true := by
  induction cmds with
  | nil => rfl
  | cons c rest ih =>
    rw [List.all_cons, Bool.and_eq_true] at h ⊢
    exact ⟨himp c h.1, ih h.2⟩

theorem mkdirp_keeps (p : Path) (c : Cmd) (h : isMkdirpCmd c = true) :
    cmdKeeps p c = true := by
  cases c <;> first | rfl | cases h

theorem copyfile_keeps (p : Path) (c : Cmd) (h : isCopyfileCmd c = true) :
    cmdKeeps p c = true := by
  cases c <;> first | rfl | cases h

theorem compile_keeps (p : Path) (c : Cmd) (h : neverFails c = true) :
    cmdKeeps p c = true := by
  cases c <;> first | rfl | cases h

theorem runScript_cons_err_elim {comp : Compiler} {fs : FS} {c : Cmd}
    {rest : List Cmd} {e : StagingError}
    (h : (runScript comp (c :: rest) fs).2 = some e) :
    runCmd comp fs c = ((runCmd comp fs c).1, some e)
    ∨ (runCmd comp fs c = ((runCmd comp fs c).1, none)
        ∧ (runScript comp rest (runCmd comp fs c).1).2 = some e) := by
  rw [runScript_cons] at h
  rcases hr : runCmd comp fs c with ⟨g, e2⟩
  rw [hr] at h
  cases e2 with
  | none =>
    have h2 : (runScript comp rest g).2 = some e := h
    exact Or.inr ⟨rfl, h2⟩
  | some e3 =>
    left
    have h2 : some e3 = some e := h
    rw [Option.some_inj.mp h2]

theorem runScript_append_err_elim {comp : Compiler} {a b : List Cmd} {fs : FS}
    {e : StagingError} (h : (runScript comp (a ++ b) fs).2 = some e) :
    (runScript comp a fs).2 = some e
    ∨ ((runScript comp a fs).2 = none
        ∧ (runScript comp b (runScript comp a fs).1).2 = some e) := by
  rw [runScript_append] at h
  rcases hr : runScript comp a fs with ⟨g, e2⟩
  rw [hr] at h
  cases e2 with
  | none =>
    have h2 : (runScript comp b g).2 = some e := h
    exact Or.inr ⟨rfl, h2⟩
  | some e3 =>
    left
    have h2 : some e3 = some e := h
    rw [Option.some_inj.mp h2]

theorem runCmd_rmtree_cases (comp : Compiler) (fs : FS) (q : Path) :
    (fs.isDir q = true ∧ runCmd comp fs (.rmtree q) = (fs.rmtreeApply q, none))
    ∨ ((fs.file q).isSome = true
        ∧ runCmd comp fs (.rmtree q) = (fs, some ⟨.rmtreeNotDir, q⟩))
    ∨ (fs.pathExists q = false
        ∧ runCmd comp fs (.rmtree q) = (fs, some ⟨.rmtreeMissingPath, q⟩)) := by
  by_cases hd : fs.isDir q = true
  · exact Or.inl ⟨hd, by simp only [runCmd]; rw [if_pos hd]⟩
  · by_cases hs : (fs.file q).isSome = true
    · refine Or.inr (Or.inl ⟨hs, ?_⟩)
      simp only [runCmd]
      rw [if_neg hd, if_pos hs]
    · refine Or.inr (Or.inr ⟨?_, ?_⟩)
      · have hd2 : fs.isDir q = false := by
          cases hh : fs.isDir q
          · rfl
          · exact absurd hh hd
        have hs2 : (fs.file q).isSome = false := by
          cases hh : (fs.file q).isSome
          · rfl
          · exact absurd hh hs
        unfold FS.pathExists
        rw [hd2, hs2]
        rfl
      · simp only [runCmd]
        rw [if_neg hd, if_neg hs]

theorem shaderCopyCmds_keeps (names : List (Path × Path)) (root p : Path) :
    (shaderCopyCmds names root).all (cmdKeeps p) = true :=
  all_imp _ (copyfile_keeps p) (shaderCopyCmds_copyfiles names root)

theorem stageTree_keeps (names : List (Path × Path)) (root p : Path)
    (h : (root ++ ["models"]).isPrefixOf p = false) :
    (stageTreeCmds names root).all (cmdKeeps p) = true := by
  rw [stageTreeCmds, List.all_append, Bool.and_eq_true]
  refine ⟨shaderCopyCmds_keeps names root p, ?_⟩
  show (true && ((!(root ++ ["models"]).isPrefixOf p) && (true && true))) = true
  rw [h]
  rfl

theorem mirrorCmds_keeps (src root p : Path)
    (h : (root ++ src).isPrefixOf p = false) :
    (mirrorCmds src root).all (cmdKeeps p) = true := by
  show ((!(root ++ src).isPrefixOf p) && (true && true)) = true
  rw [h]
  rfl

theorem darwinLoopCmds_keeps (names : List (Path × Path)) (p : Path)
    (h : (darwinRoot ++ ["models"]).isPrefixOf p = false) :
    (darwinLoopCmds names).all (cmdKeeps p) = true := by
  induction names with
  | nil => rfl
  | cons a rest ih =>
    rw [darwinLoopCmds, List.flatMap_cons, List.all_append, Bool.and_eq_true]
    refine ⟨?_, ih⟩
    show (true && (true && ((!(darwinRoot ++ ["models"]).isPrefixOf p) && (true && true)))) = true
    rw [h]
    rfl

theorem FS.isDir_copytreeApply_dst (fs : FS) (src dst : Path)
    (h : fs.isDir src = true) : (fs.copytreeApply src dst).isDir dst = true := by
  simp only [FS.copytreeApply, FS.isDir, contains_eq_decide, decide_eq_true_eq,
    List.mem_append, List.mem_map, List.mem_filter] at h ⊢
  right
  refine ⟨src, ⟨h, isPrefixOf_eq_true_iff.mpr (List.prefix_refl src)⟩, ?_⟩
  unfold rebase
  rw [List.drop_length, List.append_nil]

/-! ### Characterisation of successful runs -/

theorem isPrefixOf_append_same (a b c : Path) :
    (a ++ b).isPrefixOf (a ++ c) = b.isPrefixOf c := by
  induction a with
  | nil => rfl
  | cons x a ih =>
    show ((x == x) && (a ++ b).isPrefixOf (a ++ c)) = b.isPrefixOf c
    rw [ih]
    simp

theorem runScript_append_ok_elim {comp : Compiler} {a b : List Cmd} {fs : FS}
    (h : (runScript comp (a ++ b) fs).2 = none) :
    ∃ g, runScript comp a fs = (g, none) ∧ (runScript comp b g).2 = none
      ∧ (runScript comp (a ++ b) fs).1 = (runScript comp b g).1 := by
  rcases hr : runScript comp a fs with ⟨g, e⟩
  cases e with
  | none =>
    refine ⟨g, rfl, ?_, ?_⟩
    · rw [runScript_append_ok b hr] at h
      exact h
    · rw [runScript_append_ok b hr]
  | some e2 =>
    rw [runScript_append_err b hr] at h
    cases h

theorem shaderCopyCmds_cons (a : Path × Path) (rest : List (Path × Path)) (root : Path) :
    shaderCopyCmds (a :: rest) root
      = .copyfile (shadersD ++ a.2) (root ++ ["shaders"] ++ a.2)
        :: shaderCopyCmds rest root := rfl

theorem shaderCopy_file_off (comp : Compiler) (names : List (Path × Path))
    (root : Path) (fs : FS) {p : Path}
    (hoff : ∀ e ∈ names, p ≠ root ++ ["shaders"] ++ e.2) :
    (runScript comp (shaderCopyCmds names root) fs).1.file p = fs.file p := by
  induction names generalizing fs with
  | nil => rfl
  | cons a rest ih =>
    rw [shaderCopyCmds_cons, runScript_cons]
    rcases hr : runCmd comp fs (.copyfile (shadersD ++ a.2) (root ++ ["shaders"] ++ a.2))
      with ⟨g, e⟩
    have hgf : g.file p = fs.file p := by
      cases hf : fs.file (shadersD ++ a.2) with
      | none =>
        rw [runCmd_copyfile_nosrc hf] at hr
        have := congrArg Prod.fst hr
        simp only at this
        rw [← this]
      | some c0 =>
        by_cases hdd : fs.isDir (root ++ ["shaders"] ++ a.2).dropLast = true
        · rw [runCmd_copyfile_some hf hdd] at hr
          have := congrArg Prod.fst hr
          simp only at this
          rw [← this, FS.file_setFile, if_neg (hoff a (List.mem_cons_self a rest))]
        · rw [runCmd_copyfile_nodst hf hdd] at hr
          have := congrArg Prod.fst hr
          simp only at this
          rw [← this]
    cases e with
    | none =>
      simp only
      rw [ih g (fun e he => hoff e (List.mem_cons_of_mem a he))]
      exact hgf
    | some e2 =>
      simp only
      exact hgf

theorem shaderCopy_dirs (comp : Compiler) (names : List (Path × Path)) (root : Path)
    (fs : FS) (p : Path) :
    (runScript comp (shaderCopyCmds names root) fs).1.isDir p = fs.isDir p := by
  have := runScript_copyfiles_dirs comp (shaderCopyCmds names root) fs
    (shaderCopyCmds_copyfiles names root)
  unfold FS.isDir
  rw [this]

theorem shaderCopy_file_out (comp : Compiler) (names : List (Path × Path))
    (root : Path) (fs : FS) {y : Path}
    (hroot : ∀ q : Path, shadersD.isPrefixOf (root ++ ["shaders"] ++ q) = false)
    (hmem : y ∈ names.map (fun e => e.2))
    (hsucc : (runScript comp (shaderCopyCmds names root) fs).2 = none) :
    (runScript comp (shaderCopyCmds names root) fs).1.file (root ++ ["shaders"] ++ y)
      = fs.file (shadersD ++ y) := by
  induction names generalizing fs with
  | nil => cases hmem
  | cons a rest ih =>
    rw [shaderCopyCmds_cons, runScript_cons] at hsucc ⊢
    rcases hr : runCmd comp fs (.copyfile (shadersD ++ a.2) (root ++ ["shaders"] ++ a.2))
      with ⟨g, e⟩
    rw [hr] at hsucc
    cases e with
    | some e2 => cases hsucc
    | none =>
      simp only at hsucc ⊢
      obtain ⟨c0, hc0, hg⟩ : ∃ c0, fs.file (shadersD ++ a.2) = some c0
          ∧ g = fs.setFile (root ++ ["shaders"] ++ a.2) c0 := by
        cases hf : fs.file (shadersD ++ a.2) with
        | none =>
          rw [runCmd_copyfile_nosrc hf] at hr
          cases congrArg Prod.snd hr
        | some c0 =>
          by_cases hdd : fs.isDir (root ++ ["shaders"] ++ a.2).dropLast = true
          · rw [runCmd_copyfile_some hf hdd] at hr
            have := congrArg Prod.fst hr
            simp only at this
            exact ⟨c0, rfl, this.symm⟩
          · rw [runCmd_copyfile_nodst hf hdd] at hr
            cases congrArg Prod.snd hr
      have hgsh : ∀ q : Path, g.file (shadersD ++ q) = fs.file (shadersD ++ q) := by
        intro q
        rw [hg, FS.file_setFile, if_neg]
        intro hyp
        have := hroot a.2
        rw [← hyp] at this
        rw [isPrefixOf_false_iff] at this
        exact this (List.prefix_append _ _)
      rw [List.map_cons] at hmem
      rcases List.mem_cons.mp hmem with hya | hyrest
      · by_cases hin : y ∈ rest.map (fun e => e.2)
        · rw [ih g hin hsucc]
          exact hgsh y
        · rw [shaderCopy_file_off comp rest root g ?_]
          · subst hya
            rw [hg, FS.file_setFile, if_pos rfl, hc0]
          · intro e he hyp
            exact absurd (List.mem_map.mpr ⟨e, he, (List.append_cancel_left hyp).symm⟩) hin
      · rw [ih g hyrest hsucc]
        exact hgsh y

theorem ne_of_head {a b : String} (l m : Path) (h : a ≠ b) : a :: l ≠ b :: m := by
  intro hyp
  injection hyp with h1 h2
  exact h h1

theorem shaderCopy_ok_needs (comp : Compiler) (names : List (Path × Path))
    (root : Path) (fs : FS)
    (hroot : ∀ q : Path, shadersD.isPrefixOf (root ++ ["shaders"] ++ q) = false)
    (hsucc : (runScript comp (shaderCopyCmds names root) fs).2 = none) :
    ∀ e ∈ names, (fs.file (shadersD ++ e.2)).isSome = true := by
  induction names generalizing fs with
  | nil =>
    intro e he
    cases he
  | cons a rest ih =>
    rw [shaderCopyCmds_cons, runScript_cons] at hsucc
    rcases hr : runCmd comp fs (.copyfile (shadersD ++ a.2) (root ++ ["shaders"] ++ a.2))
      with ⟨g, e2⟩
    rw [hr] at hsucc
    cases e2 with
    | some e3 => cases hsucc
    | none =>
      simp only at hsucc
      obtain ⟨c0, hc0, hg⟩ : ∃ c0, fs.file (shadersD ++ a.2) = some c0
          ∧ g = fs.setFile (root ++ ["shaders"] ++ a.2) c0 := by
        cases hf : fs.file (shadersD ++ a.2) with
        | none =>
          rw [runCmd_copyfile_nosrc hf] at hr
          cases congrArg Prod.snd hr
        | some c0 =>
          by_cases hdd : fs.isDir (root ++ ["shaders"] ++ a.2).dropLast = true
          · rw [runCmd_copyfile_some hf hdd] at hr
            have := congrArg Prod.fst hr
            simp only at this
            exact ⟨c0, rfl, this.symm⟩
          · rw [runCmd_copyfile_nodst hf hdd] at hr
            cases congrArg Prod.snd hr
      intro e he
      rcases List.mem_cons.mp he with h0 | h0
      · subst h0
        rw [hc0]
        rfl
      · have hrest := ih g hsucc e h0
        rw [hg, FS.file_setFile, if_neg ?_] at hrest
        · exact hrest
        · intro hyp
          have := hroot a.2
          rw [← hyp] at this
          rw [isPrefixOf_false_iff] at this
          exact this (List.prefix_append _ _)

theorem mirror_run_char (comp : Compiler) (src root : Path) (fs : FS) {g : FS}
    (hdisj : pathDisj src (root ++ src) = true)
    (hrun : runScript comp (mirrorCmds src root) fs = (g, none)) :
    (∀ rest : Path, g.file (root ++ src ++ rest) = fs.file (src ++ rest)
        ∧ g.isDir (root ++ src ++ rest) = fs.isDir (src ++ rest))
    ∧ (∀ p : Path, (root ++ src).isPrefixOf p = false
        → g.file p = fs.file p ∧ g.isDir p = fs.isDir p)
    ∧ fs.isDir src = true := by
  rw [mirrorCmds] at hrun
  rcases hr1 : runCmd comp fs (.rmtree (root ++ src)) with ⟨g1, e1⟩
  rw [runScript_cons, hr1] at hrun
  cases e1 with
  | some e =>
    exact absurd (congrArg Prod.snd hrun) (by simp)
  | none =>
    simp only at hrun
    rcases hr2 : runCmd comp g1 (.copytree src (root ++ src)) with ⟨g2, e2⟩
    rw [runScript_cons, hr2] at hrun
    cases e2 with
    | some e =>
      exact absurd (congrArg Prod.snd hrun) (by simp)
    | none =>
      simp only at hrun
      have hg : g2 = g := congrArg Prod.fst hrun
      rcases runCmd_rmtree_ok hr1 with ⟨hdst, hg1⟩
      rcases runCmd_copytree_ok hr2 with ⟨hsrc1, -, hg2⟩
      have hfssrc : fs.isDir src = true := by
        rw [hg1, FS.isDir_rmtreeApply] at hsrc1
        rcases Bool.and_eq_true .. |>.mp hsrc1 with ⟨-, h2⟩
        exact h2
      have hnp : ∀ rest : Path, (root ++ src).isPrefixOf (src ++ rest) = false :=
        fun rest => pathDisj_not_pref hdisj (List.prefix_append _ _)
      refine ⟨?_, ?_, hfssrc⟩
      · intro rest
        constructor
        · rw [← hg, hg2, hg1]
          rw [FS.file_copytreeApply_below _ _ _ _ (FS.rmtreeApply_clean_files fs (root ++ src))]
          rw [FS.file_rmtreeApply, if_neg (by simp [hnp rest])]
        · rw [← hg, hg2, hg1]
          rw [FS.isDir_copytreeApply_below _ _ _ _ (FS.rmtreeApply_clean_dirs fs (root ++ src))]
          rw [FS.isDir_rmtreeApply, hnp rest]
          rfl
      · intro p hp
        constructor
        · rw [← hg, hg2, hg1]
          rw [FS.file_copytreeApply_outside _ _ _ _ hp, FS.file_rmtreeApply,
            if_neg (by simp [hp])]
        · rw [← hg, hg2, hg1]
          rw [FS.isDir_copytreeApply_outside _ _ _ _ hp, FS.isDir_rmtreeApply, hp]
          rfl

theorem stageTree_run_char (comp : Compiler) (names : List (Path × Path))
    (root : Path) (fs : FS) {g : FS}
    (htarget : root.head? = some "target")
    (hrun : runScript comp (stageTreeCmds names root) fs = (g, none)) :
    (∀ rest : Path, g.file (root ++ ["models"] ++ rest) = fs.file (modelsD ++ rest)
        ∧ g.isDir (root ++ ["models"] ++ rest) = fs.isDir (modelsD ++ rest))
    ∧ g.file (root ++ [".env"]) = fs.file envFile
    ∧ (∀ y ∈ names.map (fun e => e.2),
        g.file (root ++ ["shaders"] ++ y) = fs.file (shadersD ++ y))
    ∧ fs.isDir modelsD = true
    ∧ (∀ e ∈ names, (fs.file (shadersD ++ e.2)).isSome = true)
    ∧ (fs.file envFile).isSome = true
    ∧ (∀ p : Path, (∀ y ∈ names.map (fun e => e.2), p ≠ root ++ ["shaders"] ++ y)
        → p ≠ root ++ [".env"]
        → (root ++ ["models"]).isPrefixOf p = false
        → g.file p = fs.file p)
    ∧ (∀ p : Path, (root ++ ["models"]).isPrefixOf p = false → g.isDir p = fs.isDir p) := by
  obtain ⟨r, hrr⟩ : ∃ r, root = "target" :: r := by
    cases root with
    | nil => cases htarget
    | cons a r =>
      refine ⟨r, ?_⟩
      injection htarget with h1
      rw [h1]
  have hrootSh : ∀ q : Path, shadersD.isPrefixOf (root ++ ["shaders"] ++ q) = false := by
    intro q
    rw [hrr]
    exact isPrefixOf_cons_false _ _ (by decide)
  have hshmo : ∀ q : Path,
      (root ++ ["models"]).isPrefixOf (root ++ ["shaders"] ++ q) = false := by
    intro q
    rw [List.append_assoc root ["shaders"] q]
    rw [isPrefixOf_append_same root ["models"] (["shaders"] ++ q)]
    exact isPrefixOf_cons_false _ _ (by decide)
  have henvmo : (root ++ ["models"]).isPrefixOf (root ++ [".env"]) = false := by
    rw [isPrefixOf_append_same root ["models"] [".env"]]
    decide
  have hmdisj : pathDisj modelsD (root ++ ["models"]) = true := by
    rw [hrr]
    have h1 : modelsD.isPrefixOf ("target" :: (r ++ ["models"])) = false :=
      isPrefixOf_cons_false _ _ (by decide)
    have h2 : ("target" :: (r ++ ["models"])).isPrefixOf modelsD = false :=
      isPrefixOf_cons_false _ _ (by decide)
    unfold pathDisj
    have hb : ("target" :: r) ++ ["models"] = "target" :: (r ++ ["models"]) := rfl
    rw [hb, h1, h2]
    rfl
  have hmoNeRoot : ∀ q tail : Path, modelsD ++ q ≠ root ++ tail := by
    intro q tail
    rw [hrr]
    exact ne_of_head _ _ (by decide)
  have hmoNeRootSh : ∀ q tail : Path, modelsD ++ q ≠ root ++ ["shaders"] ++ tail := by
    intro q tail
    rw [hrr]
    exact ne_of_head _ _ (by decide)
  have hshNeRootSh : ∀ q tail : Path, shadersD ++ q ≠ root ++ ["shaders"] ++ tail := by
    intro q tail
    rw [hrr]
    exact ne_of_head _ _ (by decide)
  have henvNeRootSh : ∀ tail : Path, envFile ≠ root ++ ["shaders"] ++ tail := by
    intro tail
    rw [hrr]
    exact ne_of_head _ _ (by decide)
  rw [stageTreeCmds] at hrun
  obtain ⟨g1, hA, hB2, hfst⟩ := runScript_append_ok_elim
    (by rw [hrun] :
      (runScript comp (shaderCopyCmds names root
        ++ [.copyfile envFile (root ++ [".env"]), .rmtree (root ++ ["models"]),
            .copytree modelsD (root ++ ["models"])]) fs).2 = none)
  have hg : g = (runScript comp [Cmd.copyfile envFile (root ++ [".env"]),
      Cmd.rmtree (root ++ ["models"]), Cmd.copytree modelsD (root ++ ["models"])] g1).1 := by
    have := congrArg Prod.fst hrun
    simp only at this
    rw [← this, hfst]
  have hA2 : (runScript comp (shaderCopyCmds names root) fs).2 = none := by
    rw [hA]
  -- step through the three tail commands
  rcases hr1 : runCmd comp g1 (.copyfile envFile (root ++ [".env"])) with ⟨g2, e1⟩
  rw [runScript_cons, hr1] at hB2 hg
  cases e1 with
  | some e => cases hB2
  | none =>
    simp only at hB2 hg
    rcases hr2 : runCmd comp g2 (.rmtree (root ++ ["models"])) with ⟨g3, e2⟩
    rw [runScript_cons, hr2] at hB2 hg
    cases e2 with
    | some e => cases hB2
    | none =>
      simp only at hB2 hg
      rcases hr3 : runCmd comp g3 (.copytree modelsD (root ++ ["models"])) with ⟨g4, e3⟩
      rw [runScript_cons, hr3] at hB2 hg
      cases e3 with
      | some e => cases hB2
      | none =>
        simp only at hg
        rcases runCmd_copyfile_ok hr1 with ⟨c0, hc0, -, hg2⟩
        rcases runCmd_rmtree_ok hr2 with ⟨hdm, hg3⟩
        rcases runCmd_copytree_ok hr3 with ⟨hmo3, -, hg4⟩
        have hfsmo : g2.isDir modelsD = true := by
          rw [hg3, FS.isDir_rmtreeApply] at hmo3
          rcases Bool.and_eq_true .. |>.mp hmo3 with ⟨-, h2⟩
          exact h2
        have hnp : ∀ rest : Path,
            (root ++ ["models"]).isPrefixOf (modelsD ++ rest) = false :=
          fun rest => pathDisj_not_pref hmdisj (List.prefix_append _ _)
        -- the copy loop leaves the shader sources, env and models source alone
        have hg1sh : ∀ q : Path, g1.file (shadersD ++ q) = fs.file (shadersD ++ q) := by
          intro q
          have := shaderCopy_file_off comp names root fs
            (p := shadersD ++ q) (fun e he => hshNeRootSh q e.2)
          rw [hA] at this
          exact this
        have hg1env : g1.file envFile = fs.file envFile := by
          have := shaderCopy_file_off comp names root fs
            (p := envFile) (fun e he => henvNeRootSh e.2)
          rw [hA] at this
          exact this
        have hg1mo : ∀ q : Path, g1.file (modelsD ++ q) = fs.file (modelsD ++ q) := by
          intro q
          have := shaderCopy_file_off comp names root fs
            (p := modelsD ++ q) (fun e he => hmoNeRootSh q e.2)
          rw [hA] at this
          exact this
        have hg1dir : ∀ p : Path, g1.isDir p = fs.isDir p := by
          intro p
          have := shaderCopy_dirs comp names root fs p
          rw [hA] at this
          exact this
        -- g2 = g1 plus the env file
        have hg2f : ∀ p : Path, p ≠ root ++ [".env"] → g2.file p = g1.file p := by
          intro p hp
          rw [hg2, FS.file_setFile, if_neg hp]
        have hg2dir : ∀ p : Path, g2.isDir p = g1.isDir p := by
          intro p
          rw [hg2]
          rfl
        subst hg
        refine ⟨?_, ?_, ?_, ?_, ?_, ?_, ?_, ?_⟩
        · intro rest
          constructor
          · rw [hg4, hg3]
            rw [FS.file_copytreeApply_below _ _ _ _
              (FS.rmtreeApply_clean_files g2 (root ++ ["models"]))]
            rw [FS.file_rmtreeApply, if_neg (by simp [hnp rest])]
            rw [hg2f _ (hmoNeRoot rest [".env"]), hg1mo rest]
          · rw [hg4, hg3]
            rw [FS.isDir_copytreeApply_below _ _ _ _
              (FS.rmtreeApply_clean_dirs g2 (root ++ ["models"]))]
            rw [FS.isDir_rmtreeApply, hnp rest]
            rw [hg2dir, hg1dir]
            rfl
        · rw [hg4, hg3]
          rw [FS.file_copytreeApply_outside _ _ _ _ henvmo, FS.file_rmtreeApply,
            if_neg (by simp [henvmo])]
          rw [hg2, FS.file_setFile, if_pos rfl, ← hc0, hg1env]
        · intro y hy
          rw [hg4, hg3]
          have hkeep : (root ++ ["models"]).isPrefixOf (root ++ ["shaders"] ++ y) = false :=
            hshmo y
          rw [FS.file_copytreeApply_outside _ _ _ _ hkeep, FS.file_rmtreeApply,
            if_neg (by simp [hkeep])]
          rw [hg2f _ ?_]
          · have := shaderCopy_file_out comp names root fs hrootSh hy hA2
            rw [hA] at this
            exact this
          · intro hyp
            rw [List.append_assoc] at hyp
            have h1 := List.append_cancel_left hyp
            injection h1 with h2 h3
            exact absurd h2 (by decide)
        · -- the models source directory exists
          have := hfsmo
          rw [hg2dir, hg1dir] at this
          exact this
        · intro e he
          have := shaderCopy_ok_needs comp names root fs hrootSh hA2 e he
          exact this
        · have h := hg1env
          rw [hc0] at h
          rw [← h]
          rfl
        · intro p hpy hpe hpm
          rw [hg4, hg3]
          rw [FS.file_copytreeApply_outside _ _ _ _ hpm, FS.file_rmtreeApply,
            if_neg (by simp [hpm])]
          rw [hg2f _ hpe]
          have := shaderCopy_file_off comp names root fs
            (p := p) (fun e he => hpy e.2 (List.mem_map.mpr ⟨e, he, rfl⟩))
          rw [hA] at this
          exact this
        · intro p hpm
          rw [hg4, hg3]
          rw [FS.isDir_copytreeApply_outside _ _ _ _ hpm, FS.isDir_rmtreeApply, hpm]
          rw [hg2dir, hg1dir]
          rfl

theorem target_src_ne (root : Path) (htarget : root.head? = some "target")
    {a : String} (ha : a ≠ "target") (q tail : Path) : (a :: q) ≠ root ++ tail := by
  cases root with
  | nil => cases htarget
  | cons b r =>
    injection htarget with h1
    rw [h1]
    exact ne_of_head _ _ ha

theorem target_prefix_src_false (root : Path) (htarget : root.head? = some "target")
    {a : String} (ha : "target" ≠ a) (q tail : Path) :
    (root ++ tail).isPrefixOf (a :: q) = false := by
  cases root with
  | nil => cases htarget
  | cons b r =>
    injection htarget with h1
    rw [h1]
    exact isPrefixOf_cons_false _ _ ha

theorem root_sh_inj (root : Path) {y y' : Path}
    (h : root ++ ["shaders"] ++ y = root ++ ["shaders"] ++ y') : y = y' := by
  rw [List.append_assoc, List.append_assoc] at h
  have h2 := List.append_cancel_left h
  exact List.append_cancel_left h2

theorem root_sh_ne_env (root : Path) (y : Path) :
    root ++ ["shaders"] ++ y ≠ root ++ [".env"] := by
  intro h
  rw [List.append_assoc] at h
  have h2 := List.append_cancel_left h
  injection h2 with h3 h4
  exact absurd h3 (by decide)

theorem root_mo_prefix_sh (root : Path) (y : Path) :
    (root ++ ["models"]).isPrefixOf (root ++ ["shaders"] ++ y) = false := by
  rw [List.append_assoc root ["shaders"] y,
    isPrefixOf_append_same root ["models"] (["shaders"] ++ y)]
  exact isPrefixOf_cons_false _ _ (by decide)

theorem root_mo_prefix_env (root : Path) :
    (root ++ ["models"]).isPrefixOf (root ++ [".env"]) = false := by
  rw [isPrefixOf_append_same root ["models"] [".env"]]
  decide

theorem darwinLoopCmds_eq (a : Path × Path) (rest : List (Path × Path)) :
    darwinLoopCmds (a :: rest) = stageTreeCmds [a] darwinRoot ++ darwinLoopCmds rest := by
  simp [darwinLoopCmds, stageTreeCmds, shaderCopyCmds]

theorem darwinLoop_run_char (comp : Compiler) (names : List (Path × Path))
    (fs : FS) {g : FS} (hne : names ≠ [])
    (hrun : runScript comp (darwinLoopCmds names) fs = (g, none)) :
    (∀ rest : Path, g.file (darwinRoot ++ ["models"] ++ rest) = fs.file (modelsD ++ rest)
        ∧ g.isDir (darwinRoot ++ ["models"] ++ rest) = fs.isDir (modelsD ++ rest))
    ∧ g.file (darwinRoot ++ [".env"]) = fs.file envFile
    ∧ (∀ y ∈ names.map (fun e => e.2),
        g.file (darwinRoot ++ ["shaders"] ++ y) = fs.file (shadersD ++ y))
    ∧ fs.isDir modelsD = true
    ∧ (∀ e ∈ names, (fs.file (shadersD ++ e.2)).isSome = true)
    ∧ (fs.file envFile).isSome = true
    ∧ (∀ p : Path, (∀ y ∈ names.map (fun e => e.2), p ≠ darwinRoot ++ ["shaders"] ++ y)
        → p ≠ darwinRoot ++ [".env"]
        → (darwinRoot ++ ["models"]).isPrefixOf p = false
        → g.file p = fs.file p)
    ∧ (∀ p : Path, (darwinRoot ++ ["models"]).isPrefixOf p = false
        → g.isDir p = fs.isDir p) := by
  induction names generalizing fs g with
  | nil => exact absurd rfl hne
  | cons a rest ih =>
    rw [darwinLoopCmds_eq] at hrun
    obtain ⟨g1, hA, hB2, hfst⟩ := runScript_append_ok_elim
      (by rw [hrun] :
        (runScript comp (stageTreeCmds [a] darwinRoot ++ darwinLoopCmds rest) fs).2 = none)
    obtain ⟨hS1, hS2, hS3, hS4, hS5, hS6, hS7, hS8⟩ :=
      stageTree_run_char comp [a] darwinRoot fs rfl hA
    by_cases hrest : rest = []
    · subst hrest
      have hg : g = g1 := by
        have h0 := congrArg Prod.fst hrun
        simp only at h0
        rw [← h0, hfst]
        rfl
      subst hg
      exact ⟨hS1, hS2, hS3, hS4, hS5, hS6, hS7, hS8⟩
    · have hgq : (runScript comp (darwinLoopCmds rest) g1).1 = g := by
        have h0 := congrArg Prod.fst hrun
        simp only at h0
        rw [← h0, hfst]
      have hB : runScript comp (darwinLoopCmds rest) g1 = (g, none) := by
        rcases hsp : runScript comp (darwinLoopCmds rest) g1 with ⟨g2, e2⟩
        rw [hsp] at hgq hB2
        simp only at hgq hB2
        rw [hgq, hB2]
      obtain ⟨hT1, hT2, hT3, hT4, hT5, hT6, hT7, hT8⟩ := ih g1 hrest hB
      -- transport of source reads through the first iteration
      have hsrcF : ∀ q : Path, g1.file (shadersD ++ q) = fs.file (shadersD ++ q) := by
        intro q
        refine hS7 _ ?_ ?_ ?_
        · intro y hy
          exact target_src_ne darwinRoot rfl (by decide) q _
        · exact target_src_ne darwinRoot rfl (by decide) q _
        · exact target_prefix_src_false darwinRoot rfl (by decide) q _
      have hmoF : ∀ q : Path, g1.file (modelsD ++ q) = fs.file (modelsD ++ q) := by
        intro q
        refine hS7 _ ?_ ?_ ?_
        · intro y hy
          exact target_src_ne darwinRoot rfl (by decide) q _
        · exact target_src_ne darwinRoot rfl (by decide) q _
        · exact target_prefix_src_false darwinRoot rfl (by decide) q _
      have henvF : g1.file envFile = fs.file envFile := by
        refine hS7 _ ?_ ?_ ?_
        · intro y hy
          exact target_src_ne darwinRoot rfl (by decide) [] _
        · exact target_src_ne darwinRoot rfl (by decide) [] _
        · exact target_prefix_src_false darwinRoot rfl (by decide) [] _
      have hmoDirF : ∀ q : Path, g1.isDir (modelsD ++ q) = fs.isDir (modelsD ++ q) := by
        intro q
        exact hS8 _ (target_prefix_src_false darwinRoot rfl (by decide) q _)
      refine ⟨?_, ?_, ?_, hS4, ?_, hS6, ?_, ?_⟩
      · intro rest'
        rcases hT1 rest' with ⟨hf, hd⟩
        exact ⟨hf.trans (hmoF rest'), hd.trans (hmoDirF rest')⟩
      · exact hT2.trans henvF
      · intro y hy
        rw [List.map_cons, List.mem_cons] at hy
        by_cases hyr : y ∈ rest.map (fun e => e.2)
        · exact (hT3 y hyr).trans (hsrcF y)
        · rcases hy with hy | hy
          · subst hy
            have hout : g.file (darwinRoot ++ ["shaders"] ++ a.2)
                = g1.file (darwinRoot ++ ["shaders"] ++ a.2) := by
              refine hT7 _ ?_ (root_sh_ne_env darwinRoot a.2) (root_mo_prefix_sh darwinRoot a.2)
              intro y' hy' hyp
              exact hyr ((root_sh_inj darwinRoot hyp) ▸ hy')
            rw [hout]
            exact hS3 a.2 (by simp)
          · exact absurd hy hyr
      · intro e he
        rw [List.mem_cons] at he
        rcases he with he | he
        · subst he
          exact hS5 e (by simp)
        · have := hT5 e he
          rw [hsrcF e.2] at this
          exact this
      · intro p hpy hpe hpm
        have h1 : g.file p = g1.file p := by
          refine hT7 p ?_ hpe hpm
          intro y hy
          exact hpy y (by rw [List.map_cons, List.mem_cons]; exact Or.inr hy)
        have h2 : g1.file p = fs.file p := by
          refine hS7 p ?_ hpe hpm
          intro y hy
          rw [List.map_cons, List.mem_cons] at hy
          rcases hy with hy | hy
          · subst hy
            exact hpy a.2 (by rw [List.map_cons, List.mem_cons]; exact Or.inl rfl)
          · cases hy
        exact h1.trans h2
      · intro p hpm
        exact (hT8 p hpm).trans (hS8 p hpm)

theorem compileFS_isDir (comp : Compiler) (names : List (Path × Path)) (fs : FS)
    (p : Path) : (compileFS comp names fs).isDir p = fs.isDir p := by
  unfold FS.isDir
  rw [compileFS_dirs]

theorem compileFS_file_off (comp : Compiler) (names : List (Path × Path)) (fs : FS)
    (p : Path) (hp : shadersD.isPrefixOf p = false) :
    (compileFS comp names fs).file p = fs.file p := by
  unfold compileFS
  induction names generalizing fs with
  | nil => rfl
  | cons e rest ih =>
    show (runScript comp (.compile e.1 e.2 :: compileCmds rest) fs).1.file p = fs.file p
    rw [runScript_cons]
    rcases hr : runCmd comp fs (.compile e.1 e.2) with ⟨g, e2⟩
    have he2 : e2 = none := by
      have := runCmd_compile_snd comp fs e.1 e.2
      rw [hr] at this
      exact this
    subst he2
    simp only
    rw [ih g]
    simp only [runCmd] at hr
    cases hf : fs.file (shadersD ++ e.1) with
    | none =>
      rw [hf] at hr
      have h2 : fs = g := congrArg Prod.fst hr
      rw [← h2]
    | some sv =>
      rw [hf] at hr
      have h2 := congrArg Prod.fst hr
      simp only at h2
      cases hcmp : comp e.1 sv with
      | none =>
        rw [hcmp] at h2
        have h3 : fs = g := h2
        rw [← h3]
      | some out =>
        rw [hcmp] at h2
        have h3 : fs.setFile (shadersD ++ e.2) out = g := h2
        rw [← h3, FS.file_setFile, if_neg ?_]
        intro hyp
        rw [hyp] at hp
        rw [isPrefixOf_false_iff] at hp
        exact hp (List.prefix_append _ _)

theorem pathChain_ne_nil {r q : Path} (h : r ∈ pathChain q) : r ≠ [] := by
  induction q generalizing r with
  | nil => simp [pathChain] at h
  | cons a rest ih =>
    rw [pathChain_cons] at h
    rcases List.mem_cons.mp h with h | h
    · subst h
      intro hyp
      cases hyp
    · rcases List.mem_map.mp h with ⟨s, -, hs⟩
      subst hs
      intro hyp
      cases hyp

theorem pathChain_head {a : String} {q p : Path} (hq : [a].isPrefixOf q = true)
    (hm : p ∈ pathChain q) : [a].isPrefixOf p = true := by
  have hpre := mem_pathChain hm
  have hne : p ≠ [] := pathChain_ne_nil hm
  cases p with
  | nil => exact absurd rfl hne
  | cons x p' =>
    cases q with
    | nil =>
      rcases isPrefixOf_eq_true_iff.mp hq with ⟨t, ht⟩
      cases ht
    | cons b t =>
      have hx : x = b := (List.cons_prefix_cons.mp hpre).1
      have hb : a = b := (List.cons_prefix_cons.mp (isPrefixOf_eq_true_iff.mp hq)).1
      rw [isPrefixOf_eq_true_iff, hx, ← hb]
      exact List.cons_prefix_cons.mpr ⟨rfl, List.nil_prefix⟩

theorem isPrefixOf_trans_append {a r : Path} (h : a.isPrefixOf r = true) (x : Path) :
    a.isPrefixOf (r ++ x) = true := by
  rw [isPrefixOf_eq_true_iff] at h ⊢
  exact h.trans (List.prefix_append r x)

/-- Commands that write only below `./target` or below `shaders/` (the
guarded creation runs inside `shaders/`, compiles write artifacts there). -/
def cmdTargetSh : Cmd → Bool
  | .compile _ _ => true
  | .mkdirp q => ["target"].isPrefixOf q || shadersD.isPrefixOf q
  | .copyfile _ dst => ["target"].isPrefixOf dst
  | .rmtree q => ["target"].isPrefixOf q
  | .copytree _ dst => ["target"].isPrefixOf dst

theorem runCmd_targetSh (comp : Compiler) (fs : FS) {c : Cmd} {p : Path}
    (hc : cmdTargetSh c = true)
    (h1 : ["target"].isPrefixOf p = false) (h2 : shadersD.isPrefixOf p = false) :
    (runCmd comp fs c).1.file p = fs.file p
      ∧ (runCmd comp fs c).1.isDir p = fs.isDir p := by
  cases c with
  | compile x y =>
    have hne : p ≠ shadersD ++ y := by
      intro hyp
      rw [hyp] at h2
      rw [isPrefixOf_false_iff] at h2
      exact h2 (List.prefix_append _ _)
    simp only [runCmd]
    cases hf : fs.file (shadersD ++ x) with
    | none => exact ⟨rfl, rfl⟩
    | some sv =>
      show ((match comp x sv with
          | none => fs
          | some out => fs.setFile (shadersD ++ y) out).file p = fs.file p
        ∧ (match comp x sv with
          | none => fs
          | some out => fs.setFile (shadersD ++ y) out).isDir p = fs.isDir p)
      cases hcmp : comp x sv with
      | none => exact ⟨rfl, rfl⟩
      | some out =>
        refine ⟨?_, rfl⟩
        rw [FS.file_setFile, if_neg hne]
  | mkdirp q =>
    simp only [runCmd]
    refine ⟨FS.file_mkdirp fs q p, ?_⟩
    rw [FS.isDir_mkdirp]
    cases hcon : (pathChain q).contains p with
    | false => simp
    | true =>
      have hmem : p ∈ pathChain q := (contains_iff_mem _ _).mp hcon
      rcases (Bool.or_eq_true _ _).mp hc with hq | hq
      · have := pathChain_head hq hmem
        rw [h1] at this
        cases this
      · have := pathChain_head hq hmem
        have h2' : (["shaders"] : Path).isPrefixOf p = false := h2
        rw [h2'] at this
        cases this
  | copyfile s d =>
    have hne : p ≠ d := by
      intro hyp
      subst hyp
      rw [isPrefixOf_false_iff] at h1
      exact h1 (isPrefixOf_eq_true_iff.mp hc)
    cases hf : fs.file s with
    | none =>
      rw [runCmd_copyfile_nosrc hf]
      exact ⟨rfl, rfl⟩
    | some c0 =>
      by_cases hdd : fs.isDir d.dropLast = true
      · rw [runCmd_copyfile_some hf hdd]
        refine ⟨?_, rfl⟩
        show (fs.setFile d c0).file p = fs.file p
        rw [FS.file_setFile, if_neg hne]
      · rw [runCmd_copyfile_nodst hf hdd]
        exact ⟨rfl, rfl⟩
  | rmtree q =>
    have hq : q.isPrefixOf p = false := by
      rw [isPrefixOf_false_iff]
      intro hqp
      rw [isPrefixOf_false_iff] at h1
      exact h1 ((isPrefixOf_eq_true_iff.mp hc).trans hqp)
    simp only [runCmd]
    by_cases hd : fs.isDir q = true
    · rw [if_pos hd]
      constructor
      · show (fs.rmtreeApply q).file p = fs.file p
        rw [FS.file_rmtreeApply, if_neg (by simp [hq])]
      · show (fs.rmtreeApply q).isDir p = fs.isDir p
        rw [FS.isDir_rmtreeApply, hq]
        rfl
    · rw [if_neg hd]
      split
      · exact ⟨rfl, rfl⟩
      · exact ⟨rfl, rfl⟩
  | copytree s d =>
    have hd : d.isPrefixOf p = false := by
      rw [isPrefixOf_false_iff]
      intro hdp
      rw [isPrefixOf_false_iff] at h1
      exact h1 ((isPrefixOf_eq_true_iff.mp hc).trans hdp)
    simp only [runCmd]
    by_cases hs : fs.isDir s = true
    · rw [if_pos hs]
      by_cases he : fs.pathExists d = true
      · rw [if_pos he]
        exact ⟨rfl, rfl⟩
      · rw [if_neg he]
        exact ⟨FS.file_copytreeApply_outside fs s d p hd,
          FS.isDir_copytreeApply_outside fs s d p hd⟩
    · rw [if_neg hs]
      exact ⟨rfl, rfl⟩

theorem runScript_targetSh (comp : Compiler) (cmds : List Cmd) (fs : FS) {p : Path}
    (hall : cmds.all cmdTargetSh = true)
    (h1 : ["target"].isPrefixOf p = false) (h2 : shadersD.isPrefixOf p = false) :
    (runScript comp cmds fs).1.file p = fs.file p
      ∧ (runScript comp cmds fs).1.isDir p = fs.isDir p := by
  induction cmds generalizing fs with
  | nil => exact ⟨rfl, rfl⟩
  | cons c rest ih =>
    rw [List.all_cons, Bool.and_eq_true] at hall
    rw [runScript_cons]
    rcases h : runCmd comp fs c with ⟨g, e⟩
    have hg : g = (runCmd comp fs c).1 := by rw [h]
    rcases runCmd_targetSh comp fs hall.1 h1 h2 with ⟨h3, h4⟩
    rw [← hg] at h3 h4
    cases e
    · simp only
      rcases ih g hall.2 with ⟨h5, h6⟩
      exact ⟨h5.trans h3, h6.trans h4⟩
    · simp only
      exact ⟨h3, h4⟩

theorem compileCmds_targetSh (names : List (Path × Path)) :
    (compileCmds names).all cmdTargetSh = true := by
  induction names with
  | nil => rfl
  | cons e rest ih =>
    rw [compileCmds, List.map_cons, List.all_cons, Bool.and_eq_true]
    exact ⟨rfl, ih⟩

theorem mkdirCmds_targetSh (dw : Bool) : (mkdirCmds dw).all cmdTargetSh = true := by
  cases dw <;> decide

theorem shaderCopyCmds_targetSh (names : List (Path × Path)) (root : Path)
    (h : ["target"].isPrefixOf root = true) :
    (shaderCopyCmds names root).all cmdTargetSh = true := by
  induction names with
  | nil => rfl
  | cons e rest ih =>
    rw [shaderCopyCmds, List.map_cons, List.all_cons, Bool.and_eq_true]
    refine ⟨?_, ih⟩
    show ["target"].isPrefixOf (root ++ ["shaders"] ++ e.2) = true
    rw [List.append_assoc]
    exact isPrefixOf_trans_append h _

theorem stageTreeCmds_targetSh (names : List (Path × Path)) (root : Path)
    (h : ["target"].isPrefixOf root = true) :
    (stageTreeCmds names root).all cmdTargetSh = true := by
  rw [stageTreeCmds, List.all_append, Bool.and_eq_true]
  refine ⟨shaderCopyCmds_targetSh names root h, ?_⟩
  have h1 := isPrefixOf_trans_append h [".env"]
  have h2 := isPrefixOf_trans_append h ["models"]
  show (["target"].isPrefixOf (root ++ [".env"])
    && (["target"].isPrefixOf (root ++ ["models"])
    && (["target"].isPrefixOf (root ++ ["models"]) && true))) = true
  rw [h1, h2]
  rfl

theorem darwinLoopCmds_targetSh (names : List (Path × Path)) :
    (darwinLoopCmds names).all cmdTargetSh = true := by
  induction names with
  | nil => rfl
  | cons a rest ih =>
    rw [darwinLoopCmds, List.flatMap_cons, List.all_append, Bool.and_eq_true]
    refine ⟨?_, ih⟩
    have h1 : ["target"].isPrefixOf (darwinRoot ++ ["shaders"] ++ a.2) = true := by
      rw [List.append_assoc]
      exact isPrefixOf_trans_append (by decide) _
    show (["target"].isPrefixOf (darwinRoot ++ ["shaders"] ++ a.2)
      && (["target"].isPrefixOf (darwinRoot ++ [".env"])
      && (["target"].isPrefixOf (darwinRoot ++ ["models"])
      && (["target"].isPrefixOf (darwinRoot ++ ["models"]) && true)))) = true
    rw [h1]
    rfl

theorem mirrorCmds_targetSh (src root : Path)
    (h : ["target"].isPrefixOf root = true) :
    (mirrorCmds src root).all cmdTargetSh = true := by
  have h1 := isPrefixOf_trans_append h src
  show (["target"].isPrefixOf (root ++ src)
    && (["target"].isPrefixOf (root ++ src) && true)) = true
  rw [h1]
  rfl

theorem scriptOf_targetSh (names : List (Path × Path)) (dw : Bool) :
    (scriptOf names dw).all cmdTargetSh = true := by
  rw [scriptOf]
  repeat rw [List.all_append, Bool.and_eq_true]
  refine ⟨⟨⟨⟨⟨⟨⟨⟨⟨⟨compileCmds_targetSh names, mkdirCmds_targetSh dw⟩,
    stageTreeCmds_targetSh names debugRoot (by decide)⟩,
    stageTreeCmds_targetSh names releaseRoot (by decide)⟩, ?_⟩,
    mirrorCmds_targetSh resourceD debugRoot (by decide)⟩,
    mirrorCmds_targetSh resourceD releaseRoot (by decide)⟩, ?_⟩,
    mirrorCmds_targetSh texturesD debugRoot (by decide)⟩,
    mirrorCmds_targetSh texturesD releaseRoot (by decide)⟩, ?_⟩
  · cases dw
    · rfl
    · exact darwinLoopCmds_targetSh names
  · cases dw
    · rfl
    · exact mirrorCmds_targetSh resourceD darwinRoot (by decide)
  · cases dw
    · rfl
    · exact mirrorCmds_targetSh texturesD darwinRoot (by decide)

/-! ### Commands that avoid a source subtree -/

theorem stageTreeCmds_avoids (names : List (Path × Path)) (root pre : Path)
    (h1 : ∀ y : Path, pre.isPrefixOf (root ++ ["shaders"] ++ y) = false)
    (h2 : pre.isPrefixOf (root ++ [".env"]) = false)
    (h3 : pathDisj pre (root ++ ["models"]) = true) :
    (stageTreeCmds names root).all (cmdAvoids pre) = true := by
  rw [stageTreeCmds, List.all_append, Bool.and_eq_true]
  refine ⟨shaderCopyCmds_avoids names root pre h1, ?_⟩
  show ((!pre.isPrefixOf (root ++ [".env"]))
    && (pathDisj pre (root ++ ["models"])
    && (pathDisj pre (root ++ ["models"]) && true))) = true
  rw [h2, h3]
  rfl

theorem darwinLoopCmds_avoids (names : List (Path × Path)) (pre : Path)
    (h1 : ∀ y : Path, pre.isPrefixOf (darwinRoot ++ ["shaders"] ++ y) = false)
    (h2 : pre.isPrefixOf (darwinRoot ++ [".env"]) = false)
    (h3 : pathDisj pre (darwinRoot ++ ["models"]) = true) :
    (darwinLoopCmds names).all (cmdAvoids pre) = true := by
  induction names with
  | nil => rfl
  | cons a rest ih =>
    rw [darwinLoopCmds, List.flatMap_cons, List.all_append, Bool.and_eq_true]
    refine ⟨?_, ih⟩
    show ((!pre.isPrefixOf (darwinRoot ++ ["shaders"] ++ a.2))
      && ((!pre.isPrefixOf (darwinRoot ++ [".env"]))
      && (pathDisj pre (darwinRoot ++ ["models"])
      && (pathDisj pre (darwinRoot ++ ["models"]) && true)))) = true
    rw [h1 a.2, h2, h3]
    rfl

theorem mirrorCmds_avoids (src root pre : Path)
    (h : pathDisj pre (root ++ src) = true) :
    (mirrorCmds src root).all (cmdAvoids pre) = true := by
  show (pathDisj pre (root ++ src) && (pathDisj pre (root ++ src) && true)) = true
  rw [h]
  rfl

theorem runScript_avoids_eq (comp : Compiler) (cmds : List Cmd) {fs g : FS}
    {e : Option StagingError} {pre p : Path}
    (hrun : runScript comp cmds fs = (g, e))
    (hall : cmds.all (cmdAvoids pre) = true) (hp : pre <+: p) :
    g.file p = fs.file p ∧ g.isDir p = fs.isDir p := by
  have := runScript_avoids comp cmds fs hall hp
  rw [hrun] at this
  exact this

theorem runScript_targetSh_eq (comp : Compiler) (cmds : List Cmd) {fs g : FS}
    {e : Option StagingError} {p : Path}
    (hrun : runScript comp cmds fs = (g, e))
    (hall : cmds.all cmdTargetSh = true)
    (h1 : ["target"].isPrefixOf p = false) (h2 : shadersD.isPrefixOf p = false) :
    g.file p = fs.file p ∧ g.isDir p = fs.isDir p := by
  have := runScript_targetSh comp cmds fs hall h1 h2
  rw [hrun] at this
  exact this

theorem roots_ne_aux {a b : String} (h : a ≠ b) (x y : Path) :
    ("target" :: a :: x) ≠ ("target" :: b :: y) := by
  intro hyp
  injection hyp with h1 h2
  injection h2 with h3 h4
  exact h h3

theorem roots_prefix_false_aux {a b : String} (h : a ≠ b) (x y : Path) :
    ("target" :: a :: x).isPrefixOf ("target" :: b :: y) = false := by
  rw [isPrefixOf_false_iff]
  intro hp
  rcases List.cons_prefix_cons.mp hp with ⟨-, hp2⟩
  exact h (List.cons_prefix_cons.mp hp2).1

theorem root_cat_prefix_false (root : Path) {a b : String} (h : a ≠ b) (rest : Path) :
    (root ++ [a]).isPrefixOf (root ++ [b] ++ rest) = false := by
  rw [List.append_assoc, isPrefixOf_append_same]
  exact isPrefixOf_cons_false _ _ h

theorem root_cat_prefix_false_base (root : Path) {a b : String} (h : a ≠ b) :
    (root ++ [a]).isPrefixOf (root ++ [b]) = false := by
  rw [isPrefixOf_append_same]
  exact isPrefixOf_cons_false _ _ h

theorem dropLast_root_cat (root : Path) (a : String) :
    (root ++ [a]).dropLast = root := by
  simp

theorem dropLast_sh_cases (root : Path) (a : String) (y : Path) :
    (root ++ [a] ++ y).dropLast = root
    ∨ (root ++ [a] ++ y).dropLast = root ++ [a] ++ y.dropLast := by
  cases y with
  | nil =>
    left
    rw [List.append_nil]
    exact dropLast_root_cat root a
  | cons b t =>
    right
    rw [List.append_assoc root [a] (b :: t),
      List.dropLast_append_of_ne_nil _ (by simp : [a] ++ b :: t ≠ []),
      List.dropLast_append_of_ne_nil _ (by simp : b :: t ≠ []),
      ← List.append_assoc]

theorem root_cat_not_prefix_self (root : Path) (c : String) :
    (root ++ [c]).isPrefixOf root = false := by
  rw [isPrefixOf_false_iff]
  intro hp
  have := hp.length_le
  simp at this

theorem prefix_shDrop_false (root : Path) {a b : String} (h : a ≠ b) (y : Path) :
    (root ++ [a]).isPrefixOf ((root ++ [b] ++ y).dropLast) = false := by
  rcases dropLast_sh_cases root b y with hcs | hcs
  · rw [hcs]
    exact root_cat_not_prefix_self root a
  · rw [hcs]
    exact root_cat_prefix_false root h y.dropLast

theorem cross_shDrop_false {a b : String} (h : a ≠ b) (x y z : Path) (c : String) :
    ("target" :: a :: x).isPrefixOf
      ((("target" :: b :: y) ++ [c] ++ z).dropLast) = false := by
  rcases dropLast_sh_cases ("target" :: b :: y) c z with hcs | hcs
  · rw [hcs]
    exact roots_prefix_false_aux h x y
  · rw [hcs]
    have hb : ("target" :: b :: y) ++ [c] ++ z.dropLast
        = "target" :: b :: (y ++ [c] ++ z.dropLast) := by simp
    rw [hb]
    exact roots_prefix_false_aux h x _

theorem target_prefix_shDrop (root r : Path) (hr : root = "target" :: r)
    (a : String) (y : Path) :
    ["target"] <+: ((root ++ [a] ++ y).dropLast) := by
  subst hr
  rcases dropLast_sh_cases ("target" :: r) a y with hcs | hcs
  · rw [hcs]
    exact ⟨r, rfl⟩
  · rw [hcs]
    exact ⟨r ++ [a] ++ y.dropLast, by simp⟩

theorem runScript_append_ok_split {comp : Compiler} {a b : List Cmd} {fs g : FS}
    (h : runScript comp (a ++ b) fs = (g, none)) :
    ∃ m : FS, runScript comp a fs = (m, none) ∧ runScript comp b m = (g, none) := by
  rcases ha : runScript comp a fs with ⟨m, e⟩
  cases e with
  | some e0 =>
    rw [runScript_append_err _ ha] at h
    exact absurd (congrArg Prod.snd h) (by simp)
  | none =>
    rw [runScript_append_ok _ ha] at h
    exact ⟨m, rfl, h⟩

/-- A successful whole-script run decomposes into successful runs of its
eleven phases, the compile phase ending in `compileFS`. -/
theorem scriptOf_run_split (comp : Compiler) (names : List (Path × Path)) (dw : Bool)
    (fs : FS) {g : FS}
    (hrun : runScript comp (scriptOf names dw) fs = (g, none)) :
    ∃ g2 g3 g4 g5 g6 g7 g8 g9 g10 : FS,
      runScript comp (mkdirCmds dw) (compileFS comp names fs) = (g2, none)
      ∧ runScript comp (stageTreeCmds names debugRoot) g2 = (g3, none)
      ∧ runScript comp (stageTreeCmds names releaseRoot) g3 = (g4, none)
      ∧ runScript comp (if dw then darwinLoopCmds names else []) g4 = (g5, none)
      ∧ runScript comp (mirrorCmds resourceD debugRoot) g5 = (g6, none)
      ∧ runScript comp (mirrorCmds resourceD releaseRoot) g6 = (g7, none)
      ∧ runScript comp (if dw then mirrorCmds resourceD darwinRoot else []) g7 = (g8, none)
      ∧ runScript comp (mirrorCmds texturesD debugRoot) g8 = (g9, none)
      ∧ runScript comp (mirrorCmds texturesD releaseRoot) g9 = (g10, none)
      ∧ runScript comp (if dw then mirrorCmds texturesD darwinRoot else []) g10
          = (g, none) := by
  have hsplit : scriptOf names dw
      = compileCmds names ++ (mkdirCmds dw ++ (stageTreeCmds names debugRoot
        ++ (stageTreeCmds names releaseRoot
        ++ ((if dw then darwinLoopCmds names else [])
        ++ (mirrorCmds resourceD debugRoot
        ++ (mirrorCmds resourceD releaseRoot
        ++ ((if dw then mirrorCmds resourceD darwinRoot else [])
        ++ (mirrorCmds texturesD debugRoot
        ++ (mirrorCmds texturesD releaseRoot
        ++ (if dw then mirrorCmds texturesD darwinRoot else [])))))))))) := by
    simp only [scriptOf, List.append_assoc]
  rw [hsplit, runScript_append_ok _ (compileCmds_ok comp names fs)] at hrun
  obtain ⟨g2, h2, hrun⟩ := runScript_append_ok_split hrun
  obtain ⟨g3, h3, hrun⟩ := runScript_append_ok_split hrun
  obtain ⟨g4, h4, hrun⟩ := runScript_append_ok_split hrun
  obtain ⟨g5, h5, hrun⟩ := runScript_append_ok_split hrun
  obtain ⟨g6, h6, hrun⟩ := runScript_append_ok_split hrun
  obtain ⟨g7, h7, hrun⟩ := runScript_append_ok_split hrun
  obtain ⟨g8, h8, hrun⟩ := runScript_append_ok_split hrun
  obtain ⟨g9, h9, hrun⟩ := runScript_append_ok_split hrun
  obtain ⟨g10, h10, hrun⟩ := runScript_append_ok_split hrun
  exact ⟨g2, g3, g4, g5, g6, g7, g8, g9, g10,
    h2, h3, h4, h5, h6, h7, h8, h9, h10, hrun⟩

/-- What a successful whole-script run guarantees: the sources must have
been present (and the compiled artifacts present after the compile phase),
and every output tree ends with `models`, `resource` and `textures` exact
mirrors of the sources, the `.env` copy, the compiled shaders overlaid,
and stale shader files left alone. -/
theorem scriptOf_char (comp : Compiler) (names : List (Path × Path)) (dw : Bool)
    (fs : FS) {g : FS} (hne : dw = true → names ≠ [])
    (hrun : runScript comp (scriptOf names dw) fs = (g, none)) :
    (fs.isDir modelsD = true ∧ fs.isDir resourceD = true ∧ fs.isDir texturesD = true
      ∧ (fs.file envFile).isSome = true
      ∧ (∀ e ∈ names, ((compileFS comp names fs).file (shadersD ++ e.2)).isSome = true))
    ∧ ∀ root ∈ [debugRoot, releaseRoot] ++ (if dw then [darwinRoot] else []),
      (∀ rest : Path, g.file (root ++ ["models"] ++ rest) = fs.file (modelsD ++ rest)
          ∧ g.isDir (root ++ ["models"] ++ rest) = fs.isDir (modelsD ++ rest))
      ∧ (∀ rest : Path, g.file (root ++ ["resource"] ++ rest) = fs.file (resourceD ++ rest)
          ∧ g.isDir (root ++ ["resource"] ++ rest) = fs.isDir (resourceD ++ rest))
      ∧ (∀ rest : Path, g.file (root ++ ["textures"] ++ rest) = fs.file (texturesD ++ rest)
          ∧ g.isDir (root ++ ["textures"] ++ rest) = fs.isDir (texturesD ++ rest))
      ∧ g.file (root ++ [".env"]) = fs.file envFile
      ∧ (∀ y ∈ names.map (fun e => e.2),
          g.file (root ++ ["shaders"] ++ y)
            = (compileFS comp names fs).file (shadersD ++ y))
      ∧ (∀ q : Path, q ∉ names.map (fun e => e.2) →
          g.file (root ++ ["shaders"] ++ q) = fs.file (root ++ ["shaders"] ++ q)) := by
  obtain ⟨g2, g3, g4, g5, g6, g7, g8, g9, g10, hm, hstd, hstr, hdl, hrd, hrr, hrdw,
    htd, htr, htdw⟩ := scriptOf_run_split comp names dw fs hrun
  obtain ⟨Sd1, Sd2, Sd3, Sd4, Sd5, Sd6, Sd7, Sd8⟩ :=
    stageTree_run_char comp names debugRoot g2 rfl hstd
  obtain ⟨Sr1, Sr2, Sr3, Sr4, Sr5, Sr6, Sr7, Sr8⟩ :=
    stageTree_run_char comp names releaseRoot g3 rfl hstr
  obtain ⟨MdM, MdO, MdS⟩ := mirror_run_char comp resourceD debugRoot g5 (by decide) hrd
  obtain ⟨MrM, MrO, MrS⟩ := mirror_run_char comp resourceD releaseRoot g6 (by decide) hrr
  obtain ⟨TdM, TdO, TdS⟩ := mirror_run_char comp texturesD debugRoot g8 (by decide) htd
  obtain ⟨TrM, TrO, TrS⟩ := mirror_run_char comp texturesD releaseRoot g9 (by decide) htr
  -- the Darwin-conditional phases, packaged so that both `dw` values share one shape
  have hDL : (∀ p : Path, (∀ y ∈ names.map (fun e => e.2), p ≠ darwinRoot ++ ["shaders"] ++ y)
      → p ≠ darwinRoot ++ [".env"] → (darwinRoot ++ ["models"]).isPrefixOf p = false
      → g5.file p = g4.file p)
      ∧ (∀ p : Path, (darwinRoot ++ ["models"]).isPrefixOf p = false
      → g5.isDir p = g4.isDir p) := by
    cases dw with
    | false =>
      have hg : g4 = g5 := congrArg Prod.fst hdl
      exact ⟨fun p _ _ _ => by rw [← hg], fun p _ => by rw [← hg]⟩
    | true =>
      have hdl' : runScript comp (darwinLoopCmds names) g4 = (g5, none) := by
        simpa using hdl
      obtain ⟨-, -, -, -, -, -, hT7, hT8⟩ :=
        darwinLoop_run_char comp names g4 (hne rfl) hdl'
      exact ⟨hT7, hT8⟩
  have hRDW : ∀ p : Path, (darwinRoot ++ resourceD).isPrefixOf p = false →
      g8.file p = g7.file p ∧ g8.isDir p = g7.isDir p := by
    cases dw with
    | false =>
      have hg : g7 = g8 := congrArg Prod.fst hrdw
      exact fun p _ => by rw [← hg]; exact ⟨rfl, rfl⟩
    | true =>
      have hrdw' : runScript comp (mirrorCmds resourceD darwinRoot) g7 = (g8, none) := by
        simpa using hrdw
      obtain ⟨-, hO, -⟩ := mirror_run_char comp resourceD darwinRoot g7 (by decide) hrdw'
      exact hO
  have hTDW : ∀ p : Path, (darwinRoot ++ texturesD).isPrefixOf p = false →
      g.file p = g10.file p ∧ g.isDir p = g10.isDir p := by
    cases dw with
    | false =>
      have hg : g10 = g := congrArg Prod.fst htdw
      exact fun p _ => by rw [← hg]; exact ⟨rfl, rfl⟩
    | true =>
      have htdw' : runScript comp (mirrorCmds texturesD darwinRoot) g10 = (g, none) := by
        simpa using htdw
      obtain ⟨-, hO, -⟩ := mirror_run_char comp texturesD darwinRoot g10 (by decide) htdw'
      exact hO
  -- the preservation cascade from each intermediate state to the final state
  have w10 : ∀ p : Path, (darwinRoot ++ texturesD).isPrefixOf p = false →
      g.file p = g10.file p ∧ g.isDir p = g10.isDir p := hTDW
  have w9 : ∀ p : Path,
      (releaseRoot ++ texturesD).isPrefixOf p = false →
      (darwinRoot ++ texturesD).isPrefixOf p = false →
      g.file p = g9.file p ∧ g.isDir p = g9.isDir p := by
    intro p c11 c12
    obtain ⟨a1, a2⟩ := TrO p c11
    obtain ⟨b1, b2⟩ := w10 p c12
    exact ⟨b1.trans a1, b2.trans a2⟩
  have w8 : ∀ p : Path,
      (debugRoot ++ texturesD).isPrefixOf p = false →
      (releaseRoot ++ texturesD).isPrefixOf p = false →
      (darwinRoot ++ texturesD).isPrefixOf p = false →
      g.file p = g8.file p ∧ g.isDir p = g8.isDir p := by
    intro p c10 c11 c12
    obtain ⟨a1, a2⟩ := TdO p c10
    obtain ⟨b1, b2⟩ := w9 p c11 c12
    exact ⟨b1.trans a1, b2.trans a2⟩
  have w7 : ∀ p : Path,
      (darwinRoot ++ resourceD).isPrefixOf p = false →
      (debugRoot ++ texturesD).isPrefixOf p = false →
      (releaseRoot ++ texturesD).isPrefixOf p = false →
      (darwinRoot ++ texturesD).isPrefixOf p = false →
      g.file p = g7.file p ∧ g.isDir p = g7.isDir p := by
    intro p c9 c10 c11 c12
    obtain ⟨a1, a2⟩ := hRDW p c9
    obtain ⟨b1, b2⟩ := w8 p c10 c11 c12
    exact ⟨b1.trans a1, b2.trans a2⟩
  have w6 : ∀ p : Path,
      (releaseRoot ++ resourceD).isPrefixOf p = false →
      (darwinRoot ++ resourceD).isPrefixOf p = false →
      (debugRoot ++ texturesD).isPrefixOf p = false →
      (releaseRoot ++ texturesD).isPrefixOf p = false →
      (darwinRoot ++ texturesD).isPrefixOf p = false →
      g.file p = g6.file p ∧ g.isDir p = g6.isDir p := by
    intro p c8 c9 c10 c11 c12
    obtain ⟨a1, a2⟩ := MrO p c8
    obtain ⟨b1, b2⟩ := w7 p c9 c10 c11 c12
    exact ⟨b1.trans a1, b2.trans a2⟩
  have w5 : ∀ p : Path,
      (debugRoot ++ resourceD).isPrefixOf p = false →
      (releaseRoot ++ resourceD).isPrefixOf p = false →
      (darwinRoot ++ resourceD).isPrefixOf p = false →
      (debugRoot ++ texturesD).isPrefixOf p = false →
      (releaseRoot ++ texturesD).isPrefixOf p = false →
      (darwinRoot ++ texturesD).isPrefixOf p = false →
      g.file p = g5.file p ∧ g.isDir p = g5.isDir p := by
    intro p c7 c8 c9 c10 c11 c12
    obtain ⟨a1, a2⟩ := MdO p c7
    obtain ⟨b1, b2⟩ := w6 p c8 c9 c10 c11 c12
    exact ⟨b1.trans a1, b2.trans a2⟩
  have w4 : ∀ p : Path,
      (∀ y ∈ names.map (fun e => e.2), p ≠ darwinRoot ++ ["shaders"] ++ y) →
      p ≠ darwinRoot ++ [".env"] →
      (darwinRoot ++ ["models"]).isPrefixOf p = false →
      (debugRoot ++ resourceD).isPrefixOf p = false →
      (releaseRoot ++ resourceD).isPrefixOf p = false →
      (darwinRoot ++ resourceD).isPrefixOf p = false →
      (debugRoot ++ texturesD).isPrefixOf p = false →
      (releaseRoot ++ texturesD).isPrefixOf p = false →
      (darwinRoot ++ texturesD).isPrefixOf p = false →
      g.file p = g4.file p ∧ g.isDir p = g4.isDir p := by
    intro p c4 c5 c6 c7 c8 c9 c10 c11 c12
    have a1 := hDL.1 p c4 c5 c6
    have a2 := hDL.2 p c6
    obtain ⟨b1, b2⟩ := w5 p c7 c8 c9 c10 c11 c12
    exact ⟨b1.trans a1, b2.trans a2⟩
  have w3 : ∀ p : Path,
      (∀ y ∈ names.map (fun e => e.2), p ≠ releaseRoot ++ ["shaders"] ++ y) →
      p ≠ releaseRoot ++ [".env"] →
      (releaseRoot ++ ["models"]).isPrefixOf p = false →
      (∀ y ∈ names.map (fun e => e.2), p ≠ darwinRoot ++ ["shaders"] ++ y) →
      p ≠ darwinRoot ++ [".env"] →
      (darwinRoot ++ ["models"]).isPrefixOf p = false →
      (debugRoot ++ resourceD).isPrefixOf p = false →
      (releaseRoot ++ resourceD).isPrefixOf p = false →
      (darwinRoot ++ resourceD).isPrefixOf p = false →
      (debugRoot ++ texturesD).isPrefixOf p = false →
      (releaseRoot ++ texturesD).isPrefixOf p = false →
      (darwinRoot ++ texturesD).isPrefixOf p = false →
      g.file p = g3.file p ∧ g.isDir p = g3.isDir p := by
    intro p c1 c2 c3 c4 c5 c6 c7 c8 c9 c10 c11 c12
    have a1 := Sr7 p c1 c2 c3
    have a2 := Sr8 p c3
    obtain ⟨b1, b2⟩ := w4 p c4 c5 c6 c7 c8 c9 c10 c11 c12
    exact ⟨b1.trans a1, b2.trans a2⟩
  -- transport of the source areas backward to the initial state
  have step : ∀ {f h : FS} {e : Option StagingError} (cmds : List Cmd),
      runScript comp cmds f = (h, e) → cmds.all cmdTargetSh = true →
      (∀ (a : String), a ≠ "target" → a ≠ "shaders" → ∀ t : Path,
        f.file (a :: t) = fs.file (a :: t) ∧ f.isDir (a :: t) = fs.isDir (a :: t)) →
      (∀ (a : String), a ≠ "target" → a ≠ "shaders" → ∀ t : Path,
        h.file (a :: t) = fs.file (a :: t) ∧ h.isDir (a :: t) = fs.isDir (a :: t)) := by
    intro f h e cmds hr hall hf a ha1 ha2 t
    obtain ⟨h1, h2⟩ := runScript_targetSh_eq comp cmds hr hall
      (isPrefixOf_cons_false _ _ (fun hh => ha1 hh.symm))
      (isPrefixOf_cons_false _ _ (fun hh => ha2 hh.symm))
    obtain ⟨h3, h4⟩ := hf a ha1 ha2 t
    exact ⟨h1.trans h3, h2.trans h4⟩
  have hts_dl : (if dw then darwinLoopCmds names else []).all cmdTargetSh = true := by
    cases dw
    · rfl
    · exact darwinLoopCmds_targetSh names
  have hts_mrdw : (if dw then mirrorCmds resourceD darwinRoot else []).all
      cmdTargetSh = true := by
    cases dw
    · rfl
    · exact mirrorCmds_targetSh resourceD darwinRoot (by decide)
  have hts_mtdw : (if dw then mirrorCmds texturesD darwinRoot else []).all
      cmdTargetSh = true := by
    cases dw
    · rfl
    · exact mirrorCmds_targetSh texturesD darwinRoot (by decide)
  have t1 : ∀ (a : String), a ≠ "target" → a ≠ "shaders" → ∀ t : Path,
      (compileFS comp names fs).file (a :: t) = fs.file (a :: t)
      ∧ (compileFS comp names fs).isDir (a :: t) = fs.isDir (a :: t) := by
    intro a ha1 ha2 t
    exact ⟨compileFS_file_off comp names fs _
        (isPrefixOf_cons_false _ _ (fun hh => ha2 hh.symm)),
      compileFS_isDir comp names fs _⟩
  have t2 := step _ hm (mkdirCmds_targetSh dw) t1
  have t3 := step _ hstd (stageTreeCmds_targetSh names debugRoot (by decide)) t2
  have t4 := step _ hstr (stageTreeCmds_targetSh names releaseRoot (by decide)) t3
  have t5 := step _ hdl hts_dl t4
  have t6 := step _ hrd (mirrorCmds_targetSh resourceD debugRoot (by decide)) t5
  have t7 := step _ hrr (mirrorCmds_targetSh resourceD releaseRoot (by decide)) t6
  have t8 := step _ hrdw hts_mrdw t7
  have t9 := step _ htd (mirrorCmds_targetSh texturesD debugRoot (by decide)) t8
  have t10 := step _ htr (mirrorCmds_targetSh texturesD releaseRoot (by decide)) t9
  -- transport of the compiled-shader area backward to the compile phase's end
  have havStd : (stageTreeCmds names debugRoot).all (cmdAvoids shadersD) = true :=
    stageTreeCmds_avoids names debugRoot shadersD
      (fun y => isPrefixOf_cons_false _ _ (by decide))
      (isPrefixOf_cons_false _ _ (by decide)) (by decide)
  have havStr : (stageTreeCmds names releaseRoot).all (cmdAvoids shadersD) = true :=
    stageTreeCmds_avoids names releaseRoot shadersD
      (fun y => isPrefixOf_cons_false _ _ (by decide))
      (isPrefixOf_cons_false _ _ (by decide)) (by decide)
  have hmfile : ∀ p : Path, g2.file p = (compileFS comp names fs).file p := by
    intro p
    have := runScript_mkdirps_file comp (mkdirCmds dw) (compileFS comp names fs) p
      (mkdirCmds_mkdirps dw)
    rw [hm] at this
    exact this
  have s2 : ∀ q : Path, g2.file (shadersD ++ q)
      = (compileFS comp names fs).file (shadersD ++ q) :=
    fun q => hmfile (shadersD ++ q)
  have s3 : ∀ q : Path, g3.file (shadersD ++ q)
      = (compileFS comp names fs).file (shadersD ++ q) :=
    fun q => ((runScript_avoids_eq comp _ hstd havStd
      (List.prefix_append shadersD q)).1).trans (s2 q)
  have s4 : ∀ q : Path, g4.file (shadersD ++ q)
      = (compileFS comp names fs).file (shadersD ++ q) :=
    fun q => ((runScript_avoids_eq comp _ hstr havStr
      (List.prefix_append shadersD q)).1).trans (s3 q)
  refine ⟨⟨?_, ?_, ?_, ?_, ?_⟩, ?_⟩
  · have h0 : g2.isDir modelsD = fs.isDir modelsD :=
      (t2 "models" (by decide) (by decide) []).2
    rw [← h0]
    exact Sd4
  · have h0 : g5.isDir resourceD = fs.isDir resourceD :=
      (t5 "resource" (by decide) (by decide) []).2
    rw [← h0]
    exact MdS
  · have h0 : g8.isDir texturesD = fs.isDir texturesD :=
      (t8 "textures" (by decide) (by decide) []).2
    rw [← h0]
    exact TdS
  · have h0 : g2.file envFile = fs.file envFile :=
      (t2 ".env" (by decide) (by decide) []).1
    rw [← h0]
    exact Sd6
  · intro e he
    have := Sd5 e he
    rw [s2 e.2] at this
    exact this
  · intro root hroot
    rw [List.mem_append] at hroot
    rcases hroot with hroot | hroot
    · rcases List.mem_cons.mp hroot with hr0 | hr0
      · subst hr0
        refine ⟨?_, ?_, ?_, ?_, ?_, ?_⟩
        · intro rest
          obtain ⟨f1, d1⟩ := w3 (debugRoot ++ ["models"] ++ rest)
            (fun y hy => roots_ne_aux (by decide) _ _)
            (roots_ne_aux (by decide) _ _)
            (roots_prefix_false_aux (by decide) _ _)
            (fun y hy => roots_ne_aux (by decide) _ _)
            (roots_ne_aux (by decide) _ _)
            (roots_prefix_false_aux (by decide) _ _)
            (root_cat_prefix_false debugRoot (by decide) rest)
            (roots_prefix_false_aux (by decide) _ _)
            (roots_prefix_false_aux (by decide) _ _)
            (root_cat_prefix_false debugRoot (by decide) rest)
            (roots_prefix_false_aux (by decide) _ _)
            (roots_prefix_false_aux (by decide) _ _)
          obtain ⟨f2, d2⟩ := Sd1 rest
          obtain ⟨f3, d3⟩ := t2 "models" (by decide) (by decide) rest
          exact ⟨(f1.trans f2).trans f3, (d1.trans d2).trans d3⟩
        · intro rest
          obtain ⟨f1, d1⟩ := w6 (debugRoot ++ ["resource"] ++ rest)
            (roots_prefix_false_aux (by decide) _ _)
            (roots_prefix_false_aux (by decide) _ _)
            (root_cat_prefix_false debugRoot (by decide) rest)
            (roots_prefix_false_aux (by decide) _ _)
            (roots_prefix_false_aux (by decide) _ _)
          obtain ⟨f2, d2⟩ := MdM rest
          obtain ⟨f3, d3⟩ := t5 "resource" (by decide) (by decide) rest
          exact ⟨(f1.trans f2).trans f3, (d1.trans d2).trans d3⟩
        · intro rest
          obtain ⟨f1, d1⟩ := w9 (debugRoot ++ ["textures"] ++ rest)
            (roots_prefix_false_aux (by decide) _ _)
            (roots_prefix_false_aux (by decide) _ _)
          obtain ⟨f2, d2⟩ := TdM rest
          obtain ⟨f3, d3⟩ := t8 "textures" (by decide) (by decide) rest
          exact ⟨(f1.trans f2).trans f3, (d1.trans d2).trans d3⟩
        · obtain ⟨f1, -⟩ := w3 (debugRoot ++ [".env"])
            (fun y hy => roots_ne_aux (by decide) _ _)
            (roots_ne_aux (by decide) _ _)
            (roots_prefix_false_aux (by decide) _ _)
            (fun y hy => roots_ne_aux (by decide) _ _)
            (roots_ne_aux (by decide) _ _)
            (roots_prefix_false_aux (by decide) _ _)
            (root_cat_prefix_false_base debugRoot (by decide))
            (roots_prefix_false_aux (by decide) _ _)
            (roots_prefix_false_aux (by decide) _ _)
            (root_cat_prefix_false_base debugRoot (by decide))
            (roots_prefix_false_aux (by decide) _ _)
            (roots_prefix_false_aux (by decide) _ _)
          rw [f1, Sd2]
          exact (t2 ".env" (by decide) (by decide) []).1
        · intro y hy
          obtain ⟨f1, -⟩ := w3 (debugRoot ++ ["shaders"] ++ y)
            (fun y' hy' => roots_ne_aux (by decide) _ _)
            (roots_ne_aux (by decide) _ _)
            (roots_prefix_false_aux (by decide) _ _)
            (fun y' hy' => roots_ne_aux (by decide) _ _)
            (roots_ne_aux (by decide) _ _)
            (roots_prefix_false_aux (by decide) _ _)
            (root_cat_prefix_false debugRoot (by decide) y)
            (roots_prefix_false_aux (by decide) _ _)
            (roots_prefix_false_aux (by decide) _ _)
            (root_cat_prefix_false debugRoot (by decide) y)
            (roots_prefix_false_aux (by decide) _ _)
            (roots_prefix_false_aux (by decide) _ _)
          rw [f1, Sd3 y hy]
          exact s2 y
        · intro q hq
          obtain ⟨f1, -⟩ := w3 (debugRoot ++ ["shaders"] ++ q)
            (fun y' hy' => roots_ne_aux (by decide) _ _)
            (roots_ne_aux (by decide) _ _)
            (roots_prefix_false_aux (by decide) _ _)
            (fun y' hy' => roots_ne_aux (by decide) _ _)
            (roots_ne_aux (by decide) _ _)
            (roots_prefix_false_aux (by decide) _ _)
            (root_cat_prefix_false debugRoot (by decide) q)
            (roots_prefix_false_aux (by decide) _ _)
            (roots_prefix_false_aux (by decide) _ _)
            (root_cat_prefix_false debugRoot (by decide) q)
            (roots_prefix_false_aux (by decide) _ _)
            (roots_prefix_false_aux (by decide) _ _)
          rw [f1]
          rw [Sd7 (debugRoot ++ ["shaders"] ++ q)
            (fun y hy hyp => hq ((root_sh_inj debugRoot hyp).symm ▸ hy))
            (root_sh_ne_env debugRoot q) (root_mo_prefix_sh debugRoot q)]
          rw [hmfile]
          exact compileFS_file_off comp names fs _ (isPrefixOf_cons_false _ _ (by decide))
      · rcases List.mem_cons.mp hr0 with hr1 | hr1
        · subst hr1
          refine ⟨?_, ?_, ?_, ?_, ?_, ?_⟩
          · intro rest
            obtain ⟨f1, d1⟩ := w4 (releaseRoot ++ ["models"] ++ rest)
              (fun y hy => roots_ne_aux (by decide) _ _)
              (roots_ne_aux (by decide) _ _)
              (roots_prefix_false_aux (by decide) _ _)
              (roots_prefix_false_aux (by decide) _ _)
              (root_cat_prefix_false releaseRoot (by decide) rest)
              (roots_prefix_false_aux (by decide) _ _)
              (roots_prefix_false_aux (by decide) _ _)
              (root_cat_prefix_false releaseRoot (by decide) rest)
              (roots_prefix_false_aux (by decide) _ _)
            obtain ⟨f2, d2⟩ := Sr1 rest
            obtain ⟨f3, d3⟩ := t3 "models" (by decide) (by decide) rest
            exact ⟨(f1.trans f2).trans f3, (d1.trans d2).trans d3⟩
          · intro rest
            obtain ⟨f1, d1⟩ := w7 (releaseRoot ++ ["resource"] ++ rest)
              (roots_prefix_false_aux (by decide) _ _)
              (roots_prefix_false_aux (by decide) _ _)
              (root_cat_prefix_false releaseRoot (by decide) rest)
              (roots_prefix_false_aux (by decide) _ _)
            obtain ⟨f2, d2⟩ := MrM rest
            obtain ⟨f3, d3⟩ := t6 "resource" (by decide) (by decide) rest
            exact ⟨(f1.trans f2).trans f3, (d1.trans d2).trans d3⟩
          · intro rest
            obtain ⟨f1, d1⟩ := w10 (releaseRoot ++ ["textures"] ++ rest)
              (roots_prefix_false_aux (by decide) _ _)
            obtain ⟨f2, d2⟩ := TrM rest
            obtain ⟨f3, d3⟩ := t9 "textures" (by decide) (by decide) rest
            exact ⟨(f1.trans f2).trans f3, (d1.trans d2).trans d3⟩
          · obtain ⟨f1, -⟩ := w4 (releaseRoot ++ [".env"])
              (fun y hy => roots_ne_aux (by decide) _ _)
              (roots_ne_aux (by decide) _ _)
              (roots_prefix_false_aux (by decide) _ _)
              (roots_prefix_false_aux (by decide) _ _)
              (root_cat_prefix_false_base releaseRoot (by decide))
              (roots_prefix_false_aux (by decide) _ _)
              (roots_prefix_false_aux (by decide) _ _)
              (root_cat_prefix_false_base releaseRoot (by decide))
              (roots_prefix_false_aux (by decide) _ _)
            rw [f1, Sr2]
            exact (t3 ".env" (by decide) (by decide) []).1
          · intro y hy
            obtain ⟨f1, -⟩ := w4 (releaseRoot ++ ["shaders"] ++ y)
              (fun y' hy' => roots_ne_aux (by decide) _ _)
              (roots_ne_aux (by decide) _ _)
              (roots_prefix_false_aux (by decide) _ _)
              (roots_prefix_false_aux (by decide) _ _)
              (root_cat_prefix_false releaseRoot (by decide) y)
              (roots_prefix_false_aux (by decide) _ _)
              (roots_prefix_false_aux (by decide) _ _)
              (root_cat_prefix_false releaseRoot (by decide) y)
              (roots_prefix_false_aux (by decide) _ _)
            rw [f1, Sr3 y hy]
            exact s3 y
          · intro q hq
            obtain ⟨f1, -⟩ := w4 (releaseRoot ++ ["shaders"] ++ q)
              (fun y' hy' => roots_ne_aux (by decide) _ _)
              (roots_ne_aux (by decide) _ _)
              (roots_prefix_false_aux (by decide) _ _)
              (roots_prefix_false_aux (by decide) _ _)
              (root_cat_prefix_false releaseRoot (by decide) q)
              (roots_prefix_false_aux (by decide) _ _)
              (roots_prefix_false_aux (by decide) _ _)
              (root_cat_prefix_false releaseRoot (by decide) q)
              (roots_prefix_false_aux (by decide) _ _)
            rw [f1]
            rw [Sr7 (releaseRoot ++ ["shaders"] ++ q)
              (fun y hy hyp => hq ((root_sh_inj releaseRoot hyp).symm ▸ hy))
              (root_sh_ne_env releaseRoot q) (root_mo_prefix_sh releaseRoot q)]
            rw [Sd7 (releaseRoot ++ ["shaders"] ++ q)
              (fun y hy => roots_ne_aux (by decide) _ _)
              (roots_ne_aux (by decide) _ _)
              (roots_prefix_false_aux (by decide) _ _)]
            rw [hmfile]
            exact compileFS_file_off comp names fs _
              (isPrefixOf_cons_false _ _ (by decide))
        · cases hr1
    · rcases hdw : dw with _ | _
      · rw [hdw] at hroot
        cases hroot
      · rw [hdw] at hroot
        rcases List.mem_cons.mp hroot with hr1 | hr1
        · subst hr1
          rw [hdw] at hdl hrdw htdw
          have hdl' : runScript comp (darwinLoopCmds names) g4 = (g5, none) := by
            simpa using hdl
          have hrdw' : runScript comp (mirrorCmds resourceD darwinRoot) g7
              = (g8, none) := by
            simpa using hrdw
          have htdw' : runScript comp (mirrorCmds texturesD darwinRoot) g10
              = (g, none) := by
            simpa using htdw
          obtain ⟨D1, D2, D3, D4, D5, D6, D7, D8⟩ :=
            darwinLoop_run_char comp names g4 (hne hdw) hdl'
          obtain ⟨DwRM, DwRO, DwRS⟩ :=
            mirror_run_char comp resourceD darwinRoot g7 (by decide) hrdw'
          obtain ⟨DwTM, DwTO, DwTS⟩ :=
            mirror_run_char comp texturesD darwinRoot g10 (by decide) htdw'
          refine ⟨?_, ?_, ?_, ?_, ?_, ?_⟩
          · intro rest
            obtain ⟨f1, d1⟩ := w5 (darwinRoot ++ ["models"] ++ rest)
              (roots_prefix_false_aux (by decide) _ _)
              (roots_prefix_false_aux (by decide) _ _)
              (root_cat_prefix_false darwinRoot (by decide) rest)
              (roots_prefix_false_aux (by decide) _ _)
              (roots_prefix_false_aux (by decide) _ _)
              (root_cat_prefix_false darwinRoot (by decide) rest)
            obtain ⟨f2, d2⟩ := D1 rest
            obtain ⟨f3, d3⟩ := t4 "models" (by decide) (by decide) rest
            exact ⟨(f1.trans f2).trans f3, (d1.trans d2).trans d3⟩
          · intro rest
            obtain ⟨f1, d1⟩ := w8 (darwinRoot ++ ["resource"] ++ rest)
              (roots_prefix_false_aux (by decide) _ _)
              (roots_prefix_false_aux (by decide) _ _)
              (root_cat_prefix_false darwinRoot (by decide) rest)
            obtain ⟨f2, d2⟩ := DwRM rest
            obtain ⟨f3, d3⟩ := t7 "resource" (by decide) (by decide) rest
            exact ⟨(f1.trans f2).trans f3, (d1.trans d2).trans d3⟩
          · intro rest
            obtain ⟨f2, d2⟩ := DwTM rest
            obtain ⟨f3, d3⟩ := t10 "textures" (by decide) (by decide) rest
            exact ⟨f2.trans f3, d2.trans d3⟩
          · obtain ⟨f1, -⟩ := w5 (darwinRoot ++ [".env"])
              (roots_prefix_false_aux (by decide) _ _)
              (roots_prefix_false_aux (by decide) _ _)
              (root_cat_prefix_false_base darwinRoot (by decide))
              (roots_prefix_false_aux (by decide) _ _)
              (roots_prefix_false_aux (by decide) _ _)
              (root_cat_prefix_false_base darwinRoot (by decide))
            rw [f1, D2]
            exact (t4 ".env" (by decide) (by decide) []).1
          · intro y hy
            obtain ⟨f1, -⟩ := w5 (darwinRoot ++ ["shaders"] ++ y)
              (roots_prefix_false_aux (by decide) _ _)
              (roots_prefix_false_aux (by decide) _ _)
              (root_cat_prefix_false darwinRoot (by decide) y)
              (roots_prefix_false_aux (by decide) _ _)
              (roots_prefix_false_aux (by decide) _ _)
              (root_cat_prefix_false darwinRoot (by decide) y)
            rw [f1, D3 y hy]
            exact s4 y
          · intro q hq
            obtain ⟨f1, -⟩ := w5 (darwinRoot ++ ["shaders"] ++ q)
              (roots_prefix_false_aux (by decide) _ _)
              (roots_prefix_false_aux (by decide) _ _)
              (root_cat_prefix_false darwinRoot (by decide) q)
              (roots_prefix_false_aux (by decide) _ _)
              (roots_prefix_false_aux (by decide) _ _)
              (root_cat_prefix_false darwinRoot (by decide) q)
            rw [f1]
            rw [D7 (darwinRoot ++ ["shaders"] ++ q)
              (fun y hy hyp => hq ((root_sh_inj darwinRoot hyp).symm ▸ hy))
              (root_sh_ne_env darwinRoot q) (root_mo_prefix_sh darwinRoot q)]
            rw [Sr7 (darwinRoot ++ ["shaders"] ++ q)
              (fun y hy => roots_ne_aux (by decide) _ _)
              (roots_ne_aux (by decide) _ _)
              (roots_prefix_false_aux (by decide) _ _)]
            rw [Sd7 (darwinRoot ++ ["shaders"] ++ q)
              (fun y hy => roots_ne_aux (by decide) _ _)
              (roots_ne_aux (by decide) _ _)
              (roots_prefix_false_aux (by decide) _ _)]
            rw [hmfile]
            exact compileFS_file_off comp names fs _
              (isPrefixOf_cons_false _ _ (by decide))
        · cases hr1

/-! ### Sufficient conditions for the run to succeed -/

theorem shaderCopy_succeeds (comp : Compiler) (names : List (Path × Path))
    (root : Path) (fs : FS)
    (hroot : ∀ q : Path, shadersD.isPrefixOf (root ++ ["shaders"] ++ q) = false)
    (houts : ∀ e ∈ names, (fs.file (shadersD ++ e.2)).isSome = true)
    (hdd : ∀ e ∈ names, fs.isDir ((root ++ ["shaders"] ++ e.2).dropLast) = true) :
    (runScript comp (shaderCopyCmds names root) fs).2 = none := by
  induction names generalizing fs with
  | nil => rfl
  | cons a rest ih =>
    have ha := houts a (List.mem_cons_self a rest)
    rcases hf : fs.file (shadersD ++ a.2) with _ | c0
    · rw [hf] at ha
      cases ha
    · have hcmd : runCmd comp fs
          (.copyfile (shadersD ++ a.2) (root ++ ["shaders"] ++ a.2))
          = (fs.setFile (root ++ ["shaders"] ++ a.2) c0, none) :=
        runCmd_copyfile_some hf (hdd a (List.mem_cons_self a rest))
      rw [shaderCopyCmds_cons, runScript_cons, hcmd]
      show (runScript comp (shaderCopyCmds rest root)
          (fs.setFile (root ++ ["shaders"] ++ a.2) c0)).2 = none
      apply ih
      · intro e2 he2
        have hne : shadersD ++ e2.2 ≠ root ++ ["shaders"] ++ a.2 := by
          intro hyp
          have h0 := hroot a.2
          rw [← hyp] at h0
          rw [isPrefixOf_false_iff] at h0
          exact h0 (List.prefix_append _ _)
        rw [FS.file_setFile, if_neg hne]
        exact houts e2 (List.mem_cons_of_mem a he2)
      · intro e2 he2
        show fs.isDir ((root ++ ["shaders"] ++ e2.2).dropLast) = true
        exact hdd e2 (List.mem_cons_of_mem a he2)

theorem stageTree_succeeds (comp : Compiler) (names : List (Path × Path))
    (root : Path) (fs : FS)
    (htarget : root.head? = some "target")
    (houts : ∀ e ∈ names, (fs.file (shadersD ++ e.2)).isSome = true)
    (henv : (fs.file envFile).isSome = true)
    (hmo : fs.isDir modelsD = true)
    (hdst : fs.isDir (root ++ ["models"]) = true)
    (hrootdir : fs.isDir root = true)
    (hshd : ∀ e ∈ names, fs.isDir ((root ++ ["shaders"] ++ e.2).dropLast) = true) :
    (runScript comp (stageTreeCmds names root) fs).2 = none := by
  obtain ⟨r, hrr⟩ : ∃ r, root = "target" :: r := by
    cases root with
    | nil => cases htarget
    | cons a r =>
      refine ⟨r, ?_⟩
      injection htarget with h1
      rw [h1]
  have hrootSh : ∀ q : Path, shadersD.isPrefixOf (root ++ ["shaders"] ++ q) = false := by
    intro q
    rw [hrr]
    exact isPrefixOf_cons_false _ _ (by decide)
  have henvNeRootSh : ∀ tail : Path, envFile ≠ root ++ ["shaders"] ++ tail := by
    intro tail
    rw [hrr]
    exact ne_of_head _ _ (by decide)
  have hmopre : (root ++ ["models"]).isPrefixOf modelsD = false := by
    rw [hrr]
    exact isPrefixOf_cons_false _ _ (by decide)
  have hcopy := shaderCopy_succeeds comp names root fs hrootSh houts hshd
  rcases hc : runScript comp (shaderCopyCmds names root) fs with ⟨g1, e1⟩
  rw [hc] at hcopy
  simp only at hcopy
  subst hcopy
  rw [stageTreeCmds, runScript_append_ok _ hc]
  have hg1env : g1.file envFile = fs.file envFile := by
    have := shaderCopy_file_off comp names root fs
      (p := envFile) (fun e he => henvNeRootSh e.2)
    rw [hc] at this
    exact this
  have hg1dirs : ∀ p : Path, g1.isDir p = fs.isDir p := by
    intro p
    have := shaderCopy_dirs comp names root fs p
    rw [hc] at this
    exact this
  have ha : (g1.file envFile).isSome = true := by
    rw [hg1env]
    exact henv
  rcases hf : g1.file envFile with _ | c0
  · rw [hf] at ha
    cases ha
  · have hdd1 : g1.isDir ((root ++ [".env"]).dropLast) = true := by
      rw [dropLast_root_cat, hg1dirs]
      exact hrootdir
    have hcmd : runCmd comp g1 (.copyfile envFile (root ++ [".env"]))
        = (g1.setFile (root ++ [".env"]) c0, none) :=
      runCmd_copyfile_some hf hdd1
    rw [runScript_cons, hcmd]
    show (runScript comp [Cmd.rmtree (root ++ ["models"]),
        Cmd.copytree modelsD (root ++ ["models"])]
        (g1.setFile (root ++ [".env"]) c0)).2 = none
    have hdst2 : (g1.setFile (root ++ [".env"]) c0).isDir (root ++ ["models"]) = true := by
      show g1.isDir (root ++ ["models"]) = true
      rw [hg1dirs]
      exact hdst
    have hcmd2 : runCmd comp (g1.setFile (root ++ [".env"]) c0)
        (.rmtree (root ++ ["models"]))
        = ((g1.setFile (root ++ [".env"]) c0).rmtreeApply (root ++ ["models"]), none) := by
      simp only [runCmd]
      rw [if_pos hdst2]
    rw [runScript_cons, hcmd2]
    show (runScript comp [Cmd.copytree modelsD (root ++ ["models"])]
        ((g1.setFile (root ++ [".env"]) c0).rmtreeApply (root ++ ["models"]))).2 = none
    generalize hG : (g1.setFile (root ++ [".env"]) c0).rmtreeApply (root ++ ["models"]) = G
    have hsrc : G.isDir modelsD = true := by
      rw [← hG, FS.isDir_rmtreeApply, hmopre]
      simp only [Bool.not_false, Bool.true_and]
      show g1.isDir modelsD = true
      rw [hg1dirs]
      exact hmo
    have hnex : G.pathExists (root ++ ["models"]) = false := by
      rw [← hG, FS.pathExists_rmtreeApply]
      have hself : (root ++ ["models"]).isPrefixOf (root ++ ["models"]) = true :=
        isPrefixOf_eq_true_iff.mpr (List.prefix_refl _)
      rw [hself]
      rfl
    have hcmd3 : runCmd comp G (.copytree modelsD (root ++ ["models"]))
        = (G.copytreeApply modelsD (root ++ ["models"]), none) := by
      simp only [runCmd]
      rw [if_pos hsrc, if_neg (by simp [hnex])]
    rw [runScript_cons, hcmd3]
    rfl

theorem mirror_succeeds (comp : Compiler) (src root : Path) (fs : FS)
    (hpre : (root ++ src).isPrefixOf src = false)
    (hsrc : fs.isDir src = true) (hdst : fs.isDir (root ++ src) = true) :
    (runScript comp (mirrorCmds src root) fs).2 = none := by
  have hcmd : runCmd comp fs (.rmtree (root ++ src))
      = (fs.rmtreeApply (root ++ src), none) := by
    simp only [runCmd]
    rw [if_pos hdst]
  rw [mirrorCmds, runScript_cons, hcmd]
  show (runScript comp [Cmd.copytree src (root ++ src)]
      (fs.rmtreeApply (root ++ src))).2 = none
  generalize hG : fs.rmtreeApply (root ++ src) = G
  have h1 : G.isDir src = true := by
    rw [← hG, FS.isDir_rmtreeApply, hpre]
    simp only [Bool.not_false, Bool.true_and]
    exact hsrc
  have h2 : G.pathExists (root ++ src) = false := by
    rw [← hG, FS.pathExists_rmtreeApply]
    have hself : (root ++ src).isPrefixOf (root ++ src) = true :=
      isPrefixOf_eq_true_iff.mpr (List.prefix_refl _)
    rw [hself]
    rfl
  have hcmd2 : runCmd comp G (.copytree src (root ++ src))
      = (G.copytreeApply src (root ++ src), none) := by
    simp only [runCmd]
    rw [if_pos h1, if_neg (by simp [h2])]
  rw [runScript_cons, hcmd2]
  rfl

/-- The Darwin loop's frame, with no nonemptiness hypothesis. -/
theorem darwinLoop_preserve (comp : Compiler) (names : List (Path × Path))
    (fs : FS) {g : FS}
    (hrun : runScript comp (darwinLoopCmds names) fs = (g, none)) :
    (∀ p : Path, (∀ y ∈ names.map (fun e => e.2), p ≠ darwinRoot ++ ["shaders"] ++ y)
        → p ≠ darwinRoot ++ [".env"]
        → (darwinRoot ++ ["models"]).isPrefixOf p = false
        → g.file p = fs.file p)
    ∧ (∀ p : Path, (darwinRoot ++ ["models"]).isPrefixOf p = false
        → g.isDir p = fs.isDir p) := by
  induction names generalizing fs g with
  | nil =>
    have hg : fs = g := congrArg Prod.fst hrun
    subst hg
    exact ⟨fun p _ _ _ => rfl, fun p _ => rfl⟩
  | cons a rest ih =>
    rw [darwinLoopCmds_eq] at hrun
    obtain ⟨g1, hA, hB⟩ := runScript_append_ok_split hrun
    obtain ⟨hS1, hS2, hS3, hS4, hS5, hS6, hS7, hS8⟩ :=
      stageTree_run_char comp [a] darwinRoot fs rfl hA
    obtain ⟨hT7, hT8⟩ := ih g1 hB
    constructor
    · intro p hpy hpe hpm
      have h1 : g.file p = g1.file p := by
        refine hT7 p ?_ hpe hpm
        intro y hy
        exact hpy y (by rw [List.map_cons, List.mem_cons]; exact Or.inr hy)
      have h2 : g1.file p = fs.file p := by
        refine hS7 p ?_ hpe hpm
        intro y hy
        rw [List.map_cons, List.mem_cons] at hy
        rcases hy with hy | hy
        · subst hy
          exact hpy a.2 (by rw [List.map_cons, List.mem_cons]; exact Or.inl rfl)
        · cases hy
      exact h1.trans h2
    · intro p hpm
      exact (hT8 p hpm).trans (hS8 p hpm)

theorem darwinLoop_succeeds (comp : Compiler) (names : List (Path × Path)) (fs : FS)
    (houts : ∀ e ∈ names, (fs.file (shadersD ++ e.2)).isSome = true)
    (henv : (fs.file envFile).isSome = true)
    (hmo : fs.isDir modelsD = true)
    (hdst : fs.isDir (darwinRoot ++ ["models"]) = true)
    (hrootdir : fs.isDir darwinRoot = true)
    (hshd : ∀ e ∈ names, fs.isDir ((darwinRoot ++ ["shaders"] ++ e.2).dropLast) = true) :
    (runScript comp (darwinLoopCmds names) fs).2 = none := by
  induction names generalizing fs with
  | nil => rfl
  | cons a rest ih =>
    rw [darwinLoopCmds_eq]
    have h1 : (runScript comp (stageTreeCmds [a] darwinRoot) fs).2 = none :=
      stageTree_succeeds comp [a] darwinRoot fs rfl
        (fun e he => by
          rw [List.mem_singleton] at he
          rw [he]
          exact houts a (List.mem_cons_self a rest))
        henv hmo hdst hrootdir
        (fun e he => by
          rw [List.mem_singleton] at he
          rw [he]
          exact hshd a (List.mem_cons_self a rest))
    rcases hc : runScript comp (stageTreeCmds [a] darwinRoot) fs with ⟨g1, e1⟩
    rw [hc] at h1
    simp only at h1
    subst h1
    rw [runScript_append_ok _ hc]
    obtain ⟨S1, S2, S3, S4, S5, S6, S7, S8⟩ :=
      stageTree_run_char comp [a] darwinRoot fs rfl hc
    apply ih
    · intro e he
      have hp := S7 (shadersD ++ e.2)
        (fun y hy => target_src_ne darwinRoot rfl (by decide) e.2 _)
        (target_src_ne darwinRoot rfl (by decide) e.2 _)
        (target_prefix_src_false darwinRoot rfl (by decide) e.2 _)
      rw [hp]
      exact houts e (List.mem_cons_of_mem a he)
    · have hp := S7 envFile
        (fun y hy => target_src_ne darwinRoot rfl (by decide) [] _)
        (target_src_ne darwinRoot rfl (by decide) [] _)
        (target_prefix_src_false darwinRoot rfl (by decide) [] _)
      rw [hp]
      exact henv
    · rw [S8 modelsD (target_prefix_src_false darwinRoot rfl (by decide) [] _)]
      exact hmo
    · have h0 : g1.isDir (darwinRoot ++ ["models"]) = fs.isDir modelsD := (S1 []).2
      rw [h0]
      exact hmo
    · rw [S8 darwinRoot (root_cat_not_prefix_self darwinRoot "models")]
      exact hrootdir
    · intro e he
      rw [S8 _ (prefix_shDrop_false darwinRoot (by decide) e.2)]
      exact hshd e (List.mem_cons_of_mem a he)

theorem shaderCopy_needs_dirs (comp : Compiler) (names : List (Path × Path))
    (root : Path) (fs : FS)
    (hsucc : (runScript comp (shaderCopyCmds names root) fs).2 = none) :
    ∀ e ∈ names, fs.isDir ((root ++ ["shaders"] ++ e.2).dropLast) = true := by
  induction names generalizing fs with
  | nil =>
    intro e he
    cases he
  | cons a rest ih =>
    rw [shaderCopyCmds_cons, runScript_cons] at hsucc
    rcases hr : runCmd comp fs (.copyfile (shadersD ++ a.2) (root ++ ["shaders"] ++ a.2))
      with ⟨g, e2⟩
    rw [hr] at hsucc
    cases e2 with
    | some e3 => cases hsucc
    | none =>
      simp only at hsucc
      obtain ⟨c0, -, hdd, hg⟩ := runCmd_copyfile_ok hr
      intro e he
      rcases List.mem_cons.mp he with h0 | h0
      · subst h0
        exact hdd
      · have hrest := ih g hsucc e h0
        rw [hg, FS.isDir_setFile] at hrest
        exact hrest

theorem stageTree_needs_dirs (comp : Compiler) (names : List (Path × Path))
    (root : Path) (fs : FS)
    (hsucc : (runScript comp (stageTreeCmds names root) fs).2 = none) :
    fs.isDir root = true
    ∧ ∀ e ∈ names, fs.isDir ((root ++ ["shaders"] ++ e.2).dropLast) = true := by
  rw [stageTreeCmds] at hsucc
  obtain ⟨m, hA, hB, -⟩ := runScript_append_ok_elim hsucc
  have hmdirs : ∀ p : Path, m.isDir p = fs.isDir p := by
    intro p
    have := shaderCopy_dirs comp names root fs p
    rw [hA] at this
    exact this
  constructor
  · rw [runScript_cons] at hB
    rcases hr : runCmd comp m (.copyfile envFile (root ++ [".env"])) with ⟨m2, e2⟩
    rw [hr] at hB
    cases e2 with
    | some e3 => cases hB
    | none =>
      obtain ⟨c0, -, hdd, -⟩ := runCmd_copyfile_ok hr
      rw [dropLast_root_cat] at hdd
      rw [← hmdirs root]
      exact hdd
  · exact shaderCopy_needs_dirs comp names root fs (by rw [hA])

theorem darwinLoop_needs_dirs (comp : Compiler) (names : List (Path × Path)) (fs : FS)
    (hsucc : (runScript comp (darwinLoopCmds names) fs).2 = none) :
    (names ≠ [] → fs.isDir darwinRoot = true)
    ∧ ∀ e ∈ names, fs.isDir ((darwinRoot ++ ["shaders"] ++ e.2).dropLast) = true := by
  induction names generalizing fs with
  | nil =>
    refine ⟨fun h => absurd rfl h, ?_⟩
    intro e he
    cases he
  | cons a rest ih =>
    rw [darwinLoopCmds_eq] at hsucc
    obtain ⟨m, hA, hB, -⟩ := runScript_append_ok_elim hsucc
    obtain ⟨hroot, hsh⟩ := stageTree_needs_dirs comp [a] darwinRoot fs (by rw [hA])
    obtain ⟨-, -, -, -, -, -, -, S8⟩ := stageTree_run_char comp [a] darwinRoot fs rfl hA
    obtain ⟨-, ihsh⟩ := ih m hB
    refine ⟨fun _ => hroot, ?_⟩
    intro e he
    rcases List.mem_cons.mp he with h0 | h0
    · subst h0
      exact hsh e (List.mem_cons_self e [])
    · have hrest := ihsh e h0
      rw [S8 _ (prefix_shDrop_false darwinRoot (by decide) e.2)] at hrest
      exact hrest

/-- A successful whole-script run presupposes the staging parent directories
of every active output tree at the start: the creation phase cannot supply
them (it creates `shaders/target/...` instead). -/
theorem scriptOf_needs_dirs (comp : Compiler) (names : List (Path × Path)) (dw : Bool)
    (fs : FS) {g : FS} (hne : dw = true → names ≠ [])
    (hrun : runScript comp (scriptOf names dw) fs = (g, none)) :
    ∀ root ∈ [debugRoot, releaseRoot] ++ (if dw then [darwinRoot] else []),
      fs.isDir root = true
      ∧ ∀ e ∈ names, fs.isDir ((root ++ ["shaders"] ++ e.2).dropLast) = true := by
  obtain ⟨g2, g3, g4, g5, g6, g7, g8, g9, g10, hm, hstd, hstr, hdl, hrd, hrr, hrdw,
    htd, htr, htdw⟩ := scriptOf_run_split comp names dw fs hrun
  have back2 : ∀ p : Path, ["target"] <+: p → g2.isDir p = fs.isDir p := by
    intro p hp
    exact ((runScript_avoids_eq comp _ hm (mkdirCmds_avoids_target dw) hp).2).trans
      (compileFS_isDir comp names fs p)
  obtain ⟨-, -, -, -, -, -, -, Sd8⟩ := stageTree_run_char comp names debugRoot g2 rfl hstd
  obtain ⟨-, -, -, -, -, -, -, Sr8⟩ :=
    stageTree_run_char comp names releaseRoot g3 rfl hstr
  obtain ⟨hDg2, hDsh2⟩ := stageTree_needs_dirs comp names debugRoot g2 (by rw [hstd])
  obtain ⟨hRg3, hRsh3⟩ := stageTree_needs_dirs comp names releaseRoot g3 (by rw [hstr])
  intro root hr
  rcases List.mem_append.mp hr with hr' | hr'
  · rcases List.mem_cons.mp hr' with h | hr''
    · subst h
      constructor
      · rw [← back2 debugRoot (isPrefixOf_eq_true_iff.mp (by decide))]
        exact hDg2
      · intro e he
        rw [← back2 _ (target_prefix_shDrop debugRoot ["debug"] rfl "shaders" e.2)]
        exact hDsh2 e he
    · rcases List.mem_cons.mp hr'' with h | hr3
      · subst h
        constructor
        · have h1 : g3.isDir releaseRoot = g2.isDir releaseRoot :=
            Sd8 _ (roots_prefix_false_aux (by decide) _ _)
          rw [← back2 releaseRoot (isPrefixOf_eq_true_iff.mp (by decide)), ← h1]
          exact hRg3
        · intro e he
          have h1 : g3.isDir ((releaseRoot ++ ["shaders"] ++ e.2).dropLast)
              = g2.isDir ((releaseRoot ++ ["shaders"] ++ e.2).dropLast) :=
            Sd8 _ (cross_shDrop_false (by decide) ["models"] [] e.2 "shaders")
          rw [← back2 _ (target_prefix_shDrop releaseRoot ["release"] rfl "shaders" e.2),
            ← h1]
          exact hRsh3 e he
      · cases hr3
  · rcases hdw : dw with _ | _
    · rw [hdw] at hr'
      cases hr'
    · rw [hdw] at hr'
      simp only [if_true, List.mem_singleton] at hr'
      subst hr'
      have hdl' : runScript comp (darwinLoopCmds names) g4 = (g5, none) := by
        rw [hdw] at hdl
        simpa using hdl
      obtain ⟨hWg4, hWsh4⟩ := darwinLoop_needs_dirs comp names g4 (by rw [hdl'])
      constructor
      · have h1 : g4.isDir darwinRoot = g3.isDir darwinRoot :=
          Sr8 _ (roots_prefix_false_aux (by decide) _ _)
        have h2 : g3.isDir darwinRoot = g2.isDir darwinRoot :=
          Sd8 _ (roots_prefix_false_aux (by decide) _ _)
        rw [← back2 darwinRoot (isPrefixOf_eq_true_iff.mp (by decide)), ← h2, ← h1]
        exact hWg4 (hne hdw)
      · intro e he
        have h1 : g4.isDir ((darwinRoot ++ ["shaders"] ++ e.2).dropLast)
            = g3.isDir ((darwinRoot ++ ["shaders"] ++ e.2).dropLast) :=
          Sr8 _ (cross_shDrop_false (by decide) ["models"] ["release"] e.2 "shaders")
        have h2 : g3.isDir ((darwinRoot ++ ["shaders"] ++ e.2).dropLast)
            = g2.isDir ((darwinRoot ++ ["shaders"] ++ e.2).dropLast) :=
          Sd8 _ (cross_shDrop_false (by decide) ["models"] ["release"] e.2 "shaders")
        rw [← back2 _ (target_prefix_shDrop darwinRoot
          ["x86_64-apple-darwin", "release"] rfl "shaders" e.2), ← h2, ← h1]
        exact hWsh4 e he

/-- When every guarded-creation target already exists, the creation phase
does nothing at all. -/
theorem runScript_mkdirps_noop (comp : Compiler) (cmds : List Cmd) (fs : FS)
    (hall : cmds.all isMkdirpCmd = true)
    (hex : ∀ q : Path, Cmd.mkdirp q ∈ cmds → fs.pathExists q = true) :
    runScript comp cmds fs = (fs, none) := by
  induction cmds with
  | nil => rfl
  | cons c rest ih =>
    rw [List.all_cons, Bool.and_eq_true] at hall
    cases c with
    | mkdirp q =>
      rw [runScript_cons]
      have hnoop : fs.mkdirp q = fs := by
        unfold FS.mkdirp
        rw [if_pos (hex q (List.mem_cons_self _ _))]
      have hcmd : runCmd comp fs (.mkdirp q) = (fs, none) := by
        simp only [runCmd]
        rw [hnoop]
      rw [hcmd]
      exact ih hall.2 (fun q2 hq2 => hex q2 (List.mem_cons_of_mem _ hq2))
    | compile x y => cases hall.1
    | copyfile s d => cases hall.1
    | rmtree q => cases hall.1
    | copytree s d => cases hall.1

/-! ### The compile phase as a fold over the mapping -/

/-- One step of the compile loop's effect on the artifact named `q`, with
all sources read in the fixed state `fs`. -/
def compileUpd (comp : Compiler) (fs : FS) (q : Path) (acc : Option String)
    (e : Path × Path) : Option String :=
  if q = e.2 then
    match fs.file (shadersD ++ e.1) with
    | none => acc
    | some sv =>
      match comp e.1 sv with
      | none => acc
      | some out => some out
  else acc

/-- The contents of `shaders/<q>` after the compile loop, starting from
contents `b`. -/
def compiledVal (comp : Compiler) (fs : FS) (names : List (Path × Path)) (q : Path)
    (b : Option String) : Option String :=
  names.foldl (compileUpd comp fs q) b

theorem compiledVal_congr (comp : Compiler) {f f' : FS} (names : List (Path × Path))
    (h : ∀ e ∈ names, f'.file (shadersD ++ e.1) = f.file (shadersD ++ e.1))
    (q : Path) (b : Option String) :
    compiledVal comp f' names q b = compiledVal comp f names q b := by
  induction names generalizing b with
  | nil => rfl
  | cons e rest ih =>
    show compiledVal comp f' rest q (compileUpd comp f' q b e)
      = compiledVal comp f rest q (compileUpd comp f q b e)
    have hupd : compileUpd comp f' q b e = compileUpd comp f q b e := by
      unfold compileUpd
      rw [h e (List.mem_cons_self _ _)]
    rw [hupd]
    exact ih (fun e2 he2 => h e2 (List.mem_cons_of_mem _ he2)) _

theorem compiledVal_base (comp : Compiler) (fs : FS) (names : List (Path × Path))
    (q : Path) (b1 b2 : Option String) :
    compiledVal comp fs names q b1 = compiledVal comp fs names q b2
    ∨ (compiledVal comp fs names q b1 = b1 ∧ compiledVal comp fs names q b2 = b2) := by
  induction names generalizing b1 b2 with
  | nil =>
    right
    exact ⟨rfl, rfl⟩
  | cons e rest ih =>
    have hcons : ∀ b : Option String, compiledVal comp fs (e :: rest) q b
        = compiledVal comp fs rest q (compileUpd comp fs q b e) := fun b => rfl
    rw [hcons b1, hcons b2]
    by_cases hq : q = e.2
    · rcases hf : fs.file (shadersD ++ e.1) with _ | sv
      · have hu : ∀ b : Option String, compileUpd comp fs q b e = b := by
          intro b
          unfold compileUpd
          rw [if_pos hq, hf]
        rw [hu b1, hu b2]
        exact ih b1 b2
      · rcases hcmp : comp e.1 sv with _ | out
        · have hu : ∀ b : Option String, compileUpd comp fs q b e = b := by
            intro b
            unfold compileUpd
            rw [if_pos hq, hf]
            show (match comp e.1 sv with
              | none => b
              | some out => some out) = b
            rw [hcmp]
          rw [hu b1, hu b2]
          exact ih b1 b2
        · have hu : ∀ b : Option String, compileUpd comp fs q b e = some out := by
            intro b
            unfold compileUpd
            rw [if_pos hq, hf]
            show (match comp e.1 sv with
              | none => b
              | some out => some out) = some out
            rw [hcmp]
          rw [hu b1, hu b2]
          left
          rfl
    · have hu : ∀ b : Option String, compileUpd comp fs q b e = b := by
        intro b
        unfold compileUpd
        rw [if_neg hq]
      rw [hu b1, hu b2]
      exact ih b1 b2

/-- When no source name is also an output name, the compile loop's reads
are fixed, and the loop computes `compiledVal` pointwise over
`shaders/`. -/
theorem compileFS_sh_char (comp : Compiler) (names : List (Path × Path)) (fs : FS)
    (hdisj : ∀ e ∈ names, ∀ e2 ∈ names, e.1 ≠ e2.2) (q : Path) :
    (compileFS comp names fs).file (shadersD ++ q)
      = compiledVal comp fs names q (fs.file (shadersD ++ q)) := by
  induction names generalizing fs with
  | nil => rfl
  | cons e rest ih =>
    have htail : ∀ e1 ∈ rest, ∀ e2 ∈ rest, e1.1 ≠ e2.2 := by
      intro e1 he1 e2 he2
      exact hdisj e1 (List.mem_cons_of_mem _ he1) e2 (List.mem_cons_of_mem _ he2)
    have hcons : compiledVal comp fs (e :: rest) q (fs.file (shadersD ++ q))
        = compiledVal comp fs rest q
            (compileUpd comp fs q (fs.file (shadersD ++ q)) e) := rfl
    rw [hcons]
    show (runScript comp (.compile e.1 e.2 :: compileCmds rest) fs).1.file (shadersD ++ q)
      = compiledVal comp fs rest q (compileUpd comp fs q (fs.file (shadersD ++ q)) e)
    rw [runScript_cons]
    rcases hf : fs.file (shadersD ++ e.1) with _ | sv
    · have hcmd : runCmd comp fs (.compile e.1 e.2) = (fs, none) := by
        simp only [runCmd]
        rw [hf]
      rw [hcmd]
      have hupd : compileUpd comp fs q (fs.file (shadersD ++ q)) e
          = fs.file (shadersD ++ q) := by
        unfold compileUpd
        rw [hf]
        split
        · rfl
        · rfl
      rw [hupd]
      have hih : (runScript comp (compileCmds rest) fs).1.file (shadersD ++ q)
          = compiledVal comp fs rest q (fs.file (shadersD ++ q)) := ih fs htail
      exact hih
    · rcases hcmp : comp e.1 sv with _ | out
      · have hcmd : runCmd comp fs (.compile e.1 e.2) = (fs, none) := by
          simp only [runCmd]
          rw [hf]
          show ((match comp e.1 sv with
            | none => fs
            | some out => fs.setFile (shadersD ++ e.2) out),
              (none : Option StagingError)) = (fs, none)
          rw [hcmp]
        rw [hcmd]
        have hupd : compileUpd comp fs q (fs.file (shadersD ++ q)) e
            = fs.file (shadersD ++ q) := by
          unfold compileUpd
          by_cases hq : q = e.2
          · rw [if_pos hq, hf]
            show (match comp e.1 sv with
              | none => fs.file (shadersD ++ q)
              | some out => some out) = fs.file (shadersD ++ q)
            rw [hcmp]
          · rw [if_neg hq]
        rw [hupd]
        have hih : (runScript comp (compileCmds rest) fs).1.file (shadersD ++ q)
            = compiledVal comp fs rest q (fs.file (shadersD ++ q)) := ih fs htail
        exact hih
      · have hcmd : runCmd comp fs (.compile e.1 e.2)
            = (fs.setFile (shadersD ++ e.2) out, none) := by
          simp only [runCmd]
          rw [hf]
          show ((match comp e.1 sv with
            | none => fs
            | some out => fs.setFile (shadersD ++ e.2) out),
              (none : Option StagingError))
            = (fs.setFile (shadersD ++ e.2) out, none)
          rw [hcmp]
        rw [hcmd]
        have hreads : ∀ e2 ∈ rest,
            (fs.setFile (shadersD ++ e.2) out).file (shadersD ++ e2.1)
            = fs.file (shadersD ++ e2.1) := by
          intro e2 he2
          rw [FS.file_setFile, if_neg ?_]
          intro hyp
          have h1 : e2.1 = e.2 := List.append_cancel_left hyp
          exact hdisj e2 (List.mem_cons_of_mem _ he2) e (List.mem_cons_self _ _) h1
        have hbase : (fs.setFile (shadersD ++ e.2) out).file (shadersD ++ q)
            = compileUpd comp fs q (fs.file (shadersD ++ q)) e := by
          rw [FS.file_setFile]
          unfold compileUpd
          by_cases hq : shadersD ++ q = shadersD ++ e.2
          · have hq2 : q = e.2 := List.append_cancel_left hq
            rw [if_pos hq, if_pos hq2, hf]
            show some out = (match comp e.1 sv with
              | none => fs.file (shadersD ++ q)
              | some out => some out)
            rw [hcmp]
          · have hq2 : ¬ q = e.2 := fun h => hq (by rw [h])
            rw [if_neg hq, if_neg hq2]
        have hih : (runScript comp (compileCmds rest)
              (fs.setFile (shadersD ++ e.2) out)).1.file (shadersD ++ q)
            = compiledVal comp (fs.setFile (shadersD ++ e.2) out) rest q
                ((fs.setFile (shadersD ++ e.2) out).file (shadersD ++ q)) :=
          ih (fs.setFile (shadersD ++ e.2) out) htail
        rw [hih, compiledVal_congr comp rest hreads q _, hbase]

theorem compileFS_file_nonout (comp : Compiler) (names : List (Path × Path)) (fs : FS)
    (p : Path) (hp : ∀ e ∈ names, p ≠ shadersD ++ e.2) :
    (compileFS comp names fs).file p = fs.file p := by
  unfold compileFS
  induction names generalizing fs with
  | nil => rfl
  | cons e rest ih =>
    show (runScript comp (.compile e.1 e.2 :: compileCmds rest) fs).1.file p = fs.file p
    rw [runScript_cons]
    rcases hf : fs.file (shadersD ++ e.1) with _ | sv
    · have hcmd : runCmd comp fs (.compile e.1 e.2) = (fs, none) := by
        simp only [runCmd]
        rw [hf]
      rw [hcmd]
      exact ih fs (fun e2 he2 => hp e2 (List.mem_cons_of_mem _ he2))
    · rcases hcmp : comp e.1 sv with _ | out
      · have hcmd : runCmd comp fs (.compile e.1 e.2) = (fs, none) := by
          simp only [runCmd]
          rw [hf]
          show ((match comp e.1 sv with
            | none => fs
            | some out => fs.setFile (shadersD ++ e.2) out),
              (none : Option StagingError)) = (fs, none)
          rw [hcmp]
        rw [hcmd]
        exact ih fs (fun e2 he2 => hp e2 (List.mem_cons_of_mem _ he2))
      · have hcmd : runCmd comp fs (.compile e.1 e.2)
            = (fs.setFile (shadersD ++ e.2) out, none) := by
          simp only [runCmd]
          rw [hf]
          show ((match comp e.1 sv with
            | none => fs
            | some out => fs.setFile (shadersD ++ e.2) out),
              (none : Option StagingError))
            = (fs.setFile (shadersD ++ e.2) out, none)
          rw [hcmp]
        rw [hcmd]
        have := ih (fs.setFile (shadersD ++ e.2) out)
          (fun e2 he2 => hp e2 (List.mem_cons_of_mem _ he2))
        rw [this, FS.file_setFile, if_neg (hp e (List.mem_cons_self _ _))]

/-- Re-running the compile loop on a state that already holds the loop's
results reproduces the same `shaders/` contents. -/
theorem compileFS_idem_region (comp : Compiler) (names : List (Path × Path))
    {fs g : FS}
    (hdisj : ∀ e ∈ names, ∀ e2 ∈ names, e.1 ≠ e2.2)
    (hagree : ∀ q : Path, g.file (shadersD ++ q)
        = (compileFS comp names fs).file (shadersD ++ q)) :
    ∀ q : Path, (compileFS comp names g).file (shadersD ++ q)
      = (compileFS comp names fs).file (shadersD ++ q) := by
  intro q
  have hreads : ∀ e ∈ names, g.file (shadersD ++ e.1) = fs.file (shadersD ++ e.1) := by
    intro e he
    rw [hagree e.1]
    exact compileFS_file_nonout comp names fs _
      (fun e2 he2 hyp => hdisj e he e2 he2 (List.append_cancel_left hyp))
  rw [compileFS_sh_char comp names g hdisj q]
  rw [compiledVal_congr comp names hreads q _]
  rw [hagree q]
  rw [compileFS_sh_char comp names fs hdisj q]
  rcases compiledVal_base comp fs names q
      (compiledVal comp fs names q (fs.file (shadersD ++ q))) (fs.file (shadersD ++ q))
    with h | ⟨h1, h2⟩
  · exact h
  · exact h1

/-- After a successful run, the `shaders/` source directory holds exactly
what the compile phase left there. -/
theorem scriptOf_sh_region (comp : Compiler) (names : List (Path × Path)) (dw : Bool)
    (fs : FS) {g : FS}
    (hrun : runScript comp (scriptOf names dw) fs = (g, none)) (q : Path) :
    g.file (shadersD ++ q) = (compileFS comp names fs).file (shadersD ++ q) := by
  obtain ⟨g2, g3, g4, g5, g6, g7, g8, g9, g10, hm, hstd, hstr, hdl, hrd, hrr, hrdw,
    htd, htr, htdw⟩ := scriptOf_run_split comp names dw fs hrun
  have havStd : (stageTreeCmds names debugRoot).all (cmdAvoids shadersD) = true :=
    stageTreeCmds_avoids names debugRoot shadersD
      (fun y => isPrefixOf_cons_false _ _ (by decide))
      (isPrefixOf_cons_false _ _ (by decide)) (by decide)
  have havStr : (stageTreeCmds names releaseRoot).all (cmdAvoids shadersD) = true :=
    stageTreeCmds_avoids names releaseRoot shadersD
      (fun y => isPrefixOf_cons_false _ _ (by decide))
      (isPrefixOf_cons_false _ _ (by decide)) (by decide)
  have havDL : (if dw then darwinLoopCmds names else []).all (cmdAvoids shadersD)
      = true := by
    cases dw
    · rfl
    · exact darwinLoopCmds_avoids names shadersD
        (fun y => isPrefixOf_cons_false _ _ (by decide))
        (isPrefixOf_cons_false _ _ (by decide)) (by decide)
  have havMrDw : (if dw then mirrorCmds resourceD darwinRoot else []).all
      (cmdAvoids shadersD) = true := by
    cases dw
    · rfl
    · decide
  have havMtDw : (if dw then mirrorCmds texturesD darwinRoot else []).all
      (cmdAvoids shadersD) = true := by
    cases dw
    · rfl
    · decide
  have hp := List.prefix_append shadersD q
  have e2 : g2.file (shadersD ++ q) = (compileFS comp names fs).file (shadersD ++ q) := by
    have := runScript_mkdirps_file comp (mkdirCmds dw) (compileFS comp names fs)
      (shadersD ++ q) (mkdirCmds_mkdirps dw)
    rw [hm] at this
    exact this
  have e3 := (runScript_avoids_eq comp _ hstd havStd hp).1
  have e4 := (runScript_avoids_eq comp _ hstr havStr hp).1
  have e5 := (runScript_avoids_eq comp _ hdl havDL hp).1
  have e6 := (runScript_avoids_eq comp _ hrd (by decide) hp).1
  have e7 := (runScript_avoids_eq comp _ hrr (by decide) hp).1
  have e8 := (runScript_avoids_eq comp _ hrdw havMrDw hp).1
  have e9 := (runScript_avoids_eq comp _ htd (by decide) hp).1
  have e10 := (runScript_avoids_eq comp _ htr (by decide) hp).1
  have e11 := (runScript_avoids_eq comp _ htdw havMtDw hp).1
  exact e11.trans (e10.trans (e9.trans (e8.trans (e7.trans (e6.trans (e5.trans
    (e4.trans (e3.trans e2))))))))

/-- Success of the script when the compiled artifacts, sources and the
environment file are present and each output tree's `models`, `resource`
and `textures` destination is a directory after the creation phase (as on a
re-run over a previously staged tree). -/
theorem scriptOf_succeeds2 (comp : Compiler) (names : List (Path × Path)) (dw : Bool)
    (fs : FS)
    (houts : ∀ e ∈ names, ((compileFS comp names fs).file (shadersD ++ e.2)).isSome = true)
    (henv : (fs.file envFile).isSome = true)
    (hmo : fs.isDir modelsD = true) (hre : fs.isDir resourceD = true)
    (hte : fs.isDir texturesD = true)
    (hcat : ∀ root ∈ [debugRoot, releaseRoot] ++ (if dw then [darwinRoot] else []),
        ∀ c ∈ (["models", "resource", "textures"] : List String),
          (runScript comp (mkdirCmds dw) (compileFS comp names fs)).1.isDir (root ++ [c])
            = true)
    (hroots : ∀ root ∈ [debugRoot, releaseRoot] ++ (if dw then [darwinRoot] else []),
        fs.isDir root = true
        ∧ ∀ e ∈ names, fs.isDir ((root ++ ["shaders"] ++ e.2).dropLast) = true) :
    ∃ g : FS, runScript comp (scriptOf names dw) fs = (g, none) := by
  have hc1 := compileCmds_ok comp names fs
  obtain ⟨g2, hm⟩ : ∃ g, runScript comp (mkdirCmds dw) (compileFS comp names fs)
      = (g, none) :=
    ⟨_, runScript_eta_ok (runScript_neverFails comp _ _ (mkdirCmds_neverFails dw))⟩
  have hg2cat : ∀ root ∈ [debugRoot, releaseRoot] ++ (if dw then [darwinRoot] else []),
      ∀ c ∈ (["models", "resource", "textures"] : List String),
        g2.isDir (root ++ [c]) = true := by
    intro root hr c hc
    have := hcat root hr c hc
    rw [hm] at this
    exact this
  have step : ∀ {f h : FS} {e : Option StagingError} (cmds : List Cmd),
      runScript comp cmds f = (h, e) → cmds.all cmdTargetSh = true →
      (∀ (a : String), a ≠ "target" → a ≠ "shaders" → ∀ t : Path,
        f.file (a :: t) = fs.file (a :: t) ∧ f.isDir (a :: t) = fs.isDir (a :: t)) →
      (∀ (a : String), a ≠ "target" → a ≠ "shaders" → ∀ t : Path,
        h.file (a :: t) = fs.file (a :: t) ∧ h.isDir (a :: t) = fs.isDir (a :: t)) := by
    intro f h e cmds hr hall hf a ha1 ha2 t
    obtain ⟨h1, h2⟩ := runScript_targetSh_eq comp cmds hr hall
      (isPrefixOf_cons_false _ _ (fun hh => ha1 hh.symm))
      (isPrefixOf_cons_false _ _ (fun hh => ha2 hh.symm))
    obtain ⟨h3, h4⟩ := hf a ha1 ha2 t
    exact ⟨h1.trans h3, h2.trans h4⟩
  have t1 : ∀ (a : String), a ≠ "target" → a ≠ "shaders" → ∀ t : Path,
      (compileFS comp names fs).file (a :: t) = fs.file (a :: t)
      ∧ (compileFS comp names fs).isDir (a :: t) = fs.isDir (a :: t) := by
    intro a ha1 ha2 t
    exact ⟨compileFS_file_off comp names fs _
        (isPrefixOf_cons_false _ _ (fun hh => ha2 hh.symm)),
      compileFS_isDir comp names fs _⟩
  have t2 := step _ hm (mkdirCmds_targetSh dw) t1
  have s2 : ∀ q : Path, g2.file (shadersD ++ q)
      = (compileFS comp names fs).file (shadersD ++ q) := by
    intro q
    have := runScript_mkdirps_file comp (mkdirCmds dw) (compileFS comp names fs)
      (shadersD ++ q) (mkdirCmds_mkdirps dw)
    rw [hm] at this
    exact this
  have hg2dirT : ∀ p : Path, ["target"] <+: p → g2.isDir p = fs.isDir p := by
    intro p hp
    exact ((runScript_avoids_eq comp _ hm (mkdirCmds_avoids_target dw) hp).2).trans
      (compileFS_isDir comp names fs p)
  obtain ⟨hdg, hdsh⟩ := hroots debugRoot
    (List.mem_append.mpr (Or.inl (List.mem_cons_self _ _)))
  obtain ⟨hrg, hrsh⟩ := hroots releaseRoot
    (List.mem_append.mpr (Or.inl (List.mem_cons_of_mem _ (List.mem_cons_self _ _))))
  -- debug tree
  have hstdS : (runScript comp (stageTreeCmds names debugRoot) g2).2 = none := by
    apply stageTree_succeeds comp names debugRoot g2 rfl
    · intro e he
      rw [s2 e.2]
      exact houts e he
    · have h0 : g2.file envFile = fs.file envFile :=
        (t2 ".env" (by decide) (by decide) []).1
      rw [h0]
      exact henv
    · have h0 : g2.isDir modelsD = fs.isDir modelsD :=
        (t2 "models" (by decide) (by decide) []).2
      rw [h0]
      exact hmo
    · exact hg2cat debugRoot (List.mem_append.mpr (Or.inl (by decide)))
        "models" (by decide)
    · rw [hg2dirT debugRoot ⟨["debug"], rfl⟩]
      exact hdg
    · intro e he
      rw [hg2dirT _ (target_prefix_shDrop debugRoot ["debug"] rfl "shaders" e.2)]
      exact hdsh e he
  rcases hstd : runScript comp (stageTreeCmds names debugRoot) g2 with ⟨g3, e3⟩
  rw [hstd] at hstdS
  simp only at hstdS
  subst hstdS
  obtain ⟨Sd1, Sd2, Sd3, Sd4, Sd5, Sd6, Sd7, Sd8⟩ :=
    stageTree_run_char comp names debugRoot g2 rfl hstd
  have t3 := step _ hstd (stageTreeCmds_targetSh names debugRoot (by decide)) t2
  have havStd : (stageTreeCmds names debugRoot).all (cmdAvoids shadersD) = true :=
    stageTreeCmds_avoids names debugRoot shadersD
      (fun y => isPrefixOf_cons_false _ _ (by decide))
      (isPrefixOf_cons_false _ _ (by decide)) (by decide)
  have s3 : ∀ q : Path, g3.file (shadersD ++ q)
      = (compileFS comp names fs).file (shadersD ++ q) :=
    fun q => ((runScript_avoids_eq comp _ hstd havStd
      (List.prefix_append shadersD q)).1).trans (s2 q)
  -- release tree
  have hstrS : (runScript comp (stageTreeCmds names releaseRoot) g3).2 = none := by
    apply stageTree_succeeds comp names releaseRoot g3 rfl
    · intro e he
      rw [s3 e.2]
      exact houts e he
    · have h0 : g3.file envFile = fs.file envFile :=
        (t3 ".env" (by decide) (by decide) []).1
      rw [h0]
      exact henv
    · have h0 : g3.isDir modelsD = fs.isDir modelsD :=
        (t3 "models" (by decide) (by decide) []).2
      rw [h0]
      exact hmo
    · have h1 : g3.isDir (releaseRoot ++ ["models"])
          = g2.isDir (releaseRoot ++ ["models"]) :=
        Sd8 _ (roots_prefix_false_aux (by decide) _ _)
      rw [h1]
      exact hg2cat releaseRoot (List.mem_append.mpr (Or.inl (by decide)))
        "models" (by decide)
    · have h1 : g3.isDir releaseRoot = g2.isDir releaseRoot :=
        Sd8 _ (roots_prefix_false_aux (by decide) _ _)
      rw [h1, hg2dirT releaseRoot ⟨["release"], rfl⟩]
      exact hrg
    · intro e he
      have h1 : g3.isDir ((releaseRoot ++ ["shaders"] ++ e.2).dropLast)
          = g2.isDir ((releaseRoot ++ ["shaders"] ++ e.2).dropLast) :=
        Sd8 _ (cross_shDrop_false (by decide) ["models"] [] e.2 "shaders")
      rw [h1, hg2dirT _ (target_prefix_shDrop releaseRoot ["release"] rfl "shaders" e.2)]
      exact hrsh e he
  rcases hstr : runScript comp (stageTreeCmds names releaseRoot) g3 with ⟨g4, e4⟩
  rw [hstr] at hstrS
  simp only at hstrS
  subst hstrS
  obtain ⟨Sr1, Sr2, Sr3, Sr4, Sr5, Sr6, Sr7, Sr8⟩ :=
    stageTree_run_char comp names releaseRoot g3 rfl hstr
  have t4 := step _ hstr (stageTreeCmds_targetSh names releaseRoot (by decide)) t3
  have havStr : (stageTreeCmds names releaseRoot).all (cmdAvoids shadersD) = true :=
    stageTreeCmds_avoids names releaseRoot shadersD
      (fun y => isPrefixOf_cons_false _ _ (by decide))
      (isPrefixOf_cons_false _ _ (by decide)) (by decide)
  have s4 : ∀ q : Path, g4.file (shadersD ++ q)
      = (compileFS comp names fs).file (shadersD ++ q) :=
    fun q => ((runScript_avoids_eq comp _ hstr havStr
      (List.prefix_append shadersD q)).1).trans (s3 q)
  -- Darwin loop
  have hdlS : (runScript comp (if dw then darwinLoopCmds names else []) g4).2 = none := by
    cases dw with
    | false => rfl
    | true =>
      show (runScript comp (darwinLoopCmds names) g4).2 = none
      apply darwinLoop_succeeds comp names g4
      · intro e he
        rw [s4 e.2]
        exact houts e he
      · have h0 : g4.file envFile = fs.file envFile :=
          (t4 ".env" (by decide) (by decide) []).1
        rw [h0]
        exact henv
      · have h0 : g4.isDir modelsD = fs.isDir modelsD :=
          (t4 "models" (by decide) (by decide) []).2
        rw [h0]
        exact hmo
      · have h1 : g4.isDir (darwinRoot ++ ["models"])
            = g3.isDir (darwinRoot ++ ["models"]) :=
          Sr8 _ (roots_prefix_false_aux (by decide) _ _)
        have h2 : g3.isDir (darwinRoot ++ ["models"])
            = g2.isDir (darwinRoot ++ ["models"]) :=
          Sd8 _ (roots_prefix_false_aux (by decide) _ _)
        rw [h1, h2]
        exact hg2cat darwinRoot (by decide) "models" (by decide)
      · obtain ⟨hdwg, -⟩ := hroots darwinRoot
          (List.mem_append.mpr (Or.inr (List.mem_cons_self _ _)))
        have h1 : g4.isDir darwinRoot = g3.isDir darwinRoot :=
          Sr8 _ (roots_prefix_false_aux (by decide) _ _)
        have h2 : g3.isDir darwinRoot = g2.isDir darwinRoot :=
          Sd8 _ (roots_prefix_false_aux (by decide) _ _)
        rw [h1, h2, hg2dirT darwinRoot ⟨["x86_64-apple-darwin", "release"], rfl⟩]
        exact hdwg
      · obtain ⟨-, hdwsh⟩ := hroots darwinRoot
          (List.mem_append.mpr (Or.inr (List.mem_cons_self _ _)))
        intro e he
        have h1 : g4.isDir ((darwinRoot ++ ["shaders"] ++ e.2).dropLast)
            = g3.isDir ((darwinRoot ++ ["shaders"] ++ e.2).dropLast) :=
          Sr8 _ (cross_shDrop_false (by decide) ["models"] ["release"] e.2 "shaders")
        have h2 : g3.isDir ((darwinRoot ++ ["shaders"] ++ e.2).dropLast)
            = g2.isDir ((darwinRoot ++ ["shaders"] ++ e.2).dropLast) :=
          Sd8 _ (cross_shDrop_false (by decide) ["models"] ["release"] e.2 "shaders")
        rw [h1, h2, hg2dirT _ (target_prefix_shDrop darwinRoot
          ["x86_64-apple-darwin", "release"] rfl "shaders" e.2)]
        exact hdwsh e he
  rcases hdl : runScript comp (if dw then darwinLoopCmds names else []) g4 with ⟨g5, e5⟩
  rw [hdl] at hdlS
  simp only at hdlS
  subst hdlS
  have hDLpres : (∀ p : Path,
      (∀ y ∈ names.map (fun e => e.2), p ≠ darwinRoot ++ ["shaders"] ++ y)
      → p ≠ darwinRoot ++ [".env"] → (darwinRoot ++ ["models"]).isPrefixOf p = false
      → g5.file p = g4.file p)
      ∧ (∀ p : Path, (darwinRoot ++ ["models"]).isPrefixOf p = false
      → g5.isDir p = g4.isDir p) := by
    cases dw with
    | false =>
      have hg : g4 = g5 := congrArg Prod.fst hdl
      exact ⟨fun p _ _ _ => by rw [← hg], fun p _ => by rw [← hg]⟩
    | true =>
      have hdl' : runScript comp (darwinLoopCmds names) g4 = (g5, none) := by
        simpa using hdl
      exact darwinLoop_preserve comp names g4 hdl'
  have hts_dl : (if dw then darwinLoopCmds names else []).all cmdTargetSh = true := by
    cases dw
    · rfl
    · exact darwinLoopCmds_targetSh names
  have t5 := step _ hdl hts_dl t4
  -- resource mirrors
  have hrdS : (runScript comp (mirrorCmds resourceD debugRoot) g5).2 = none := by
    apply mirror_succeeds comp resourceD debugRoot g5 (by decide)
    · have h0 : g5.isDir resourceD = fs.isDir resourceD :=
        (t5 "resource" (by decide) (by decide) []).2
      rw [h0]
      exact hre
    · have h1 : g5.isDir (debugRoot ++ resourceD)
          = g4.isDir (debugRoot ++ resourceD) :=
        hDLpres.2 _ (roots_prefix_false_aux (by decide) _ _)
      have h2 : g4.isDir (debugRoot ++ resourceD)
          = g3.isDir (debugRoot ++ resourceD) :=
        Sr8 _ (roots_prefix_false_aux (by decide) _ _)
      have h3 : g3.isDir (debugRoot ++ resourceD)
          = g2.isDir (debugRoot ++ resourceD) :=
        Sd8 _ (root_cat_prefix_false_base debugRoot (by decide))
      rw [h1, h2, h3]
      exact hg2cat debugRoot (List.mem_append.mpr (Or.inl (by decide)))
        "resource" (by decide)
  rcases hrd : runScript comp (mirrorCmds resourceD debugRoot) g5 with ⟨g6, e6⟩
  rw [hrd] at hrdS
  simp only at hrdS
  subst hrdS
  obtain ⟨MdM, MdO, MdS⟩ := mirror_run_char comp resourceD debugRoot g5 (by decide) hrd
  have t6 := step _ hrd (mirrorCmds_targetSh resourceD debugRoot (by decide)) t5
  have hrrS : (runScript comp (mirrorCmds resourceD releaseRoot) g6).2 = none := by
    apply mirror_succeeds comp resourceD releaseRoot g6 (by decide)
    · have h0 : g6.isDir resourceD = fs.isDir resourceD :=
        (t6 "resource" (by decide) (by decide) []).2
      rw [h0]
      exact hre
    · have h1 : g6.isDir (releaseRoot ++ resourceD)
          = g5.isDir (releaseRoot ++ resourceD) :=
        (MdO _ (roots_prefix_false_aux (by decide) _ _)).2
      have h2 : g5.isDir (releaseRoot ++ resourceD)
          = g4.isDir (releaseRoot ++ resourceD) :=
        hDLpres.2 _ (roots_prefix_false_aux (by decide) _ _)
      have h3 : g4.isDir (releaseRoot ++ resourceD)
          = g3.isDir (releaseRoot ++ resourceD) :=
        Sr8 _ (root_cat_prefix_false_base releaseRoot (by decide))
      have h4 : g3.isDir (releaseRoot ++ resourceD)
          = g2.isDir (releaseRoot ++ resourceD) :=
        Sd8 _ (roots_prefix_false_aux (by decide) _ _)
      rw [h1, h2, h3, h4]
      exact hg2cat releaseRoot (List.mem_append.mpr (Or.inl (by decide)))
        "resource" (by decide)
  rcases hrr : runScript comp (mirrorCmds resourceD releaseRoot) g6 with ⟨g7, e7⟩
  rw [hrr] at hrrS
  simp only at hrrS
  subst hrrS
  obtain ⟨MrM, MrO, MrS⟩ := mirror_run_char comp resourceD releaseRoot g6 (by decide) hrr
  have t7 := step _ hrr (mirrorCmds_targetSh resourceD releaseRoot (by decide)) t6
  have hrdwS : (runScript comp (if dw then mirrorCmds resourceD darwinRoot else [])
      g7).2 = none := by
    cases dw with
    | false => rfl
    | true =>
      show (runScript comp (mirrorCmds resourceD darwinRoot) g7).2 = none
      apply mirror_succeeds comp resourceD darwinRoot g7 (by decide)
      · have h0 : g7.isDir resourceD = fs.isDir resourceD :=
          (t7 "resource" (by decide) (by decide) []).2
        rw [h0]
        exact hre
      · have h1 : g7.isDir (darwinRoot ++ resourceD)
            = g6.isDir (darwinRoot ++ resourceD) :=
          (MrO _ (roots_prefix_false_aux (by decide) _ _)).2
        have h2 : g6.isDir (darwinRoot ++ resourceD)
            = g5.isDir (darwinRoot ++ resourceD) :=
          (MdO _ (roots_prefix_false_aux (by decide) _ _)).2
        have h3 : g5.isDir (darwinRoot ++ resourceD)
            = g4.isDir (darwinRoot ++ resourceD) :=
          hDLpres.2 _ (root_cat_prefix_false_base darwinRoot (by decide))
        have h4 : g4.isDir (darwinRoot ++ resourceD)
            = g3.isDir (darwinRoot ++ resourceD) :=
          Sr8 _ (roots_prefix_false_aux (by decide) _ _)
        have h5' : g3.isDir (darwinRoot ++ resourceD)
            = g2.isDir (darwinRoot ++ resourceD) :=
          Sd8 _ (roots_prefix_false_aux (by decide) _ _)
        rw [h1, h2, h3, h4, h5']
        exact hg2cat darwinRoot (by decide) "resource" (by decide)
  rcases hrdw : runScript comp (if dw then mirrorCmds resourceD darwinRoot else []) g7
    with ⟨g8, e8⟩
  rw [hrdw] at hrdwS
  simp only at hrdwS
  subst hrdwS
  have hRDWpres : ∀ p : Path, (darwinRoot ++ resourceD).isPrefixOf p = false →
      g8.file p = g7.file p ∧ g8.isDir p = g7.isDir p := by
    cases dw with
    | false =>
      have hg : g7 = g8 := congrArg Prod.fst hrdw
      exact fun p _ => by rw [← hg]; exact ⟨rfl, rfl⟩
    | true =>
      have hrdw' : runScript comp (mirrorCmds resourceD darwinRoot) g7 = (g8, none) := by
        simpa using hrdw
      obtain ⟨-, hO, -⟩ := mirror_run_char comp resourceD darwinRoot g7 (by decide) hrdw'
      exact hO
  have hts_mrdw : (if dw then mirrorCmds resourceD darwinRoot else []).all
      cmdTargetSh = true := by
    cases dw
    · rfl
    · exact mirrorCmds_targetSh resourceD darwinRoot (by decide)
  have t8 := step _ hrdw hts_mrdw t7
  -- textures mirrors
  have htdS : (runScript comp (mirrorCmds texturesD debugRoot) g8).2 = none := by
    apply mirror_succeeds comp texturesD debugRoot g8 (by decide)
    · have h0 : g8.isDir texturesD = fs.isDir texturesD :=
        (t8 "textures" (by decide) (by decide) []).2
      rw [h0]
      exact hte
    · have h1 : g8.isDir (debugRoot ++ texturesD)
          = g7.isDir (debugRoot ++ texturesD) :=
        (hRDWpres _ (roots_prefix_false_aux (by decide) _ _)).2
      have h2 : g7.isDir (debugRoot ++ texturesD)
          = g6.isDir (debugRoot ++ texturesD) :=
        (MrO _ (roots_prefix_false_aux (by decide) _ _)).2
      have h3 : g6.isDir (debugRoot ++ texturesD)
          = g5.isDir (debugRoot ++ texturesD) :=
        (MdO _ (root_cat_prefix_false_base debugRoot (by decide))).2
      have h4 : g5.isDir (debugRoot ++ texturesD)
          = g4.isDir (debugRoot ++ texturesD) :=
        hDLpres.2 _ (roots_prefix_false_aux (by decide) _ _)
      have h5' : g4.isDir (debugRoot ++ texturesD)
          = g3.isDir (debugRoot ++ texturesD) :=
        Sr8 _ (roots_prefix_false_aux (by decide) _ _)
      have h6' : g3.isDir (debugRoot ++ texturesD)
          = g2.isDir (debugRoot ++ texturesD) :=
        Sd8 _ (root_cat_prefix_false_base debugRoot (by decide))
      rw [h1, h2, h3, h4, h5', h6']
      exact hg2cat debugRoot (List.mem_append.mpr (Or.inl (by decide)))
        "textures" (by decide)
  rcases htd : runScript comp (mirrorCmds texturesD debugRoot) g8 with ⟨g9, e9⟩
  rw [htd] at htdS
  simp only at htdS
  subst htdS
  obtain ⟨TdM, TdO, TdS⟩ := mirror_run_char comp texturesD debugRoot g8 (by decide) htd
  have t9 := step _ htd (mirrorCmds_targetSh texturesD debugRoot (by decide)) t8
  have htrS : (runScript comp (mirrorCmds texturesD releaseRoot) g9).2 = none := by
    apply mirror_succeeds comp texturesD releaseRoot g9 (by decide)
    · have h0 : g9.isDir texturesD = fs.isDir texturesD :=
        (t9 "textures" (by decide) (by decide) []).2
      rw [h0]
      exact hte
    · have h1 : g9.isDir (releaseRoot ++ texturesD)
          = g8.isDir (releaseRoot ++ texturesD) :=
        (TdO _ (roots_prefix_false_aux (by decide) _ _)).2
      have h2 : g8.isDir (releaseRoot ++ texturesD)
          = g7.isDir (releaseRoot ++ texturesD) :=
        (hRDWpres _ (roots_prefix_false_aux (by decide) _ _)).2
      have h3 : g7.isDir (releaseRoot ++ texturesD)
          = g6.isDir (releaseRoot ++ texturesD) :=
        (MrO _ (root_cat_prefix_false_base releaseRoot (by decide))).2
      have h4 : g6.isDir (releaseRoot ++ texturesD)
          = g5.isDir (releaseRoot ++ texturesD) :=
        (MdO _ (roots_prefix_false_aux (by decide) _ _)).2
      have h5' : g5.isDir (releaseRoot ++ texturesD)
          = g4.isDir (releaseRoot ++ texturesD) :=
        hDLpres.2 _ (roots_prefix_false_aux (by decide) _ _)
      have h6' : g4.isDir (releaseRoot ++ texturesD)
          = g3.isDir (releaseRoot ++ texturesD) :=
        Sr8 _ (root_cat_prefix_false_base releaseRoot (by decide))
      have h7' : g3.isDir (releaseRoot ++ texturesD)
          = g2.isDir (releaseRoot ++ texturesD) :=
        Sd8 _ (roots_prefix_false_aux (by decide) _ _)
      rw [h1, h2, h3, h4, h5', h6', h7']
      exact hg2cat releaseRoot (List.mem_append.mpr (Or.inl (by decide)))
        "textures" (by decide)
  rcases htr : runScript comp (mirrorCmds texturesD releaseRoot) g9 with ⟨g10, e10⟩
  rw [htr] at htrS
  simp only at htrS
  subst htrS
  obtain ⟨TrM, TrO, TrS⟩ := mirror_run_char comp texturesD releaseRoot g9 (by decide) htr
  have t10 := step _ htr (mirrorCmds_targetSh texturesD releaseRoot (by decide)) t9
  have htdwS : (runScript comp (if dw then mirrorCmds texturesD darwinRoot else [])
      g10).2 = none := by
    cases dw with
    | false => rfl
    | true =>
      show (runScript comp (mirrorCmds texturesD darwinRoot) g10).2 = none
      apply mirror_succeeds comp texturesD darwinRoot g10 (by decide)
      · have h0 : g10.isDir texturesD = fs.isDir texturesD :=
          (t10 "textures" (by decide) (by decide) []).2
        rw [h0]
        exact hte
      · have h1 : g10.isDir (darwinRoot ++ texturesD)
            = g9.isDir (darwinRoot ++ texturesD) :=
          (TrO _ (roots_prefix_false_aux (by decide) _ _)).2
        have h2 : g9.isDir (darwinRoot ++ texturesD)
            = g8.isDir (darwinRoot ++ texturesD) :=
          (TdO _ (roots_prefix_false_aux (by decide) _ _)).2
        have h3 : g8.isDir (darwinRoot ++ texturesD)
            = g7.isDir (darwinRoot ++ texturesD) :=
          (hRDWpres _ (root_cat_prefix_false_base darwinRoot (by decide))).2
        have h4 : g7.isDir (darwinRoot ++ texturesD)
            = g6.isDir (darwinRoot ++ texturesD) :=
          (MrO _ (roots_prefix_false_aux (by decide) _ _)).2
        have h5' : g6.isDir (darwinRoot ++ texturesD)
            = g5.isDir (darwinRoot ++ texturesD) :=
          (MdO _ (roots_prefix_false_aux (by decide) _ _)).2
        have h6' : g5.isDir (darwinRoot ++ texturesD)
            = g4.isDir (darwinRoot ++ texturesD) :=
          hDLpres.2 _ (root_cat_prefix_false_base darwinRoot (by decide))
        have h7' : g4.isDir (darwinRoot ++ texturesD)
            = g3.isDir (darwinRoot ++ texturesD) :=
          Sr8 _ (roots_prefix_false_aux (by decide) _ _)
        have h8' : g3.isDir (darwinRoot ++ texturesD)
            = g2.isDir (darwinRoot ++ texturesD) :=
          Sd8 _ (roots_prefix_false_aux (by decide) _ _)
        rw [h1, h2, h3, h4, h5', h6', h7', h8']
        exact hg2cat darwinRoot (by decide) "textures" (by decide)
  rcases htdw : runScript comp (if dw then mirrorCmds texturesD darwinRoot else []) g10
    with ⟨g11, e11⟩
  rw [htdw] at htdwS
  simp only at htdwS
  subst htdwS
  refine ⟨g11, ?_⟩
  have hsplit : scriptOf names dw
      = compileCmds names ++ (mkdirCmds dw ++ (stageTreeCmds names debugRoot
        ++ (stageTreeCmds names releaseRoot
        ++ ((if dw then darwinLoopCmds names else [])
        ++ (mirrorCmds resourceD debugRoot
        ++ (mirrorCmds resourceD releaseRoot
        ++ ((if dw then mirrorCmds resourceD darwinRoot else [])
        ++ (mirrorCmds texturesD debugRoot
        ++ (mirrorCmds texturesD releaseRoot
        ++ (if dw then mirrorCmds texturesD darwinRoot else [])))))))))) := by
    simp only [scriptOf, List.append_assoc]
  rw [hsplit]
  rw [runScript_append_ok _ hc1, runScript_append_ok _ hm, runScript_append_ok _ hstd,
    runScript_append_ok _ hstr, runScript_append_ok _ hdl, runScript_append_ok _ hrd,
    runScript_append_ok _ hrr, runScript_append_ok _ hrdw, runScript_append_ok _ htd,
    runScript_append_ok _ htr]
  exact htdw

/-- Outside the mirrored category areas, the phases after directory
creation never change which paths are directories. -/
theorem scriptOf_dirs_pres (comp : Compiler) (names : List (Path × Path)) (dw : Bool)
    (fs : FS) {g : FS}
    (hrun : runScript comp (scriptOf names dw) fs = (g, none)) (p : Path)
    (c1 : (debugRoot ++ ["models"]).isPrefixOf p = false)
    (c2 : (releaseRoot ++ ["models"]).isPrefixOf p = false)
    (c3 : dw = true → (darwinRoot ++ ["models"]).isPrefixOf p = false)
    (c4 : (debugRoot ++ resourceD).isPrefixOf p = false)
    (c5 : (releaseRoot ++ resourceD).isPrefixOf p = false)
    (c6 : dw = true → (darwinRoot ++ resourceD).isPrefixOf p = false)
    (c7 : (debugRoot ++ texturesD).isPrefixOf p = false)
    (c8 : (releaseRoot ++ texturesD).isPrefixOf p = false)
    (c9 : dw = true → (darwinRoot ++ texturesD).isPrefixOf p = false) :
    g.isDir p = (runScript comp (mkdirCmds dw) (compileFS comp names fs)).1.isDir p := by
  obtain ⟨g2, g3, g4, g5, g6, g7, g8, g9, g10, hm, hstd, hstr, hdl, hrd, hrr, hrdw,
    htd, htr, htdw⟩ := scriptOf_run_split comp names dw fs hrun
  rw [hm]
  obtain ⟨-, -, -, -, -, -, -, Sd8⟩ := stageTree_run_char comp names debugRoot g2 rfl hstd
  obtain ⟨-, -, -, -, -, -, -, Sr8⟩ :=
    stageTree_run_char comp names releaseRoot g3 rfl hstr
  obtain ⟨MdM, MdO, -⟩ := mirror_run_char comp resourceD debugRoot g5 (by decide) hrd
  obtain ⟨-, MrO, -⟩ := mirror_run_char comp resourceD releaseRoot g6 (by decide) hrr
  obtain ⟨-, TdO, -⟩ := mirror_run_char comp texturesD debugRoot g8 (by decide) htd
  obtain ⟨-, TrO, -⟩ := mirror_run_char comp texturesD releaseRoot g9 (by decide) htr
  have d3 := Sd8 p c1
  have d4 := Sr8 p c2
  have d5 : g5.isDir p = g4.isDir p := by
    cases dw with
    | false =>
      have hg : g4 = g5 := congrArg Prod.fst hdl
      rw [← hg]
    | true =>
      have hdl' : runScript comp (darwinLoopCmds names) g4 = (g5, none) := by
        simpa using hdl
      exact (darwinLoop_preserve comp names g4 hdl').2 p (c3 rfl)
  have d6 := (MdO p c4).2
  have d7 := (MrO p c5).2
  have d8 : g8.isDir p = g7.isDir p := by
    cases dw with
    | false =>
      have hg : g7 = g8 := congrArg Prod.fst hrdw
      rw [← hg]
    | true =>
      have hrdw' : runScript comp (mirrorCmds resourceD darwinRoot) g7 = (g8, none) := by
        simpa using hrdw
      obtain ⟨-, hO, -⟩ := mirror_run_char comp resourceD darwinRoot g7 (by decide) hrdw'
      exact (hO p (c6 rfl)).2
  have d9 := (TdO p c7).2
  have d10 := (TrO p c8).2
  have d11 : g.isDir p = g10.isDir p := by
    cases dw with
    | false =>
      have hg : g10 = g := congrArg Prod.fst htdw
      rw [← hg]
    | true =>
      have htdw' : runScript comp (mirrorCmds texturesD darwinRoot) g10 = (g, none) := by
        simpa using htdw
      obtain ⟨-, hO, -⟩ := mirror_run_char comp texturesD darwinRoot g10 (by decide) htdw'
      exact (hO p (c9 rfl)).2
  exact d11.trans (d10.trans (d9.trans (d8.trans (d7.trans (d6.trans (d5.trans
    (d4.trans d3)))))))

/-- A file that is not a staged destination of any active output tree, and
not under `shaders/`, is left exactly as it was. -/
theorem scriptOf_file_pres (comp : Compiler) (names : List (Path × Path)) (dw : Bool)
    (fs : FS) {g : FS}
    (hrun : runScript comp (scriptOf names dw) fs = (g, none)) (p : Path)
    (hsh : shadersD.isPrefixOf p = false)
    (o1 : ∀ y ∈ names.map (fun e => e.2), p ≠ debugRoot ++ ["shaders"] ++ y)
    (o2 : ∀ y ∈ names.map (fun e => e.2), p ≠ releaseRoot ++ ["shaders"] ++ y)
    (o3 : dw = true → ∀ y ∈ names.map (fun e => e.2), p ≠ darwinRoot ++ ["shaders"] ++ y)
    (he1 : p ≠ debugRoot ++ [".env"])
    (he2 : p ≠ releaseRoot ++ [".env"])
    (he3 : dw = true → p ≠ darwinRoot ++ [".env"])
    (c1 : (debugRoot ++ ["models"]).isPrefixOf p = false)
    (c2 : (releaseRoot ++ ["models"]).isPrefixOf p = false)
    (c3 : dw = true → (darwinRoot ++ ["models"]).isPrefixOf p = false)
    (c4 : (debugRoot ++ resourceD).isPrefixOf p = false)
    (c5 : (releaseRoot ++ resourceD).isPrefixOf p = false)
    (c6 : dw = true → (darwinRoot ++ resourceD).isPrefixOf p = false)
    (c7 : (debugRoot ++ texturesD).isPrefixOf p = false)
    (c8 : (releaseRoot ++ texturesD).isPrefixOf p = false)
    (c9 : dw = true → (darwinRoot ++ texturesD).isPrefixOf p = false) :
    g.file p = fs.file p := by
  obtain ⟨g2, g3, g4, g5, g6, g7, g8, g9, g10, hm, hstd, hstr, hdl, hrd, hrr, hrdw,
    htd, htr, htdw⟩ := scriptOf_run_split comp names dw fs hrun
  obtain ⟨-, -, -, -, -, -, Sd7, -⟩ := stageTree_run_char comp names debugRoot g2 rfl hstd
  obtain ⟨-, -, -, -, -, -, Sr7, -⟩ :=
    stageTree_run_char comp names releaseRoot g3 rfl hstr
  obtain ⟨-, MdO, -⟩ := mirror_run_char comp resourceD debugRoot g5 (by decide) hrd
  obtain ⟨-, MrO, -⟩ := mirror_run_char comp resourceD releaseRoot g6 (by decide) hrr
  obtain ⟨-, TdO, -⟩ := mirror_run_char comp texturesD debugRoot g8 (by decide) htd
  obtain ⟨-, TrO, -⟩ := mirror_run_char comp texturesD releaseRoot g9 (by decide) htr
  have d1 : (compileFS comp names fs).file p = fs.file p :=
    compileFS_file_off comp names fs p hsh
  have d2 : g2.file p = (compileFS comp names fs).file p := by
    have := runScript_mkdirps_file comp (mkdirCmds dw) (compileFS comp names fs) p
      (mkdirCmds_mkdirps dw)
    rw [hm] at this
    exact this
  have d3 := Sd7 p o1 he1 c1
  have d4 := Sr7 p o2 he2 c2
  have d5 : g5.file p = g4.file p := by
    cases dw with
    | false =>
      have hg : g4 = g5 := congrArg Prod.fst hdl
      rw [← hg]
    | true =>
      have hdl' : runScript comp (darwinLoopCmds names) g4 = (g5, none) := by
        simpa using hdl
      exact (darwinLoop_preserve comp names g4 hdl').1 p (o3 rfl) (he3 rfl) (c3 rfl)
  have d6 := (MdO p c4).1
  have d7 := (MrO p c5).1
  have d8 : g8.file p = g7.file p := by
    cases dw with
    | false =>
      have hg : g7 = g8 := congrArg Prod.fst hrdw
      rw [← hg]
    | true =>
      have hrdw' : runScript comp (mirrorCmds resourceD darwinRoot) g7 = (g8, none) := by
        simpa using hrdw
      obtain ⟨-, hO, -⟩ := mirror_run_char comp resourceD darwinRoot g7 (by decide) hrdw'
      exact (hO p (c6 rfl)).1
  have d9 := (TdO p c7).1
  have d10 := (TrO p c8).1
  have d11 : g.file p = g10.file p := by
    cases dw with
    | false =>
      have hg : g10 = g := congrArg Prod.fst htdw
      rw [← hg]
    | true =>
      have htdw' : runScript comp (mirrorCmds texturesD darwinRoot) g10 = (g, none) := by
        simpa using htdw
      obtain ⟨-, hO, -⟩ := mirror_run_char comp texturesD darwinRoot g10 (by decide) htdw'
      exact (hO p (c9 rfl)).1
  exact d11.trans (d10.trans (d9.trans (d8.trans (d7.trans (d6.trans (d5.trans
    (d4.trans (d3.trans (d2.trans d1)))))))))

/-- After a successful run every guarded-creation target exists (they all
live under `shaders/target/...`, which no later phase ever touches). -/
theorem scriptOf_targets_exist (comp : Compiler) (names : List (Path × Path)) (dw : Bool)
    (fs : FS) {g : FS}
    (hrun : runScript comp (scriptOf names dw) fs = (g, none)) :
    ∀ q : Path, Cmd.mkdirp q ∈ mkdirCmds dw → g.pathExists q = true := by
  obtain ⟨g2, g3, g4, g5, g6, g7, g8, g9, g10, hm, hstd, hstr, hdl, hrd, hrr, hrdw,
    htd, htr, htdw⟩ := scriptOf_run_split comp names dw fs hrun
  have keepAll : ∀ q : Path,
      (debugRoot ++ ["models"]).isPrefixOf q = false →
      (releaseRoot ++ ["models"]).isPrefixOf q = false →
      (dw = true → (darwinRoot ++ ["models"]).isPrefixOf q = false) →
      (debugRoot ++ resourceD).isPrefixOf q = false →
      (releaseRoot ++ resourceD).isPrefixOf q = false →
      (dw = true → (darwinRoot ++ resourceD).isPrefixOf q = false) →
      (debugRoot ++ texturesD).isPrefixOf q = false →
      (releaseRoot ++ texturesD).isPrefixOf q = false →
      (dw = true → (darwinRoot ++ texturesD).isPrefixOf q = false) →
      g2.pathExists q = true → g.pathExists q = true := by
    intro q c1 c2 c3 c4 c5 c6 c7 c8 c9 h2
    have k3 : g3.pathExists q = true := by
      have := runScript_keeps comp _ g2 (stageTree_keeps names debugRoot q c1) h2
      rw [hstd] at this
      exact this
    have k4 : g4.pathExists q = true := by
      have := runScript_keeps comp _ g3 (stageTree_keeps names releaseRoot q c2) k3
      rw [hstr] at this
      exact this
    have k5 : g5.pathExists q = true := by
      cases dw with
      | false =>
        have hg : g4 = g5 := congrArg Prod.fst hdl
        rw [← hg]
        exact k4
      | true =>
        have hdl' : runScript comp (darwinLoopCmds names) g4 = (g5, none) := by
          simpa using hdl
        have := runScript_keeps comp _ g4 (darwinLoopCmds_keeps names q (c3 rfl)) k4
        rw [hdl'] at this
        exact this
    have k6 : g6.pathExists q = true := by
      have := runScript_keeps comp _ g5 (mirrorCmds_keeps resourceD debugRoot q c4) k5
      rw [hrd] at this
      exact this
    have k7 : g7.pathExists q = true := by
      have := runScript_keeps comp _ g6 (mirrorCmds_keeps resourceD releaseRoot q c5) k6
      rw [hrr] at this
      exact this
    have k8 : g8.pathExists q = true := by
      cases dw with
      | false =>
        have hg : g7 = g8 := congrArg Prod.fst hrdw
        rw [← hg]
        exact k7
      | true =>
        have hrdw' : runScript comp (mirrorCmds resourceD darwinRoot) g7 = (g8, none) := by
          simpa using hrdw
        have := runScript_keeps comp _ g7
          (mirrorCmds_keeps resourceD darwinRoot q (c6 rfl)) k7
        rw [hrdw'] at this
        exact this
    have k9 : g9.pathExists q = true := by
      have := runScript_keeps comp _ g8 (mirrorCmds_keeps texturesD debugRoot q c7) k8
      rw [htd] at this
      exact this
    have k10 : g10.pathExists q = true := by
      have := runScript_keeps comp _ g9 (mirrorCmds_keeps texturesD releaseRoot q c8) k9
      rw [htr] at this
      exact this
    cases dw with
    | false =>
      have hg : g10 = g := congrArg Prod.fst htdw
      rw [← hg]
      exact k10
    | true =>
      have htdw' : runScript comp (mirrorCmds texturesD darwinRoot) g10 = (g, none) := by
        simpa using htdw
      have := runScript_keeps comp _ g10
        (mirrorCmds_keeps texturesD darwinRoot q (c9 rfl)) k10
      rw [htdw'] at this
      exact this
  have viaKeep : ∀ q : Path, q ≠ [] → Cmd.mkdirp q ∈ mkdirCmds dw →
      (debugRoot ++ ["models"]).isPrefixOf q = false →
      (releaseRoot ++ ["models"]).isPrefixOf q = false →
      (darwinRoot ++ ["models"]).isPrefixOf q = false →
      (debugRoot ++ resourceD).isPrefixOf q = false →
      (releaseRoot ++ resourceD).isPrefixOf q = false →
      (darwinRoot ++ resourceD).isPrefixOf q = false →
      (debugRoot ++ texturesD).isPrefixOf q = false →
      (releaseRoot ++ texturesD).isPrefixOf q = false →
      (darwinRoot ++ texturesD).isPrefixOf q = false →
      g.pathExists q = true := by
    intro q hq0 hqmem c1 c2 c3 c4 c5 c6 c7 c8 c9
    apply keepAll q c1 c2 (fun _ => c3) c4 c5 (fun _ => c6) c7 c8 (fun _ => c9)
    have := runScript_creates comp (mkdirCmds dw) (compileFS comp names fs) hq0
      (mkdirCmds_neverFails dw)
      (all_imp _ (mkdirp_keeps q) (mkdirCmds_mkdirps dw)) hqmem
    rw [hm] at this
    exact this
  intro q hq
  rw [mkdirCmds] at hq
  rcases List.mem_cons.mp hq with h | hq
  · injection h with h1
    subst h1
    exact viaKeep (shadersD ++ ["target"]) (by decide) (by cases dw <;> decide)
      (by decide) (by decide) (by decide) (by decide) (by decide) (by decide)
      (by decide) (by decide) (by decide)
  · rw [List.mem_append, List.mem_append] at hq
    rcases hq with (hq | hq) | hq
    · simp only [treeDirCmds, List.mem_cons, List.not_mem_nil, or_false,
        Cmd.mkdirp.injEq] at hq
      rcases hq with rfl | rfl | rfl | rfl | rfl
      all_goals
        exact viaKeep _ (by decide) (by cases dw <;> decide) (by decide) (by decide)
          (by decide) (by decide) (by decide) (by decide) (by decide) (by decide)
          (by decide)
    · simp only [treeDirCmds, List.mem_cons, List.not_mem_nil, or_false,
        Cmd.mkdirp.injEq] at hq
      rcases hq with rfl | rfl | rfl | rfl | rfl
      all_goals
        exact viaKeep _ (by decide) (by cases dw <;> decide) (by decide) (by decide)
          (by decide) (by decide) (by decide) (by decide) (by decide) (by decide)
          (by decide)
    · rcases hdw : dw with _ | _
      · rw [hdw] at hq
        cases hq
      · rw [hdw] at hq
        simp only [if_true] at hq
        simp only [treeDirCmds, List.mem_cons, List.not_mem_nil, or_false,
          Cmd.mkdirp.injEq] at hq
        rcases hq with rfl | rfl | rfl | rfl | rfl
        all_goals
          exact viaKeep _ (by decide) (by rw [hdw]; decide) (by decide) (by decide)
            (by decide) (by decide) (by decide) (by decide) (by decide) (by decide)
            (by decide)

/-- A checkout where the `models` source directory is absent but everything
else (including stale compiled artifacts) is in place. -/
def noModelsFS : FS :=
  { dirs := [["shaders"], ["resource"], ["textures"],
      ["target"], ["target", "debug"], ["target", "debug", "shaders"],
      ["target", "debug", "models"]],
    files := [([".env"], "ENV"),
      (["resource", "r.txt"], "R"),
      (["textures", "t.png"], "T"),
      (["shaders", "vert.spv"], "stale artifact"),
      (["shaders", "basicShader_animated.spv"], "stale2"),
      (["shaders", "basicShader_noTexture.spv"], "stale3"),
      (["shaders", "terrain_vert.spv"], "stale4"),
      (["shaders", "instance_vert.spv"], "stale5"),
      (["shaders", "ui_vert.spv"], "stale6"),
      (["shaders", "ui_frag.spv"], "stale7")] }

/-- Like `noModelsFS`, but the debug tree still holds a previously staged
model file. -/
def lostModelsFS : FS :=
  { dirs := noModelsFS.dirs,
    files := noModelsFS.files ++ [(["target", "debug", "models", "old.bin"], "OLD")] }

/-- A successful `stage` presupposes the `shaders` directory (the
`os.chdir('./shaders')` of line 28 would otherwise raise) and is exactly a
successful run of the command script. -/
theorem stage_ok_elim {comp : Compiler} {plt : String} {fs g : FS}
    (h : stage comp plt fs = (g, none)) :
    fs.isDir shadersD = true
    ∧ runScript comp (scriptOf (file_names plt) (plt == "Darwin")) fs = (g, none) := by
  unfold stage at h
  by_cases hsh : fs.isDir shadersD = true
  · rw [if_pos hsh] at h
    exact ⟨hsh, h⟩
  · rw [if_neg hsh] at h
    exact absurd (congrArg Prod.snd h) (by simp)

/-! ### Claims -/

/-- **C6**: platform resolution of the asset mapping.  On Windows the
resolved `file_names` contains the four Windows-specific fragment-shader
entries and no `macos/` source; on Darwin it contains the `macos/` variants
and no Windows-specific source; on any other platform value it is exactly
the base mapping. -/
theorem claim6_platform_mapping :
    ((∀ e ∈ windowsNames, e ∈ file_names "Windows")
        ∧ ∀ e ∈ file_names "Windows", e.1 ∉ darwinNames.map (fun w => w.1))
      ∧ ((∀ e ∈ darwinNames, e ∈ file_names "Darwin")
        ∧ ∀ e ∈ file_names "Darwin", e.1 ∉ windowsNames.map (fun w => w.1))
      ∧ ∀ plt : String, plt ≠ "Windows" → plt ≠ "Darwin" → file_names plt = baseNames := by
  refine ⟨⟨by decide, by decide⟩, ⟨by decide, by decide⟩, ?_⟩
  intro plt h1 h2
  unfold file_names
  rw [if_neg (by simp [h1]), if_neg (by simp [h2])]

/-- Witness for C6: instantiating the third-platform clause at `"Linux"`. -/
theorem claim6_platform_mapping_witness :
    (("Linux" : String) ≠ "Windows" ∧ ("Linux" : String) ≠ "Darwin")
      ∧ file_names "Linux" = baseNames :=
  ⟨⟨by decide, by decide⟩,
    claim6_platform_mapping.2.2 "Linux" (by decide) (by decide)⟩

/-- **C3, counterexample**: the claim says a compile failure signalled by the
external compiler makes the process exit non-zero.  It does not: the script
never inspects `os.system`'s return value.  On a checkout holding stale
compiled artifacts, a run in which every compiler invocation fails still
exits with status zero, and the stale artifact is staged as if current. -/
theorem claim3_counterexample :
    staleFS.file (shadersD ++ ["basicShader.vert"]) = some "vertex-source"
      ∧ failingCompiler ["basicShader.vert"] "vertex-source" = none
      ∧ (stage failingCompiler "Linux" staleFS).2 = none
      ∧ (stage failingCompiler "Linux" staleFS).1.file
          (debugRoot ++ ["shaders", "vert.spv"]) = some "stale artifact" := by
  exact ⟨by decide, rfl, by decide, by decide⟩

/-- **C3 (amended)**: any *filesystem* StagingError is surfaced: if the
commands before `c` succeed and `c` raises error `e`, the whole run halts at
`c` and reports exactly `e` (which carries the failing operation kind and
path); the run returns no error only when every command completed.  Compile
failures, by contrast, are invisible to the exit status (see the
counterexample). -/
theorem claim3_error_surfaced (comp : Compiler) (plt : String) (a b : List Cmd)
    (c : Cmd) (fs g : FS) (e : StagingError)
    (hsh : fs.isDir shadersD = true)
    (hsplit : script plt = a ++ c :: b)
    (hpre : runScript comp a fs = (g, none))
    (hfail : (runCmd comp g c).2 = some e) :
    stage comp plt fs = (g, some e) := by
  unfold stage
  rw [if_pos hsh]
  rw [hsplit, runScript_append_ok (c :: b) hpre, runScript_cons]
  rcases hr : runCmd comp g c with ⟨g2, e2⟩
  have he2 : e2 = some e := by
    have h2 := congrArg Prod.snd hr
    rw [hfail] at h2
    exact h2.symm
  subst he2
  have hg2 : g2 = g := runCmd_err_fst hr
  subst hg2
  rfl

/-- A checkout whose `target/debug` tree exists (with its `shaders`
subdirectory) but has lost its `models` subdirectory; stale compiled
artifacts sit in `shaders/`. -/
def noDebugModelsFS : FS :=
  { dirs := [["shaders"], ["models"], ["resource"], ["textures"],
      ["target"], ["target", "debug"], ["target", "debug", "shaders"]],
    files := [([".env"], "ENV"),
      (["models", "m.obj"], "M"),
      (["resource", "r.txt"], "R"),
      (["textures", "t.png"], "T"),
      (["shaders", "vert.spv"], "a1"),
      (["shaders", "basicShader_animated.spv"], "a2"),
      (["shaders", "basicShader_noTexture.spv"], "a3"),
      (["shaders", "terrain_vert.spv"], "a4"),
      (["shaders", "instance_vert.spv"], "a5"),
      (["shaders", "ui_vert.spv"], "a6"),
      (["shaders", "ui_frag.spv"], "a7")] }

/-- **C9 refuted (code bug)**: the unconditional
`rmtree('./target/debug/models')` *can* fail with `FileNotFoundError`.  The
guarded `os.makedirs` block runs with the working directory still inside
`shaders/`, so when `target/debug/models` is absent it recreates it at
`shaders/target/debug/models` instead of at the repository root; the
staging copies into `target/debug` still succeed (those directories
pre-exist here), and the removal then raises on the missing
`target/debug/models`. -/
theorem claim9_rmtree_missing_reachable :
    (stage failingCompiler "Linux" noDebugModelsFS).2
        = some ⟨.rmtreeMissingPath, debugRoot ++ ["models"]⟩
      ∧ noDebugModelsFS.pathExists (debugRoot ++ ["models"]) = false
      ∧ (stage failingCompiler "Linux" noDebugModelsFS).1.isDir
          (shadersD ++ debugRoot ++ ["models"]) = true := by
  exact ⟨by decide, by decide, by decide⟩

/-- **C8**: if the `models` source directory does not exist (and the run
gets as far as the models copy: shader artifacts and `.env` are available
and the debug destination is not blocked by a same-named file), `stage`
reports the missing-source error naming the path `models`, and it does not
terminate silently: the debug tree is left with no `models` directory at
all rather than a silently produced empty one. -/
theorem claim8_source_missing (comp : Compiler) (plt : String) (fs : FS)
    (h0 : fs.isDir shadersD = true)
    (h1 : fs.isDir modelsD = false)
    (h2 : ∀ e ∈ file_names plt,
      ((compileFS comp (file_names plt) fs).file (shadersD ++ e.2)).isSome = true)
    (h3 : (fs.file envFile).isSome = true)
    (h4 : fs.isDir (debugRoot ++ ["models"]) = true)
    (h5 : fs.isDir debugRoot = true)
    (h6 : ∀ e ∈ file_names plt,
      fs.isDir ((debugRoot ++ ["shaders"] ++ e.2).dropLast) = true) :
    (stage comp plt fs).2 = some ⟨.copytreeMissingSrc, modelsD⟩
      ∧ (stage comp plt fs).1.isDir (debugRoot ++ ["models"]) = false := by
  obtain ⟨g, hg⟩ := scriptOf_halts_missing_models comp (file_names plt)
    (plt == "Darwin") fs h1 h2 h3 h4 h5 h6
  have hstage : stage comp plt fs
      = (g.rmtreeApply (debugRoot ++ ["models"]),
          some ⟨.copytreeMissingSrc, modelsD⟩) := by
    unfold stage
    rw [if_pos h0]
    exact hg
  rw [hstage]
  refine ⟨rfl, ?_⟩
  rw [FS.isDir_rmtreeApply,
    isPrefixOf_eq_true_iff.mpr (List.prefix_refl (debugRoot ++ ["models"]))]
  rfl

/-- Witness for C8: a concrete checkout with no `models` directory. -/
theorem claim8_source_missing_witness :
    (noModelsFS.isDir modelsD = false ∧ (noModelsFS.file envFile).isSome = true)
    ∧ (stage failingCompiler "Linux" noModelsFS).2
        = some ⟨.copytreeMissingSrc, modelsD⟩
      ∧ (stage failingCompiler "Linux" noModelsFS).1.isDir
          (debugRoot ++ ["models"]) = false :=
  ⟨⟨by decide, by decide⟩,
    claim8_source_missing failingCompiler "Linux" noModelsFS
      (by decide) (by decide) (by decide) (by decide) (by decide) (by decide)
      (by decide)⟩

/-- **C10**: staging of a static directory is not atomic on error.  When the
`models` source is absent, the run removes the existing
`target/debug/models` before the copy that fails, so at the moment the
error surfaces every file previously staged there is gone. -/
theorem claim10_destructive_failure (comp : Compiler) (plt : String) (fs : FS)
    (q : Path) (c0 : String)
    (h0 : fs.isDir shadersD = true)
    (h1 : fs.isDir modelsD = false)
    (h2 : ∀ e ∈ file_names plt,
      ((compileFS comp (file_names plt) fs).file (shadersD ++ e.2)).isSome = true)
    (h3 : (fs.file envFile).isSome = true)
    (h4 : fs.isDir (debugRoot ++ ["models"]) = true)
    (h5 : fs.isDir debugRoot = true)
    (h6 : ∀ e ∈ file_names plt,
      fs.isDir ((debugRoot ++ ["shaders"] ++ e.2).dropLast) = true)
    (_h7 : fs.file (debugRoot ++ ["models"] ++ q) = some c0) :
    (stage comp plt fs).2 = some ⟨.copytreeMissingSrc, modelsD⟩
      ∧ (stage comp plt fs).1.file (debugRoot ++ ["models"] ++ q) = none := by
  obtain ⟨g, hg⟩ := scriptOf_halts_missing_models comp (file_names plt)
    (plt == "Darwin") fs h1 h2 h3 h4 h5 h6
  have hstage : stage comp plt fs
      = (g.rmtreeApply (debugRoot ++ ["models"]),
          some ⟨.copytreeMissingSrc, modelsD⟩) := by
    unfold stage
    rw [if_pos h0]
    exact hg
  rw [hstage]
  refine ⟨rfl, ?_⟩
  rw [FS.file_rmtreeApply,
    if_pos (isPrefixOf_eq_true_iff.mpr (List.prefix_append _ _))]

/-- Witness for C10: the debug tree loses its previously staged
`models/old.bin` when the `models` source is missing. -/
theorem claim10_destructive_failure_witness :
    (lostModelsFS.isDir modelsD = false
      ∧ lostModelsFS.file (debugRoot ++ ["models"] ++ ["old.bin"]) = some "OLD")
    ∧ (stage failingCompiler "Linux" lostModelsFS).2
        = some ⟨.copytreeMissingSrc, modelsD⟩
      ∧ (stage failingCompiler "Linux" lostModelsFS).1.file
          (debugRoot ++ ["models"] ++ ["old.bin"]) = none :=
  ⟨⟨by decide, by decide⟩,
    claim10_destructive_failure failingCompiler "Linux" lostModelsFS ["old.bin"] "OLD"
      (by decide) (by decide) (by decide) (by decide) (by decide) (by decide)
      (by decide) (by decide)⟩

/-- Witness for the amended C3: on a checkout with no `models` source the
28th command (the `copytree` of `models` into the debug tree) fails, and
`stage` surfaces exactly that error with its path. -/
theorem claim3_error_surfaced_witness :
    (script "Linux" = (script "Linux").take 27
        ++ Cmd.copytree modelsD (debugRoot ++ ["models"])
          :: (script "Linux").drop 28
      ∧ runScript failingCompiler ((script "Linux").take 27) noModelsFS
          = ((runScript failingCompiler ((script "Linux").take 27) noModelsFS).1, none)
      ∧ (runCmd failingCompiler
            (runScript failingCompiler ((script "Linux").take 27) noModelsFS).1
            (Cmd.copytree modelsD (debugRoot ++ ["models"]))).2
          = some ⟨.copytreeMissingSrc, modelsD⟩)
    ∧ stage failingCompiler "Linux" noModelsFS
        = ((runScript failingCompiler ((script "Linux").take 27) noModelsFS).1,
            some ⟨.copytreeMissingSrc, modelsD⟩) := by
  have h2 : (runScript failingCompiler ((script "Linux").take 27) noModelsFS).2
      = none := by
    decide
  have hpre : runScript failingCompiler ((script "Linux").take 27) noModelsFS
      = ((runScript failingCompiler ((script "Linux").take 27) noModelsFS).1, none) := by
    rw [← h2]
  refine ⟨⟨by decide, hpre, by decide⟩, ?_⟩
  exact claim3_error_surfaced failingCompiler "Linux" ((script "Linux").take 27)
    ((script "Linux").drop 28)
    (Cmd.copytree modelsD (debugRoot ++ ["models"]))
    noModelsFS (runScript failingCompiler ((script "Linux").take 27) noModelsFS).1
    ⟨.copytreeMissingSrc, modelsD⟩
    (by decide) (by decide) hpre (by decide)

/-- **C4**: shader staging is an overlay copy.  On any successful run, every
output name of the resolved mapping holds, in each output tree's `shaders`
directory, exactly the artifact that sat in `shaders/` after the compile
phase (so a same-named pre-existing file is overwritten), while every file
in the destination `shaders` directory whose name is not an output of the
mapping keeps its pre-run contents. -/
theorem claim4_shader_overlay (comp : Compiler) (plt : String) (fs : FS) {g : FS}
    (hrun : stage comp plt fs = (g, none)) :
    ∀ root ∈ outputRoots plt,
      (∀ y ∈ (file_names plt).map (fun e => e.2),
        g.file (root ++ ["shaders"] ++ y)
          = (compileFS comp (file_names plt) fs).file (shadersD ++ y))
      ∧ (∀ q : Path, q ∉ (file_names plt).map (fun e => e.2) →
        g.file (root ++ ["shaders"] ++ q) = fs.file (root ++ ["shaders"] ++ q)) := by
  have hne : (plt == "Darwin") = true → file_names plt ≠ [] := by
    intro h
    rw [beq_iff_eq] at h
    subst h
    decide
  obtain ⟨-, hchar⟩ := scriptOf_char comp (file_names plt) (plt == "Darwin") fs hne
    (stage_ok_elim hrun).2
  intro root hroot
  obtain ⟨-, -, -, -, h5, h6⟩ := hchar root hroot
  exact ⟨h5, h6⟩

/-- Witness for C4: a successful Linux run over a checkout holding stale
artifacts. -/
theorem claim4_shader_overlay_witness :
    (stage okCompiler "Linux" staleFS).1.file (debugRoot ++ ["shaders"] ++ ["vert.spv"])
        = (compileFS okCompiler (file_names "Linux") staleFS).file
            (shadersD ++ ["vert.spv"])
    ∧ (stage okCompiler "Linux" staleFS).1.file (debugRoot ++ ["shaders"] ++ ["old.spv"])
        = staleFS.file (debugRoot ++ ["shaders"] ++ ["old.spv"]) := by
  have h := claim4_shader_overlay okCompiler "Linux" staleFS (by
      have h2 : (stage okCompiler "Linux" staleFS).2 = none := by decide
      rw [← h2]) debugRoot (by decide)
  exact ⟨h.1 ["vert.spv"] (by decide), h.2 ["old.spv"] (by decide)⟩

/-- **C1**: after a successful run every output tree's `models`, `resource`
and `textures` directory is an exact mirror of the corresponding source
directory: file contents and directory structure agree at every relative
path, so a file previously present in the destination but absent from the
source is gone. -/
theorem claim1_static_mirror (comp : Compiler) (plt : String) (fs : FS) {g : FS}
    (hrun : stage comp plt fs = (g, none)) :
    ∀ root ∈ outputRoots plt, ∀ src ∈ ([modelsD, resourceD, texturesD] : List Path),
      ∀ rest : Path,
        g.file (root ++ src ++ rest) = fs.file (src ++ rest)
        ∧ g.isDir (root ++ src ++ rest) = fs.isDir (src ++ rest) := by
  have hne : (plt == "Darwin") = true → file_names plt ≠ [] := by
    intro h
    rw [beq_iff_eq] at h
    subst h
    decide
  obtain ⟨-, hchar⟩ := scriptOf_char comp (file_names plt) (plt == "Darwin") fs hne
    (stage_ok_elim hrun).2
  intro root hroot src hsrc rest
  obtain ⟨h1, h2, h3, -, -, -⟩ := hchar root hroot
  rcases List.mem_cons.mp hsrc with h | hsrc
  · subst h
    exact h1 rest
  · rcases List.mem_cons.mp hsrc with h | hsrc
    · subst h
      exact h2 rest
    · rcases List.mem_cons.mp hsrc with h | hsrc
      · subst h
        exact h3 rest
      · cases hsrc

/-- Witness for C1: the same successful Linux run, at the debug tree's
`models` mirror and the relative path `m.obj`. -/
theorem claim1_static_mirror_witness :
    (stage okCompiler "Linux" staleFS).1.file (debugRoot ++ modelsD ++ ["m.obj"])
      = staleFS.file (modelsD ++ ["m.obj"])
    ∧ (stage okCompiler "Linux" staleFS).1.isDir (debugRoot ++ modelsD ++ ["m.obj"])
      = staleFS.isDir (modelsD ++ ["m.obj"]) :=
  claim1_static_mirror okCompiler "Linux" staleFS (by
    have h2 : (stage okCompiler "Linux" staleFS).2 = none := by decide
    rw [← h2]) debugRoot (by decide) modelsD (by decide) ["m.obj"]

/-- A checkout holding every shader source, the static directories and the
environment file, with nothing under `./target` yet. -/
def srcOnlyFS : FS :=
  { dirs := [["shaders"], ["models"], ["resource"], ["textures"]],
    files := [([".env"], "ENV"),
      (["models", "m.obj"], "M"),
      (["resource", "r.txt"], "R"),
      (["textures", "t.png"], "T"),
      (["shaders", "basicShader.vert"], "s1"),
      (["shaders", "basicShader_animated.vert"], "s2"),
      (["shaders", "basicShader_noTexture.frag"], "s3"),
      (["shaders", "terrain.vert"], "s4"),
      (["shaders", "instance.vert"], "s5"),
      (["shaders", "ui.vert"], "s6"),
      (["shaders", "ui.frag"], "s7")] }

/-- **C7 refuted (code bug)**: from a checkout with valid sources, the
environment file and nothing yet under `./target`, the run does *not*
create the output trees and does *not* complete.  The guarded `os.makedirs`
block (lines 33-67) executes while the working directory is still
`shaders/` — the balancing `os.chdir('../')` only comes at line 70 — so
every `./target/...` it creates lands at `shaders/target/...`.  The first
staging `copyfile` then raises `FileNotFoundError` because its destination
directory `target/debug/shaders` still does not exist: the run aborts with
no output tree at the repository root, while a stray `shaders/target` tree
has appeared. -/
theorem claim7_tree_creation :
    (stage okCompiler "Linux" srcOnlyFS).2
        = some ⟨.copyNoDstDir, debugRoot ++ ["shaders", "vert.spv"]⟩
      ∧ (stage okCompiler "Linux" srcOnlyFS).1.isDir (debugRoot ++ ["shaders"]) = false
      ∧ (stage okCompiler "Linux" srcOnlyFS).1.isDir debugRoot = false
      ∧ (stage okCompiler "Linux" srcOnlyFS).1.isDir ["target"] = false
      ∧ (stage okCompiler "Linux" srcOnlyFS).1.isDir (shadersD ++ ["target"]) = true
      ∧ (stage okCompiler "Linux" srcOnlyFS).1.isDir (shadersD ++ debugRoot ++ ["shaders"])
          = true := by
  exact ⟨by decide, by decide, by decide, by decide, by decide, by decide⟩

/-- On every platform other than Darwin the script never touches anything
under `./target/x86_64-apple-darwin`. -/
theorem scriptOf_avoids_darwin (names : List (Path × Path)) :
    (scriptOf names false).all (cmdAvoids ["target", "x86_64-apple-darwin"]) = true := by
  rw [scriptOf]
  repeat rw [List.all_append, Bool.and_eq_true]
  refine ⟨⟨⟨⟨⟨⟨⟨⟨⟨⟨?_, ?_⟩, ?_⟩, ?_⟩, ?_⟩, ?_⟩, ?_⟩, ?_⟩, ?_⟩, ?_⟩, ?_⟩
  · exact compileCmds_avoids names _ (fun y => isPrefixOf_cons_false _ _ (by decide))
  · decide
  · exact stageTreeCmds_avoids names debugRoot _
      (fun y => roots_prefix_false_aux (by decide) _ _) (by decide) (by decide)
  · exact stageTreeCmds_avoids names releaseRoot _
      (fun y => roots_prefix_false_aux (by decide) _ _) (by decide) (by decide)
  · rfl
  · decide
  · decide
  · rfl
  · decide
  · decide
  · rfl

/-- A checkout with every Darwin shader source, the static sources, and a
stale compiled shader already sitting in the release tree only. -/
def darwinStaleFS : FS :=
  { dirs := [["shaders"], ["shaders", "macos"], ["models"], ["resource"], ["textures"],
      ["target"],
      ["target", "debug"], ["target", "debug", "shaders"],
      ["target", "debug", "models"], ["target", "debug", "resource"],
      ["target", "debug", "textures"],
      ["target", "release"], ["target", "release", "shaders"],
      ["target", "release", "models"], ["target", "release", "resource"],
      ["target", "release", "textures"],
      ["target", "x86_64-apple-darwin"],
      ["target", "x86_64-apple-darwin", "release"],
      ["target", "x86_64-apple-darwin", "release", "shaders"],
      ["target", "x86_64-apple-darwin", "release", "models"],
      ["target", "x86_64-apple-darwin", "release", "resource"],
      ["target", "x86_64-apple-darwin", "release", "textures"]],
    files := [([".env"], "ENV"),
      (["models", "m.obj"], "M"),
      (["resource", "r.txt"], "R"),
      (["textures", "t.png"], "T"),
      (["shaders", "basicShader.vert"], "s1"),
      (["shaders", "basicShader_animated.vert"], "s2"),
      (["shaders", "basicShader_noTexture.frag"], "s3"),
      (["shaders", "terrain.vert"], "s4"),
      (["shaders", "instance.vert"], "s5"),
      (["shaders", "ui.vert"], "s6"),
      (["shaders", "ui.frag"], "s7"),
      (["shaders", "macos", "instance.frag"], "m1"),
      (["shaders", "macos", "water.frag"], "m2"),
      (["shaders", "macos", "terrain.frag"], "m3"),
      (["shaders", "macos", "basicShader.frag"], "m4"),
      (["target", "release", "shaders", "stale.spv"], "STALE")] }

/-- **C2, counterexample**: the claim says the Darwin cross-target tree ends
the run identical to the release tree's state (same shaders content).  Not
so: the shader staging is an overlay, so a stale compiled file already
present under `target/release/shaders` survives the run there while the
cross-target tree never receives it — after a fully successful Darwin run
the two trees differ. -/
theorem claim2_counterexample :
    (stage okCompiler "Darwin" darwinStaleFS).2 = none
    ∧ (stage okCompiler "Darwin" darwinStaleFS).1.file
        (releaseRoot ++ ["shaders", "stale.spv"]) = some "STALE"
    ∧ (stage okCompiler "Darwin" darwinStaleFS).1.file
        (darwinRoot ++ ["shaders", "stale.spv"]) = none := by
  exact ⟨by decide, by decide, by decide⟩

/-- **C2 (amended)**: on Darwin the cross-target release tree receives the
identical staging *treatment* as the standard release tree — after a
successful run the two trees hold the same compiled shader outputs, the
same `.env`, and mirrors of the same `models`/`resource`/`textures`
sources (pre-existing stray files may still make the trees differ, see the
counterexample); on every other platform nothing under
`target/x86_64-apple-darwin` is created or modified, whatever the
outcome. -/
theorem claim2_darwin_tree (comp : Compiler) (fs : FS) :
    (∀ g : FS, stage comp "Darwin" fs = (g, none) →
      (∀ y ∈ (file_names "Darwin").map (fun e => e.2),
        g.file (darwinRoot ++ ["shaders"] ++ y)
          = g.file (releaseRoot ++ ["shaders"] ++ y))
      ∧ g.file (darwinRoot ++ [".env"]) = g.file (releaseRoot ++ [".env"])
      ∧ (∀ src ∈ ([modelsD, resourceD, texturesD] : List Path), ∀ rest : Path,
        g.file (darwinRoot ++ src ++ rest) = g.file (releaseRoot ++ src ++ rest)
        ∧ g.isDir (darwinRoot ++ src ++ rest) = g.isDir (releaseRoot ++ src ++ rest)))
    ∧ (∀ plt : String, plt ≠ "Darwin" → ∀ p : Path,
        (["target", "x86_64-apple-darwin"] : Path).isPrefixOf p = true →
        (stage comp plt fs).1.file p = fs.file p
        ∧ (stage comp plt fs).1.isDir p = fs.isDir p) := by
  constructor
  · intro g hrun
    have hne : (("Darwin" : String) == "Darwin") = true → file_names "Darwin" ≠ [] := by
      intro h
      decide
    obtain ⟨-, hchar⟩ :=
      scriptOf_char comp (file_names "Darwin") ("Darwin" == "Darwin") fs hne
        (stage_ok_elim hrun).2
    obtain ⟨d1, d2, d3, d4, d5, -⟩ := hchar darwinRoot (by decide)
    obtain ⟨r1, r2, r3, r4, r5, -⟩ := hchar releaseRoot (by decide)
    refine ⟨?_, ?_, ?_⟩
    · intro y hy
      rw [d5 y hy, r5 y hy]
    · rw [d4, r4]
    · intro src hsrc rest
      rcases List.mem_cons.mp hsrc with h | hsrc
      · subst h
        obtain ⟨a1, a2⟩ := d1 rest
        obtain ⟨b1, b2⟩ := r1 rest
        exact ⟨a1.trans b1.symm, a2.trans b2.symm⟩
      · rcases List.mem_cons.mp hsrc with h | hsrc
        · subst h
          obtain ⟨a1, a2⟩ := d2 rest
          obtain ⟨b1, b2⟩ := r2 rest
          exact ⟨a1.trans b1.symm, a2.trans b2.symm⟩
        · rcases List.mem_cons.mp hsrc with h | hsrc
          · subst h
            obtain ⟨a1, a2⟩ := d3 rest
            obtain ⟨b1, b2⟩ := r3 rest
            exact ⟨a1.trans b1.symm, a2.trans b2.symm⟩
          · cases hsrc
  · intro plt hplt p hp
    have hb : (plt == "Darwin") = false := by
      rw [beq_eq_false_iff_ne]
      exact hplt
    have hpre : (["target", "x86_64-apple-darwin"] : Path) <+: p :=
      isPrefixOf_eq_true_iff.mp hp
    unfold stage
    by_cases hsh : fs.isDir shadersD = true
    · rw [if_pos hsh]
      have hall := scriptOf_avoids_darwin (file_names plt)
      have := runScript_avoids comp (scriptOf (file_names plt) false) fs hall hpre
      show (runScript comp (scriptOf (file_names plt) (plt == "Darwin")) fs).1.file p
          = fs.file p
        ∧ (runScript comp (scriptOf (file_names plt) (plt == "Darwin")) fs).1.isDir p
          = fs.isDir p
      rw [hb]
      exact this
    · rw [if_neg hsh]
      exact ⟨rfl, rfl⟩

/-- Witness for the amended C2: a successful Darwin run over
`darwinStaleFS` (first component at the mirrored categories), and a Linux
run leaving the cross-target area untouched (second component). -/
theorem claim2_darwin_tree_witness :
    ((∀ y ∈ (file_names "Darwin").map (fun e => e.2),
        (stage okCompiler "Darwin" darwinStaleFS).1.file (darwinRoot ++ ["shaders"] ++ y)
          = (stage okCompiler "Darwin" darwinStaleFS).1.file
              (releaseRoot ++ ["shaders"] ++ y)))
    ∧ (("Linux" : String) ≠ "Darwin"
      ∧ (stage okCompiler "Linux" darwinStaleFS).1.file
          (["target", "x86_64-apple-darwin", "release"])
        = darwinStaleFS.file (["target", "x86_64-apple-darwin", "release"])) := by
  constructor
  · have h2 : (stage okCompiler "Darwin" darwinStaleFS).2 = none := by decide
    have hrun : stage okCompiler "Darwin" darwinStaleFS
        = ((stage okCompiler "Darwin" darwinStaleFS).1, none) := by
      rw [← h2]
    exact ((claim2_darwin_tree okCompiler darwinStaleFS).1 _ hrun).1
  · exact ⟨by decide,
      ((claim2_darwin_tree okCompiler darwinStaleFS).2 "Linux" (by decide) _ (by decide)).1⟩

/-- **C5**: `stage` is idempotent: running the whole operation a second
time on the final state of a successful run succeeds as well and leaves
the filesystem byte-identical to the single-run result — every path holds
the same file contents, and the same paths are directories. -/
theorem claim5_idempotent (comp : Compiler) (plt : String) (fs : FS) {g : FS}
    (hrun : stage comp plt fs = (g, none)) :
    ∃ g2 : FS, stage comp plt g = (g2, none)
      ∧ ∀ p : Path, g2.file p = g.file p ∧ g2.isDir p = g.isDir p := by
  obtain ⟨hshfs, hrun'⟩ := stage_ok_elim hrun
  have hdisj : ∀ e ∈ file_names plt, ∀ e2 ∈ file_names plt, e.1 ≠ e2.2 := by
    unfold file_names
    by_cases h1 : (plt == "Windows") = true
    · rw [if_pos h1]
      decide
    · rw [if_neg h1]
      by_cases h2 : (plt == "Darwin") = true
      · rw [if_pos h2]
        decide
      · rw [if_neg h2]
        decide
  have hne : (plt == "Darwin") = true → file_names plt ≠ [] := by
    intro h
    rw [beq_iff_eq] at h
    subst h
    decide
  obtain ⟨⟨hmo, hre, hte, henv, houts1⟩, hchar1⟩ :=
    scriptOf_char comp (file_names plt) (plt == "Darwin") fs hne hrun'
  have hgsh : ∀ q : Path, g.file (shadersD ++ q)
      = (compileFS comp (file_names plt) fs).file (shadersD ++ q) :=
    scriptOf_sh_region comp (file_names plt) (plt == "Darwin") fs hrun'
  have hidem : ∀ q : Path,
      (compileFS comp (file_names plt) g).file (shadersD ++ q)
      = (compileFS comp (file_names plt) fs).file (shadersD ++ q) :=
    compileFS_idem_region comp (file_names plt) hdisj hgsh
  have hallT := scriptOf_targetSh (file_names plt) (plt == "Darwin")
  have hsrc : ∀ (a : String), a ≠ "target" → a ≠ "shaders" → ∀ t : Path,
      g.file (a :: t) = fs.file (a :: t) ∧ g.isDir (a :: t) = fs.isDir (a :: t) := by
    intro a ha1 ha2 t
    exact runScript_targetSh_eq comp _ hrun' hallT
      (isPrefixOf_cons_false _ _ (fun hh => ha1 hh.symm))
      (isPrefixOf_cons_false _ _ (fun hh => ha2 hh.symm))
  have henv2 : (g.file envFile).isSome = true := by
    have hb : g.file envFile = fs.file envFile :=
      (hsrc ".env" (by decide) (by decide) []).1
    rw [hb]
    exact henv
  have hmo2 : g.isDir modelsD = true := by
    have hb : g.isDir modelsD = fs.isDir modelsD :=
      (hsrc "models" (by decide) (by decide) []).2
    rw [hb]
    exact hmo
  have hre2 : g.isDir resourceD = true := by
    have hb : g.isDir resourceD = fs.isDir resourceD :=
      (hsrc "resource" (by decide) (by decide) []).2
    rw [hb]
    exact hre
  have hte2 : g.isDir texturesD = true := by
    have hb : g.isDir texturesD = fs.isDir texturesD :=
      (hsrc "textures" (by decide) (by decide) []).2
    rw [hb]
    exact hte
  have houts2 : ∀ e ∈ file_names plt,
      ((compileFS comp (file_names plt) g).file (shadersD ++ e.2)).isSome = true := by
    intro e he
    rw [hidem e.2]
    exact houts1 e he
  have hexists : ∀ q : Path, Cmd.mkdirp q ∈ mkdirCmds (plt == "Darwin") →
      (compileFS comp (file_names plt) g).pathExists q = true := by
    intro q hq
    apply compileFS_pathExists_mono
    exact scriptOf_targets_exist comp (file_names plt) (plt == "Darwin") fs hrun' q hq
  have hnoop : runScript comp (mkdirCmds (plt == "Darwin"))
      (compileFS comp (file_names plt) g)
      = (compileFS comp (file_names plt) g, none) :=
    runScript_mkdirps_noop comp _ _ (mkdirCmds_mkdirps _) hexists
  have hdirNoop : ∀ p : Path,
      (runScript comp (mkdirCmds (plt == "Darwin"))
        (compileFS comp (file_names plt) g)).1.isDir p = g.isDir p := by
    intro p
    rw [hnoop]
    show (compileFS comp (file_names plt) g).isDir p = g.isDir p
    rw [compileFS_isDir]
  have hcat2 : ∀ root ∈ [debugRoot, releaseRoot]
      ++ (if plt == "Darwin" then [darwinRoot] else []),
      ∀ c ∈ (["models", "resource", "textures"] : List String),
        (runScript comp (mkdirCmds (plt == "Darwin"))
          (compileFS comp (file_names plt) g)).1.isDir (root ++ [c]) = true := by
    intro root hr c hc
    rw [hdirNoop (root ++ [c])]
    obtain ⟨h1, h2, h3, -, -, -⟩ := hchar1 root hr
    rcases List.mem_cons.mp hc with h | hc
    · subst h
      have h0 : g.isDir (root ++ ["models"]) = fs.isDir modelsD := by
        have h0' := (h1 []).2
        rw [List.append_nil, List.append_nil] at h0'
        exact h0'
      rw [h0]
      exact hmo
    rcases List.mem_cons.mp hc with h | hc
    · subst h
      have h0 : g.isDir (root ++ ["resource"]) = fs.isDir resourceD := by
        have h0' := (h2 []).2
        rw [List.append_nil, List.append_nil] at h0'
        exact h0'
      rw [h0]
      exact hre
    rcases List.mem_cons.mp hc with h | hc
    · subst h
      have h0 : g.isDir (root ++ ["textures"]) = fs.isDir texturesD := by
        have h0' := (h3 []).2
        rw [List.append_nil, List.append_nil] at h0'
        exact h0'
      rw [h0]
      exact hte
    cases hc
  have hneeds := scriptOf_needs_dirs comp (file_names plt) (plt == "Darwin") fs hne hrun'
  have htrans : ∀ p : Path, ["target"] <+: p →
      (debugRoot ++ ["models"]).isPrefixOf p = false →
      (releaseRoot ++ ["models"]).isPrefixOf p = false →
      ((plt == "Darwin") = true → (darwinRoot ++ ["models"]).isPrefixOf p = false) →
      (debugRoot ++ resourceD).isPrefixOf p = false →
      (releaseRoot ++ resourceD).isPrefixOf p = false →
      ((plt == "Darwin") = true → (darwinRoot ++ resourceD).isPrefixOf p = false) →
      (debugRoot ++ texturesD).isPrefixOf p = false →
      (releaseRoot ++ texturesD).isPrefixOf p = false →
      ((plt == "Darwin") = true → (darwinRoot ++ texturesD).isPrefixOf p = false) →
      g.isDir p = fs.isDir p := by
    intro p hp c1 c2 c3 c4 c5 c6 c7 c8 c9
    have h1 := scriptOf_dirs_pres comp (file_names plt) (plt == "Darwin") fs hrun' p
      c1 c2 c3 c4 c5 c6 c7 c8 c9
    have h2 := (runScript_avoids comp (mkdirCmds (plt == "Darwin"))
      (compileFS comp (file_names plt) fs) (mkdirCmds_avoids_target _) hp).2
    exact h1.trans (h2.trans (compileFS_isDir comp (file_names plt) fs p))
  have hroots2 : ∀ root ∈ [debugRoot, releaseRoot]
      ++ (if plt == "Darwin" then [darwinRoot] else []),
      g.isDir root = true
      ∧ ∀ e ∈ file_names plt,
        g.isDir ((root ++ ["shaders"] ++ e.2).dropLast) = true := by
    intro root hr
    obtain ⟨hroot1, hsh1⟩ := hneeds root hr
    rcases List.mem_append.mp hr with hr' | hr'
    · rcases List.mem_cons.mp hr' with h | hr''
      · subst h
        constructor
        · rw [htrans debugRoot (isPrefixOf_eq_true_iff.mp (by decide)) (by decide)
            (by decide) (fun _ => by decide) (by decide) (by decide)
            (fun _ => by decide) (by decide) (by decide) (fun _ => by decide)]
          exact hroot1
        · intro e he
          rw [htrans _ (target_prefix_shDrop debugRoot ["debug"] rfl "shaders" e.2)
            (prefix_shDrop_false debugRoot (by decide) e.2)
            (cross_shDrop_false (by decide) ["models"] [] e.2 "shaders")
            (fun _ =>
              cross_shDrop_false (by decide) ["release", "models"] [] e.2 "shaders")
            (prefix_shDrop_false debugRoot (by decide) e.2)
            (cross_shDrop_false (by decide) ["resource"] [] e.2 "shaders")
            (fun _ =>
              cross_shDrop_false (by decide) ["release", "resource"] [] e.2 "shaders")
            (prefix_shDrop_false debugRoot (by decide) e.2)
            (cross_shDrop_false (by decide) ["textures"] [] e.2 "shaders")
            (fun _ =>
              cross_shDrop_false (by decide) ["release", "textures"] [] e.2 "shaders")]
          exact hsh1 e he
      · rcases List.mem_cons.mp hr'' with h | hr3
        · subst h
          constructor
          · rw [htrans releaseRoot (isPrefixOf_eq_true_iff.mp (by decide)) (by decide)
              (by decide) (fun _ => by decide) (by decide) (by decide)
              (fun _ => by decide) (by decide) (by decide) (fun _ => by decide)]
            exact hroot1
          · intro e he
            rw [htrans _ (target_prefix_shDrop releaseRoot ["release"] rfl "shaders" e.2)
              (cross_shDrop_false (by decide) ["models"] [] e.2 "shaders")
              (prefix_shDrop_false releaseRoot (by decide) e.2)
              (fun _ =>
                cross_shDrop_false (by decide) ["release", "models"] [] e.2 "shaders")
              (cross_shDrop_false (by decide) ["resource"] [] e.2 "shaders")
              (prefix_shDrop_false releaseRoot (by decide) e.2)
              (fun _ =>
                cross_shDrop_false (by decide) ["release", "resource"] [] e.2 "shaders")
              (cross_shDrop_false (by decide) ["textures"] [] e.2 "shaders")
              (prefix_shDrop_false releaseRoot (by decide) e.2)
              (fun _ =>
                cross_shDrop_false (by decide) ["release", "textures"] [] e.2 "shaders")]
            exact hsh1 e he
        · cases hr3
    · rcases hdw2 : (plt == "Darwin") with _ | _
      · rw [hdw2] at hr'
        cases hr'
      · rw [hdw2] at hr'
        simp only [if_true, List.mem_singleton] at hr'
        subst hr'
        constructor
        · rw [htrans darwinRoot (isPrefixOf_eq_true_iff.mp (by decide)) (by decide)
            (by decide) (fun _ => by decide) (by decide) (by decide)
            (fun _ => by decide) (by decide) (by decide) (fun _ => by decide)]
          exact hroot1
        · intro e he
          rw [htrans _ (target_prefix_shDrop darwinRoot
              ["x86_64-apple-darwin", "release"] rfl "shaders" e.2)
            (cross_shDrop_false (by decide) ["models"] ["release"] e.2 "shaders")
            (cross_shDrop_false (by decide) ["models"] ["release"] e.2 "shaders")
            (fun _ => prefix_shDrop_false darwinRoot (by decide) e.2)
            (cross_shDrop_false (by decide) ["resource"] ["release"] e.2 "shaders")
            (cross_shDrop_false (by decide) ["resource"] ["release"] e.2 "shaders")
            (fun _ => prefix_shDrop_false darwinRoot (by decide) e.2)
            (cross_shDrop_false (by decide) ["textures"] ["release"] e.2 "shaders")
            (cross_shDrop_false (by decide) ["textures"] ["release"] e.2 "shaders")
            (fun _ => prefix_shDrop_false darwinRoot (by decide) e.2)]
          exact hsh1 e he
  obtain ⟨g2, hrun2⟩ := scriptOf_succeeds2 comp (file_names plt) (plt == "Darwin") g
    houts2 henv2 hmo2 hre2 hte2 hcat2 hroots2
  have hgsh_dir : g.isDir shadersD = true := by
    have h1 := scriptOf_dirs_pres comp (file_names plt) (plt == "Darwin") fs hrun'
      shadersD (isPrefixOf_cons_false _ _ (by decide))
      (isPrefixOf_cons_false _ _ (by decide))
      (fun _ => isPrefixOf_cons_false _ _ (by decide))
      (isPrefixOf_cons_false _ _ (by decide))
      (isPrefixOf_cons_false _ _ (by decide))
      (fun _ => isPrefixOf_cons_false _ _ (by decide))
      (isPrefixOf_cons_false _ _ (by decide))
      (isPrefixOf_cons_false _ _ (by decide))
      (fun _ => isPrefixOf_cons_false _ _ (by decide))
    rw [h1]
    apply runScript_mkdirps_isDir_mono comp (mkdirCmds (plt == "Darwin"))
      (compileFS comp (file_names plt) fs) shadersD (mkdirCmds_mkdirps _)
    rw [compileFS_isDir]
    exact hshfs
  have hstg2 : stage comp plt g = (g2, none) := by
    unfold stage
    rw [if_pos hgsh_dir]
    exact hrun2
  refine ⟨g2, hstg2, ?_⟩
  obtain ⟨-, hchar2⟩ := scriptOf_char comp (file_names plt) (plt == "Darwin") g hne hrun2
  have hgsh2 : ∀ q : Path, g2.file (shadersD ++ q)
      = (compileFS comp (file_names plt) g).file (shadersD ++ q) :=
    scriptOf_sh_region comp (file_names plt) (plt == "Darwin") g hrun2
  have toFalse : ∀ b : Bool, ¬ b = true → b = false := by
    intro b hb
    rcases Bool.eq_false_or_eq_true b with h | h
    · exact absurd h hb
    · exact h
  have memD : debugRoot ∈ [debugRoot, releaseRoot]
      ++ (if plt == "Darwin" then [darwinRoot] else []) :=
    List.mem_append.mpr (Or.inl (by decide))
  have memR : releaseRoot ∈ [debugRoot, releaseRoot]
      ++ (if plt == "Darwin" then [darwinRoot] else []) :=
    List.mem_append.mpr (Or.inl (by decide))
  have memDW : (plt == "Darwin") = true → darwinRoot ∈ [debugRoot, releaseRoot]
      ++ (if plt == "Darwin" then [darwinRoot] else []) := by
    intro h
    rw [h]
    exact List.mem_append.mpr (Or.inr (by decide))
  have hfileFrame := scriptOf_file_pres comp (file_names plt) (plt == "Darwin") g hrun2
  have hdirsFrame : ∀ p : Path,
      (debugRoot ++ ["models"]).isPrefixOf p = false →
      (releaseRoot ++ ["models"]).isPrefixOf p = false →
      ((plt == "Darwin") = true → (darwinRoot ++ ["models"]).isPrefixOf p = false) →
      (debugRoot ++ resourceD).isPrefixOf p = false →
      (releaseRoot ++ resourceD).isPrefixOf p = false →
      ((plt == "Darwin") = true → (darwinRoot ++ resourceD).isPrefixOf p = false) →
      (debugRoot ++ texturesD).isPrefixOf p = false →
      (releaseRoot ++ texturesD).isPrefixOf p = false →
      ((plt == "Darwin") = true → (darwinRoot ++ texturesD).isPrefixOf p = false) →
      g2.isDir p = g.isDir p :=
    fun p c1 c2 c3 c4 c5 c6 c7 c8 c9 =>
      (scriptOf_dirs_pres comp (file_names plt) (plt == "Darwin") g hrun2 p
        c1 c2 c3 c4 c5 c6 c7 c8 c9).trans (hdirNoop p)
  have mirrorCase : ∀ root, root ∈ [debugRoot, releaseRoot]
        ++ (if plt == "Darwin" then [darwinRoot] else []) →
      ∀ cat ∈ (["models", "resource", "textures"] : List String),
      ∀ p : Path, (root ++ [cat]).isPrefixOf p = true →
      g2.file p = g.file p ∧ g2.isDir p = g.isDir p := by
    intro root hr cat hcat p hp
    obtain ⟨rest, hrest⟩ : ∃ rest, (root ++ [cat]) ++ rest = p :=
      ⟨p.drop (root ++ [cat]).length, drop_append_of_pref (isPrefixOf_eq_true_iff.mp hp)⟩
    subst hrest
    obtain ⟨h11, h12, h13, -, -, -⟩ := hchar1 root hr
    obtain ⟨h21, h22, h23, -, -, -⟩ := hchar2 root hr
    rcases List.mem_cons.mp hcat with h | hcat
    · subst h
      obtain ⟨a1, a2⟩ := h21 rest
      obtain ⟨b1, b2⟩ := hsrc "models" (by decide) (by decide) rest
      obtain ⟨c1, c2⟩ := h11 rest
      exact ⟨(a1.trans b1).trans c1.symm, (a2.trans b2).trans c2.symm⟩
    rcases List.mem_cons.mp hcat with h | hcat
    · subst h
      obtain ⟨a1, a2⟩ := h22 rest
      obtain ⟨b1, b2⟩ := hsrc "resource" (by decide) (by decide) rest
      obtain ⟨c1, c2⟩ := h12 rest
      exact ⟨(a1.trans b1).trans c1.symm, (a2.trans b2).trans c2.symm⟩
    rcases List.mem_cons.mp hcat with h | hcat
    · subst h
      obtain ⟨a1, a2⟩ := h23 rest
      obtain ⟨b1, b2⟩ := hsrc "textures" (by decide) (by decide) rest
      obtain ⟨c1, c2⟩ := h13 rest
      exact ⟨(a1.trans b1).trans c1.symm, (a2.trans b2).trans c2.symm⟩
    cases hcat
  intro p
  constructor
  · by_cases hS : shadersD.isPrefixOf p = true
    · obtain ⟨t0, ht0⟩ : ∃ t0, shadersD ++ t0 = p :=
        ⟨p.drop shadersD.length, drop_append_of_pref (isPrefixOf_eq_true_iff.mp hS)⟩
      subst ht0
      rw [hgsh2 t0, hidem t0, ← hgsh t0]
    by_cases m1 : (debugRoot ++ ["models"]).isPrefixOf p = true
    · exact (mirrorCase debugRoot memD "models" (by decide) p m1).1
    by_cases m2 : (releaseRoot ++ ["models"]).isPrefixOf p = true
    · exact (mirrorCase releaseRoot memR "models" (by decide) p m2).1
    by_cases m4 : (debugRoot ++ resourceD).isPrefixOf p = true
    · exact (mirrorCase debugRoot memD "resource" (by decide) p m4).1
    by_cases m5 : (releaseRoot ++ resourceD).isPrefixOf p = true
    · exact (mirrorCase releaseRoot memR "resource" (by decide) p m5).1
    by_cases m7 : (debugRoot ++ texturesD).isPrefixOf p = true
    · exact (mirrorCase debugRoot memD "textures" (by decide) p m7).1
    by_cases m8 : (releaseRoot ++ texturesD).isPrefixOf p = true
    · exact (mirrorCase releaseRoot memR "textures" (by decide) p m8).1
    by_cases e1 : p = debugRoot ++ [".env"]
    · subst e1
      obtain ⟨-, -, -, h14, -, -⟩ := hchar1 debugRoot memD
      obtain ⟨-, -, -, h24, -, -⟩ := hchar2 debugRoot memD
      have hb : g.file envFile = fs.file envFile :=
        (hsrc ".env" (by decide) (by decide) []).1
      rw [h24, hb, ← h14]
    by_cases e2 : p = releaseRoot ++ [".env"]
    · subst e2
      obtain ⟨-, -, -, h14, -, -⟩ := hchar1 releaseRoot memR
      obtain ⟨-, -, -, h24, -, -⟩ := hchar2 releaseRoot memR
      have hb : g.file envFile = fs.file envFile :=
        (hsrc ".env" (by decide) (by decide) []).1
      rw [h24, hb, ← h14]
    by_cases o1 : p ∈ (file_names plt).map (fun e => debugRoot ++ ["shaders"] ++ e.2)
    · obtain ⟨e, he, hpe⟩ := List.mem_map.mp o1
      subst hpe
      have hy : e.2 ∈ (file_names plt).map (fun e => e.2) :=
        List.mem_map.mpr ⟨e, he, rfl⟩
      obtain ⟨-, -, -, -, h15, -⟩ := hchar1 debugRoot memD
      obtain ⟨-, -, -, -, h25, -⟩ := hchar2 debugRoot memD
      rw [h25 e.2 hy, hidem e.2, ← h15 e.2 hy]
    by_cases o2 : p ∈ (file_names plt).map (fun e => releaseRoot ++ ["shaders"] ++ e.2)
    · obtain ⟨e, he, hpe⟩ := List.mem_map.mp o2
      subst hpe
      have hy : e.2 ∈ (file_names plt).map (fun e => e.2) :=
        List.mem_map.mpr ⟨e, he, rfl⟩
      obtain ⟨-, -, -, -, h15, -⟩ := hchar1 releaseRoot memR
      obtain ⟨-, -, -, -, h25, -⟩ := hchar2 releaseRoot memR
      rw [h25 e.2 hy, hidem e.2, ← h15 e.2 hy]
    have no1 : ∀ y ∈ (file_names plt).map (fun e => e.2),
        p ≠ debugRoot ++ ["shaders"] ++ y := by
      intro y hy hyp
      obtain ⟨e, he, hey⟩ := List.mem_map.mp hy
      exact o1 (List.mem_map.mpr ⟨e, he, by rw [hey]; exact hyp.symm⟩)
    have no2 : ∀ y ∈ (file_names plt).map (fun e => e.2),
        p ≠ releaseRoot ++ ["shaders"] ++ y := by
      intro y hy hyp
      obtain ⟨e, he, hey⟩ := List.mem_map.mp hy
      exact o2 (List.mem_map.mpr ⟨e, he, by rw [hey]; exact hyp.symm⟩)
    by_cases hdwp : (plt == "Darwin") = true
    · by_cases m3 : (darwinRoot ++ ["models"]).isPrefixOf p = true
      · exact (mirrorCase darwinRoot (memDW hdwp) "models" (by decide) p m3).1
      by_cases m6 : (darwinRoot ++ resourceD).isPrefixOf p = true
      · exact (mirrorCase darwinRoot (memDW hdwp) "resource" (by decide) p m6).1
      by_cases m9 : (darwinRoot ++ texturesD).isPrefixOf p = true
      · exact (mirrorCase darwinRoot (memDW hdwp) "textures" (by decide) p m9).1
      by_cases e3 : p = darwinRoot ++ [".env"]
      · subst e3
        obtain ⟨-, -, -, h14, -, -⟩ := hchar1 darwinRoot (memDW hdwp)
        obtain ⟨-, -, -, h24, -, -⟩ := hchar2 darwinRoot (memDW hdwp)
        have hb : g.file envFile = fs.file envFile :=
          (hsrc ".env" (by decide) (by decide) []).1
        rw [h24, hb, ← h14]
      by_cases o3 : p ∈ (file_names plt).map (fun e => darwinRoot ++ ["shaders"] ++ e.2)
      · obtain ⟨e, he, hpe⟩ := List.mem_map.mp o3
        subst hpe
        have hy : e.2 ∈ (file_names plt).map (fun e => e.2) :=
          List.mem_map.mpr ⟨e, he, rfl⟩
        obtain ⟨-, -, -, -, h15, -⟩ := hchar1 darwinRoot (memDW hdwp)
        obtain ⟨-, -, -, -, h25, -⟩ := hchar2 darwinRoot (memDW hdwp)
        rw [h25 e.2 hy, hidem e.2, ← h15 e.2 hy]
      have no3 : ∀ y ∈ (file_names plt).map (fun e => e.2),
          p ≠ darwinRoot ++ ["shaders"] ++ y := by
        intro y hy hyp
        obtain ⟨e, he, hey⟩ := List.mem_map.mp hy
        exact o3 (List.mem_map.mpr ⟨e, he, by rw [hey]; exact hyp.symm⟩)
      exact hfileFrame p (toFalse _ hS) no1 no2 (fun _ => no3) e1 e2 (fun _ => e3)
        (toFalse _ m1) (toFalse _ m2) (fun _ => toFalse _ m3)
        (toFalse _ m4) (toFalse _ m5) (fun _ => toFalse _ m6)
        (toFalse _ m7) (toFalse _ m8) (fun _ => toFalse _ m9)
    · exact hfileFrame p (toFalse _ hS) no1 no2 (fun h => absurd h hdwp)
        e1 e2 (fun h => absurd h hdwp)
        (toFalse _ m1) (toFalse _ m2) (fun h => absurd h hdwp)
        (toFalse _ m4) (toFalse _ m5) (fun h => absurd h hdwp)
        (toFalse _ m7) (toFalse _ m8) (fun h => absurd h hdwp)
  · by_cases m1 : (debugRoot ++ ["models"]).isPrefixOf p = true
    · exact (mirrorCase debugRoot memD "models" (by decide) p m1).2
    by_cases m2 : (releaseRoot ++ ["models"]).isPrefixOf p = true
    · exact (mirrorCase releaseRoot memR "models" (by decide) p m2).2
    by_cases m4 : (debugRoot ++ resourceD).isPrefixOf p = true
    · exact (mirrorCase debugRoot memD "resource" (by decide) p m4).2
    by_cases m5 : (releaseRoot ++ resourceD).isPrefixOf p = true
    · exact (mirrorCase releaseRoot memR "resource" (by decide) p m5).2
    by_cases m7 : (debugRoot ++ texturesD).isPrefixOf p = true
    · exact (mirrorCase debugRoot memD "textures" (by decide) p m7).2
    by_cases m8 : (releaseRoot ++ texturesD).isPrefixOf p = true
    · exact (mirrorCase releaseRoot memR "textures" (by decide) p m8).2
    by_cases hdwp : (plt == "Darwin") = true
    · by_cases m3 : (darwinRoot ++ ["models"]).isPrefixOf p = true
      · exact (mirrorCase darwinRoot (memDW hdwp) "models" (by decide) p m3).2
      by_cases m6 : (darwinRoot ++ resourceD).isPrefixOf p = true
      · exact (mirrorCase darwinRoot (memDW hdwp) "resource" (by decide) p m6).2
      by_cases m9 : (darwinRoot ++ texturesD).isPrefixOf p = true
      · exact (mirrorCase darwinRoot (memDW hdwp) "textures" (by decide) p m9).2
      exact hdirsFrame p (toFalse _ m1) (toFalse _ m2) (fun _ => toFalse _ m3)
        (toFalse _ m4) (toFalse _ m5) (fun _ => toFalse _ m6)
        (toFalse _ m7) (toFalse _ m8) (fun _ => toFalse _ m9)
    · exact hdirsFrame p (toFalse _ m1) (toFalse _ m2) (fun h => absurd h hdwp)
        (toFalse _ m4) (toFalse _ m5) (fun h => absurd h hdwp)
        (toFalse _ m7) (toFalse _ m8) (fun h => absurd h hdwp)

/-- Witness for C5: a concrete successful Linux run over `staleFS`; the
re-run on its result succeeds and changes nothing. -/
theorem claim5_idempotent_witness :
    ∃ g2 : FS, stage okCompiler "Linux" (stage okCompiler "Linux" staleFS).1
        = (g2, none)
      ∧ ∀ p : Path, g2.file p = (stage okCompiler "Linux" staleFS).1.file p
        ∧ g2.isDir p = (stage okCompiler "Linux" staleFS).1.isDir p :=
  claim5_idempotent okCompiler "Linux" staleFS (by
    have h2 : (stage okCompiler "Linux" staleFS).2 = none := by decide
    rw [← h2])

end Stager
